import Mathlib

/-!
Verification development for the papyrus layout engine.

The Go sources are shallowly embedded in Lean:
* `float64` values are modelled as exact rationals (`ℚ`); the engine performs
  only field arithmetic and comparisons on them.
* Go strings are modelled as Lean `String`s (the DSL lexer produces ASCII
  tokens, where Go's byte indexing and Lean's character indexing coincide).
* Go maps are modelled as association lists with first-match lookup; map
  insertion conses to the front, so a later insert shadows an earlier one,
  matching last-write-wins map semantics extensionally.
* fallible Go functions returning `(T, error)` are modelled with
  `Except String T`; the error message text is immaterial.
-/

namespace Papyrus

/-! ## Unit system (layout/units.go) -/

/-- `Unit` of a DSL length (units.go). `none` marks unit-less numbers. -/
inductive LUnit where
  | unone
  | mm
  | cm
  | inch
  | pt
deriving DecidableEq

/-- Conversion constant `PtToMm = 0.352777` (units.go). -/
def PtToMm : ℚ := 352777 / 1000000

/-- Conversion constant `MmToPt = 1.0 / PtToMm` (units.go). -/
def MmToPt : ℚ := 1 / PtToMm

/-- `UnitToString` (units.go). -/
def UnitToString (u : LUnit) : String :=
  match u with
  | .mm => "mm"
  | .cm => "cm"
  | .inch => "in"
  | .pt => "pt"
  | .unone => ""

/-- `Length` preserves a numeric value with its unit (units.go). -/
structure Length where
  Value : ℚ
  Unit : LUnit
deriving DecidableEq

/-- `Length.To` converts a length to the target unit (units.go).
Only `UnitMM` and `UnitPT` are supported targets, exactly as in the source. -/
def Length.To (l : Length) (target : LUnit) : ℚ :=
  match l.Unit with
  | .mm =>
    if target = .mm ∨ target = .unone then l.Value
    else if target = .pt then l.Value * MmToPt
    else l.Value
  | .cm =>
    let mmv := l.Value * 10
    if target = .mm ∨ target = .unone then mmv
    else if target = .pt then mmv * MmToPt
    else l.Value
  | .inch =>
    let mmv := l.Value * (254 / 10)
    if target = .mm ∨ target = .unone then mmv
    else if target = .pt then mmv * MmToPt
    else l.Value
  | .pt =>
    if target = .pt then l.Value
    else if target = .mm ∨ target = .unone then l.Value * PtToMm
    else l.Value
  | .unone => l.Value

/-- `Length.ToMM` (units.go). -/
def Length.ToMM (l : Length) : ℚ := l.To .mm

/-- `Length.ToPT` (units.go). -/
def Length.ToPT (l : Length) : ℚ := l.To .pt

/-! ## String helpers

Go string primitives are modelled by structural recursion over the
character list of a `String`, so that every definition evaluates by kernel
reduction. The DSL produces ASCII tokens, where Go's byte-wise functions
and these character-wise models coincide. -/

/-- Character-list equality (Go `==` on strings, spelled out). -/
def listEqCh : List Char → List Char → Bool
  | [], [] => true
  | a :: as, b :: bs => if a = b then listEqCh as bs else false
  | _, _ => false

/-- Go `strings.HasPrefix` over character lists. -/
def isPfxOf : List Char → List Char → Bool
  | [], _ => true
  | _ :: _, [] => false
  | a :: as, b :: bs => if a = b then isPfxOf as bs else false

/-- Go `strings.HasPrefix`. -/
def hasPrefixCh (s pre : String) : Bool := isPfxOf pre.data s.data

/-- Go `strings.HasSuffix`. -/
def hasSuffixCh (s suf : String) : Bool :=
  decide (suf.data.length ≤ s.data.length) &&
    listEqCh (s.data.drop (s.data.length - suf.data.length)) suf.data

/-- Drop the last `n` characters (Go slicing `s[:len(s)-n]`). -/
def dropRightCh (s : String) (n : ℕ) : String :=
  String.mk (s.data.take (s.data.length - n))

/-- Drop the first `n` characters (Go slicing `s[n:]`). -/
def dropCh (s : String) (n : ℕ) : String :=
  String.mk (s.data.drop n)

/-- ASCII lower-casing of one character (Go `strings.ToLower` restricted to
the ASCII range the DSL produces). -/
def lowerCh (c : Char) : Char :=
  if 'A' ≤ c ∧ c ≤ 'Z' then Char.ofNat (c.toNat + 32) else c

/-- ASCII upper-casing of one character. -/
def upperCh (c : Char) : Char :=
  if 'a' ≤ c ∧ c ≤ 'z' then Char.ofNat (c.toNat - 32) else c

/-- Go `strings.ToLower`. -/
def toLowerCh (s : String) : String := String.mk (s.data.map lowerCh)

/-- Go `strings.ToUpper`. -/
def toUpperCh (s : String) : String := String.mk (s.data.map upperCh)

/-- ASCII whitespace (the characters `unicode.IsSpace` accepts that occur
in DSL input). -/
def isSpaceB (c : Char) : Bool :=
  c = ' ' ∨ c = '\t' ∨ c = '\n' ∨ c = '\x0b' ∨ c = '\x0c' ∨ c = '\r'

/-- Go `strings.TrimSpace`. -/
def trimSpaceCh (s : String) : String :=
  String.mk (((s.data.dropWhile isSpaceB).reverse.dropWhile isSpaceB).reverse)

/-- Helper for `splitOnCh`: split at every occurrence of `sep`. -/
def splitChAux (sep : Char) : List Char → List Char → List String
  | [], acc => [String.mk acc.reverse]
  | c :: rest, acc =>
    if c = sep then String.mk acc.reverse :: splitChAux sep rest []
    else splitChAux sep rest (c :: acc)

/-- Go `strings.Split` with a one-character separator. -/
def splitOnCh (sep : Char) (s : String) : List String :=
  splitChAux sep s.data []

/-! ## Decimal parsing

`strconv.ParseFloat` / `strconv.Atoi` are modelled for the decimal literals
the DSL lexer can produce (`Number` tokens match `\d+(\.\d+)?` plus an
optional unit suffix); an optional sign is also accepted, as in Go. Inputs
outside this subset (hex floats, exponents, `Inf`, `NaN`) are rejected by the
model; no such token reaches these parsers from the DSL. -/

/-- Numeric value of a decimal digit, if the character is one. -/
def digitVal? (c : Char) : Option ℕ :=
  if '0' ≤ c ∧ c ≤ '9' then some (c.toNat - '0'.toNat) else none

/-- Whether a character is a decimal digit. -/
def isDigitB (c : Char) : Bool := decide ('0' ≤ c ∧ c ≤ '9')

/-- Accumulate decimal digits into a natural number. -/
def digitsToNat (cs : List Char) : ℕ :=
  cs.foldl (fun acc c => acc * 10 + (c.toNat - '0'.toNat)) 0

/-- Parse an unsigned decimal string `digits[.digits]` (also `.digits` and
`digits.`, both accepted by `strconv.ParseFloat`) into an exact rational. -/
def parseUnsignedDec? (cs : List Char) : Option ℚ :=
  let intPart := cs.takeWhile isDigitB
  let rest := cs.drop intPart.length
  match rest with
  | [] => if intPart.isEmpty then none else some (digitsToNat intPart)
  | '.' :: frac =>
    if frac.all isDigitB ∧ ¬ (intPart.isEmpty ∧ frac.isEmpty) then
      some ((digitsToNat intPart : ℚ) + (digitsToNat frac : ℚ) / (10 ^ frac.length))
    else none
  | _ => none

/-- Model of `strconv.ParseFloat` on the DSL's decimal subset. -/
def parseFloatQ? (s : String) : Option ℚ :=
  match s.data with
  | [] => none
  | '-' :: rest => (parseUnsignedDec? rest).map (fun q => -q)
  | '+' :: rest => parseUnsignedDec? rest
  | cs => parseUnsignedDec? cs

/-- Model of `strconv.Atoi` on (signed) decimal integer strings. -/
def parseAtoi? (s : String) : Option ℤ :=
  match s.data with
  | [] => none
  | '-' :: rest => if rest.isEmpty ∨ ¬ rest.all isDigitB then none
                   else some (-(digitsToNat rest : ℤ))
  | '+' :: rest => if rest.isEmpty ∨ ¬ rest.all isDigitB then none
                   else some (digitsToNat rest : ℤ)
  | cs => if cs.all isDigitB then some (digitsToNat cs : ℤ) else none

/-- Go `strings.TrimSuffix`. -/
def trimSuffix (s suffixStr : String) : String :=
  if hasSuffixCh s suffixStr then dropRightCh s suffixStr.data.length else s

/-- Go `strings.TrimPrefix`. -/
def trimPfx (s pfx : String) : String :=
  if hasPrefixCh s pfx then dropCh s pfx.data.length else s

/-- `trimUnit` (builder.go): strip one of the known unit suffixes. -/
def trimUnit (value : String) : String :=
  if hasSuffixCh value "pt" then dropRightCh value 2
  else if hasSuffixCh value "mm" then dropRightCh value 2
  else if hasSuffixCh value "cm" then dropRightCh value 2
  else if hasSuffixCh value "in" then dropRightCh value 2
  else if hasSuffixCh value "%" then dropRightCh value 1
  else value

/-- `parseLength` (builder.go): parse a DSL length into millimetres,
returning 0 on malformed input, never failing. -/
def parseLength (value : String) : ℚ :=
  if value = "" then 0
  else
    let unit :=
      if hasSuffixCh value "mm" then "mm"
      else if hasSuffixCh value "cm" then "cm"
      else if hasSuffixCh value "in" then "in"
      else if hasSuffixCh value "pt" then "pt"
      else ""
    match parseFloatQ? (trimUnit value) with
    | none => 0
    | some val =>
      if unit = "cm" then val * 10
      else if unit = "in" then val * (254 / 10)
      else if unit = "pt" then val * PtToMm
      else val

/-- `parseDimension` (builder.go): like `parseLength` but resolving a
trailing `%` against a reference dimension. -/
def parseDimension (value : String) (reference : ℚ) : ℚ :=
  if value = "" then 0
  else if hasSuffixCh value "%" then
    match parseFloatQ? (dropRightCh value 1) with
    | some f => reference * f / 100
    | none => 0
  else parseLength value

/-- `parseFontSize` (builder.go): parse a size in its raw numeric value
(points), defaulting to 12. -/
def parseFontSize (value : String) : ℚ :=
  if value = "" then 12
  else
    match parseFloatQ? (trimUnit value) with
    | none => 12
    | some f => f

/-- `ParseRawLengthStr` (units.go): parse a DSL length string preserving
its unit. -/
def ParseRawLengthStr (value : String) : Length :=
  let v := trimSpaceCh value
  if v = "" then { Value := 0, Unit := .unone }
  else
    let lower := toLowerCh v
    let pick : String × LUnit :=
      if hasSuffixCh lower "mm" then (dropRightCh lower 2, .mm)
      else if hasSuffixCh lower "cm" then (dropRightCh lower 2, .cm)
      else if hasSuffixCh lower "in" then (dropRightCh lower 2, .inch)
      else if hasSuffixCh lower "pt" then (dropRightCh lower 2, .pt)
      else (lower, .unone)
    match parseFloatQ? (trimSpaceCh pick.1) with
    | none => { Value := 0, Unit := .unone }
    | some f => { Value := f, Unit := pick.2 }

/-! ## Margin shorthand (builder.go `resolveMargin`) -/

/-- `Margin` in millimetres (layout types). -/
structure Margin where
  Top : ℚ
  Right : ℚ
  Bottom : ℚ
  Left : ℚ
deriving DecidableEq

/-- `dsl.Lexeme`: a single lexical token. The `Raw`/`Pos` fields are not
consulted by the layout engine and are omitted; the Go field `Type` is
spelled `Typ` because `Type` is a Lean keyword. -/
structure Lexeme where
  Typ : String
  Value : String
deriving DecidableEq

/-- The inner collection loop of `resolveMargin`: walk the tokens following
the `margin` keyword, collecting up to `budget` (initially 4) values, and
stop at the first token whose trimmed numeric part does not parse as a
float (Go: `strconv.ParseFloat(trimUnit(...))` errors). -/
def marginValsAux : List Lexeme → ℕ → List ℚ → List ℚ
  | _, 0, acc => acc
  | [], _ + 1, acc => acc
  | t :: rest, budget + 1, acc =>
    match parseFloatQ? (trimUnit t.Value) with
    | none => acc
    | some _ => marginValsAux rest budget (acc ++ [parseLength t.Value])

/-- The `switch len(vals)` of `resolveMargin`, assigning the collected
values with CSS-like shorthand semantics. -/
def applyMarginVals (vals : List ℚ) (margin : Margin) : Margin :=
  match vals with
  | [v] => { Top := v, Right := v, Bottom := v, Left := v }
  | [v1, v2] => { Top := v1, Right := v2, Bottom := v1, Left := v2 }
  | [v1, v2, v3] => { Top := v1, Right := v2, Bottom := v3, Left := 0 }
  | [v1, v2, v3, v4] => { Top := v1, Right := v2, Bottom := v3, Left := v4 }
  | _ => margin

/-- The outer scanning loop of `resolveMargin`: each `margin` token triggers
collection over the tokens that follow it (the outer index then continues
from the next token, as in the Go `for i` loop). -/
def resolveMarginGo : List Lexeme → Margin → Margin
  | [], m => m
  | t :: rest, m =>
    if t.Value = "margin" then
      resolveMarginGo rest (applyMarginVals (marginValsAux rest 4 []) m)
    else resolveMarginGo rest m

/-- `resolveMargin` (builder.go): default 20mm on all sides. -/
def resolveMargin (params : List Lexeme) : Margin :=
  resolveMarginGo params { Top := 20, Right := 20, Bottom := 20, Left := 20 }

/-! ## Colors (builder.go `parseColor`, `mustHex`) -/

/-- `Color` with 0-255 RGB components (layout types). -/
structure Color where
  R : ℤ
  G : ℤ
  B : ℤ
deriving DecidableEq

/-- Hex value of one character, if it is a hex digit. -/
def hexDigitVal? (c : Char) : Option ℕ :=
  if '0' ≤ c ∧ c ≤ '9' then some (c.toNat - '0'.toNat)
  else if 'a' ≤ c ∧ c ≤ 'f' then some (c.toNat - 'a'.toNat + 10)
  else if 'A' ≤ c ∧ c ≤ 'F' then some (c.toNat - 'A'.toNat + 10)
  else none

/-- Parse a nonempty all-hex-digit string to a natural number. -/
def parseHexNat? : List Char → Option ℕ
  | [] => none
  | cs =>
    cs.foldl (fun acc c =>
      match acc, hexDigitVal? c with
      | some a, some d => some (a * 16 + d)
      | _, _ => none) (some 0)

/-- Model of `strconv.ParseInt(s, 16, 64)` for the short strings `mustHex`
receives: optional sign followed by hex digits (no `0x` prefix with an
explicit base in Go). -/
def parseHexInt? (s : String) : Option ℤ :=
  match s.data with
  | [] => none
  | '-' :: rest => (parseHexNat? rest).map (fun n => -(n : ℤ))
  | '+' :: rest => (parseHexNat? rest).map (fun n => (n : ℤ))
  | cs => (parseHexNat? cs).map (fun n => (n : ℤ))

/-- `mustHex` (builder.go): ignores the parse error, so any syntactically
invalid hex component silently becomes 0. -/
def mustHex (s : String) : ℤ :=
  match parseHexInt? s with
  | some v => v
  | none => 0

/-- String made of one character repeated twice (Go
`strings.Repeat(string(value[0]), 2)`). -/
def repeatTwo (c : Char) : String := String.mk [c, c]

/-- `parseColor` (builder.go): accepts values of length 3/6/8 after
trimming one leading `#`; a wrong length is the only error case. -/
def parseColor (value : String) : Except String Color :=
  let v := trimPfx value "#"
  match v.data with
  | [c0, c1, c2] =>
    .ok { R := mustHex (repeatTwo c0), G := mustHex (repeatTwo c1),
          B := mustHex (repeatTwo c2) }
  | [c0, c1, c2, c3, c4, c5] =>
    .ok { R := mustHex (String.mk [c0, c1]), G := mustHex (String.mk [c2, c3]),
          B := mustHex (String.mk [c4, c5]) }
  | [c0, c1, c2, c3, c4, c5, _, _] =>
    .ok { R := mustHex (String.mk [c0, c1]), G := mustHex (String.mk [c2, c3]),
          B := mustHex (String.mk [c4, c5]) }
  | _ => .error ("cannot parse color value " ++ value)

/-! ## Style resolution (builder.go `resolveStyles`) -/

/-- A style record (layout `Style`): name, parent name in `Extends` (the
empty string meaning "no parent", as in Go), and the property map. -/
structure StyleR where
  Name : String
  Extends : String
  Props : List (String × String)
deriving DecidableEq

/-- Termination measure for `dfs`: the number of style-table keys not yet in
the visiting set. -/
def dfsMeasure (styles : List (String × StyleR)) (visiting : List String) : ℕ :=
  (styles.map Prod.fst).countP (fun n => !visiting.contains n)

/-- `resolveStyles`'s inner `dfs` (builder.go): memoized depth-first merge
with cycle detection via the `visiting` set. The Go function mutates shared
`resolved`/`visiting` maps; here `resolved` is threaded through and returned
(its mutations persist), while `visiting` is passed downward only — a
successful Go call deletes its own addition before returning, and on an
error the whole resolution aborts, so on every path observable to a caller
the two models agree. In the no-`extends` branch Go rebuilds the property
map from the style's own properties, which is the style record unchanged. -/
def dfs (styles resolved : List (String × StyleR)) (visiting : List String) (name : String) :
    Except String (StyleR × List (String × StyleR)) :=
  match List.lookup name resolved with
  | some st => .ok (st, resolved)
  | none =>
    match hs : List.lookup name styles with
    | none => .error ("style not defined: " ++ name)
    | some st =>
      if hv : visiting.contains name = true then
        .error ("style inheritance cycle: " ++ name)
      else
        if st.Extends = "" then
          .ok (st, (name, st) :: resolved)
        else
          match dfs styles resolved (name :: visiting) st.Extends with
          | .error e => .error e
          | .ok (parent, resolved1) =>
            let st' := { st with Props := st.Props ++ parent.Props }
            .ok (st', (name, st') :: resolved1)
termination_by dfsMeasure styles visiting
decreasing_by
  have hmem : name ∈ styles.map Prod.fst := by
    obtain ⟨l₁, l₂, hl, -⟩ := List.lookup_eq_some_iff.mp hs
    subst hl
    simp
  have hnv : ¬ name ∈ visiting := by simpa using hv
  obtain ⟨s, t, hst⟩ := List.append_of_mem hmem
  unfold dfsMeasure
  rw [hst]
  have mono : ∀ l : List String,
      l.countP (fun n => !(name :: visiting).contains n) ≤
        l.countP (fun n => !visiting.contains n) := by
    intro l
    apply List.countP_mono_left
    intro x _ hx
    simp only [List.contains_cons, Bool.not_eq_eq_eq_not, Bool.not_true,
      Bool.or_eq_false_iff] at hx ⊢
    simp only [List.elem_eq_mem, decide_eq_false_iff_not] at hx ⊢
    exact hx.2
  have hpos : (fun n => !visiting.contains n) name = true := by
    simpa using hnv
  simp only [List.countP_append]
  rw [List.countP_cons_of_neg _ _ (by simp),
    List.countP_cons_of_pos _ _ (by simpa using hpos)]
  have h1 := mono s
  have h2 := mono t
  omega

/-- The `for name := range styles` loop of `resolveStyles`, threading the
memo map; Go map iteration order is unspecified, the model iterates the
key list in order. -/
def resolveStylesLoop (styles : List (String × StyleR)) :
    List String → List (String × StyleR) → Except String (List (String × StyleR))
  | [], resolved => .ok resolved
  | n :: rest, resolved =>
    match dfs styles resolved [] n with
    | .error e => .error e
    | .ok (_, resolved') => resolveStylesLoop styles rest resolved'

/-- `resolveStyles` (builder.go). -/
def resolveStyles (styles : List (String × StyleR)) :
    Except String (List (String × StyleR)) :=
  resolveStylesLoop styles (styles.map Prod.fst) []

/-- One step along a style's `extends` chain. -/
def extStep (styles : List (String × StyleR)) (n : String) : Option String :=
  match List.lookup n styles with
  | none => none
  | some st => if st.Extends = "" then none else some st.Extends

/-- `k` steps along the `extends` chain. -/
def extIter (styles : List (String × StyleR)) : ℕ → String → Option String
  | 0, n => some n
  | k + 1, n => (extStep styles n).bind (extIter styles k)

/-- A style name lying on an `extends` cycle: following the chain returns to
the same name after at least one step (a direct or transitive
self-extension). -/
def onCycle (styles : List (String × StyleR)) (n : String) : Prop :=
  ∃ k, extIter styles (k + 1) n = some n

/-- Invariant of the memo map: every resolved entry is the raw style with
its parent's fully-resolved properties merged underneath its own. -/
def styleInvariant (styles resolved : List (String × StyleR)) : Prop :=
  ∀ n st', List.lookup n resolved = some st' →
    ∃ st, List.lookup n styles = some st ∧
      ((st.Extends = "" ∧ st' = st) ∨
       (st.Extends ≠ "" ∧ ∃ pst, List.lookup st.Extends resolved = some pst ∧
         st' = { st with Props := st.Props ++ pst.Props }))

/-- Invariant of the memo map: no resolved entry lies on an extends cycle. -/
def noCycleResolved (styles resolved : List (String × StyleR)) : Prop :=
  ∀ m v, List.lookup m resolved = some v → ¬ onCycle styles m

/-! ## Data binder (binding package: `Interpolate`, `resolvePath`)

The runtime data object is whatever `encoding/json` unmarshals: nested
maps, arrays, strings, numbers, booleans and nulls. A numeric leaf keeps
its `fmt.Sprint` rendering as a string — the engine never computes with
data values, only prints them. -/

/-- JSON-like runtime data. -/
inductive JsonVal where
  | jstr (s : String)
  | jnum (s : String)
  | jbool (b : Bool)
  | jnull
  | jarr (vs : List JsonVal)
  | jobj (fs : List (String × JsonVal))

mutual
/-- `fmt.Sprint` on a data value (Go's default string form; for maps Go
sorts the keys, the model prints them in list order). -/
def sprintVal : JsonVal → String
  | .jstr s => s
  | .jnum s => s
  | .jbool b => if b then "true" else "false"
  | .jnull => "<nil>"
  | .jarr vs => "[" ++ sprintList vs ++ "]"
  | .jobj fs => "map[" ++ sprintObj fs ++ "]"
/-- Space-separated elements of a printed slice. -/
def sprintList : List JsonVal → String
  | [] => ""
  | [v] => sprintVal v
  | v :: rest => sprintVal v ++ " " ++ sprintList rest
/-- Space-separated `key:value` entries of a printed map. -/
def sprintObj : List (String × JsonVal) → String
  | [] => ""
  | [kv] => kv.1 ++ ":" ++ sprintVal kv.2
  | kv :: rest => kv.1 ++ ":" ++ sprintVal kv.2 ++ " " ++ sprintObj rest
end

/-- `descendMap` (binding): descend a key into a map-typed value. -/
def descendMap (current : JsonVal) (key : String) : Option JsonVal :=
  match current with
  | .jobj fs => List.lookup key fs
  | _ => none

/-- `descendArray` (binding): descend an index into an array-typed value
with bounds checking. -/
def descendArray (current : JsonVal) (idx : ℤ) : Option JsonVal :=
  match current with
  | .jarr vs => if idx < 0 ∨ (vs.length : ℤ) ≤ idx then none else vs[idx.toNat]?
  | _ => none

/-- The index-group loop of `parseSegment` (binding): read `[idx]` groups
until a malformed group stops the scan. -/
def idxLoop (cs : List Char) : List String :=
  match cs with
  | '[' :: tail =>
    let inner := tail.takeWhile (fun c => c ≠ ']')
    if inner.length = tail.length then []
    else String.mk inner :: idxLoop (tail.drop (inner.length + 1))
  | _ => []
termination_by cs.length
decreasing_by
  simp_wf
  have := List.length_drop (inner.length + 1) tail
  omega

/-- `parseSegment` (binding): split `name[i][j]` into the bare key and its
index suffixes. -/
def parseSegment (segment : String) : String × List String :=
  let cs := segment.data
  let namePart := cs.takeWhile (fun c => c ≠ '[')
  if namePart.length = cs.length then (segment, [])
  else (String.mk namePart, idxLoop (cs.drop namePart.length))

/-- The index-descent loop of `resolvePath` (binding). -/
def applyIndexes : JsonVal → List String → Option JsonVal
  | cur, [] => some cur
  | cur, idxStr :: rest =>
    match parseAtoi? idxStr with
    | none => none
    | some idx =>
      match descendArray cur idx with
      | none => none
      | some nxt => applyIndexes nxt rest

/-- The segment loop of `resolvePath` (binding). -/
def resolveSegs : JsonVal → List String → Option JsonVal
  | cur, [] => some cur
  | cur, seg :: rest =>
    let pr := parseSegment seg
    let afterName : Option JsonVal :=
      if pr.1 = "" then some cur else descendMap cur pr.1
    match afterName with
    | none => none
    | some c1 =>
      match applyIndexes c1 pr.2 with
      | none => none
      | some c2 => resolveSegs c2 rest

/-- `resolvePath` (binding): split the path on `.` and descend. -/
def resolvePath (data : JsonVal) (path : String) : Option JsonVal :=
  resolveSegs data (splitOnCh '.' path)

/-! ## DSL abstract syntax (dsl package)

Only the pieces the layout engine reads are modelled: positions, raw token
text and the unused `page-set` sections are omitted. A Go `*Block` may be
nil, hence `Option Block`; a `Statement` holds exactly one of an
assignment, a command or a text literal. -/

/-- `dsl.Value`: a generic property value. -/
inductive Value where
  | vstr (s : String)
  | vnum (s : String)
  | vcolor (s : String)
  | varr (vs : List Value)
  | vobj (entries : List (String × Value))
  | vexpr (parts : List Lexeme)

mutual
/-- `dsl.Command`: name, argument tokens and an optional nested block. -/
inductive Cmd where
  | mk (name : String) (args : List Lexeme) (block? : Option Block)
/-- `dsl.Block`: a list of statements. -/
inductive Block where
  | mk (statements : List Stmt)
/-- `dsl.Statement`: assignment, command or text literal. -/
inductive Stmt where
  | sassign (key : String) (value : Value)
  | scmd (c : Cmd)
  | stext (s : String)
end

/-- Command name accessor. -/
def Cmd.name : Cmd → String
  | .mk n _ _ => n

/-- Command arguments accessor. -/
def Cmd.args : Cmd → List Lexeme
  | .mk _ a _ => a

/-- Command block accessor. -/
def Cmd.block? : Cmd → Option Block
  | .mk _ _ b => b

/-- Block statements accessor. -/
def Block.statements : Block → List Stmt
  | .mk l => l

/-- `dsl.MetaSection`. -/
structure MetaSection where
  block? : Option Block

/-- `dsl.ResourcesSection`. -/
structure ResourcesSection where
  block? : Option Block

/-- `dsl.PageSpec`: size token and header parameter tokens. -/
structure PageSpec where
  Size : String
  Params : List Lexeme

/-- `dsl.PageSection`. -/
structure PageSection where
  Spec : PageSpec
  block? : Option Block

/-- `dsl.Section`: at most one of the alternatives is set. -/
structure Section where
  meta? : Option MetaSection
  resources? : Option ResourcesSection
  page? : Option PageSection

/-- `dsl.Document` (name/version are not read by the layout engine). -/
structure Document where
  sections : List Section

/-! ## Layout result types (layout package) -/

/-- `TextLine`: one measured line of text. -/
structure TextLine where
  Content : String
  Width : ℚ
  Height : ℚ
  GapBefore : ℚ
deriving DecidableEq

/-- `RawLengthJSON` (debug shadow of a `Length`). -/
structure RawLengthJSON where
  Value : ℚ
  Unit : String
deriving DecidableEq

/-- `RawLineHeightJSON` (debug shadow of a line-height spec). -/
structure RawLineHeightJSON where
  Kind : String
  Factor : ℚ
  Value : ℚ
  Unit : String
deriving DecidableEq

/-- `RawUnits` (debug-only original author units). -/
structure RawUnits where
  FontSize : Option RawLengthJSON
  LineHeight : Option RawLineHeightJSON
deriving DecidableEq

/-- `TextBoxDebug`; the Go field `RawUnits` is spelled `rawUnits` to avoid
clashing with the type of the same name. -/
structure TextBoxDebug where
  rawUnits : Option RawUnits
deriving DecidableEq

/-- `TextBox`: a positioned, wrapped text block. Empty `Align`/`Wrap`
strings mean "unset", as the omitted-when-empty JSON fields do in Go. -/
structure TextBox where
  Content : String
  X : ℚ
  Y : ℚ
  Width : ℚ
  LineHeight : ℚ
  Font : String
  FontSize : ℚ
  Color : Color
  Lines : List TextLine
  Height : ℚ
  Align : String
  Wrap : String
  Debug : Option TextBoxDebug
deriving DecidableEq

/-- `ImageBox`. -/
structure ImageBox where
  Path : String
  X : ℚ
  Y : ℚ
  Width : ℚ
  Height : ℚ
  Fit : String
  Opacity : ℚ
deriving DecidableEq

/-- `TableCell` wraps a `TextBox`. -/
structure TableCell where
  Text : TextBox
deriving DecidableEq

/-- `TableRow`. -/
structure TableRow where
  Y : ℚ
  Height : ℚ
  IsHeader : Bool
  Cells : List TableCell
deriving DecidableEq

/-- `TableBox`. -/
structure TableBox where
  X : ℚ
  Y : ℚ
  Width : ℚ
  RowGap : ℚ
  ColumnWidths : List ℚ
  Rows : List TableRow
  BorderColor : Color
deriving DecidableEq

/-- `Line` (basic shape). -/
structure Line where
  X1 : ℚ
  Y1 : ℚ
  X2 : ℚ
  Y2 : ℚ
  Color : Color
  Width : ℚ
deriving DecidableEq

/-- `Rect` (basic shape). -/
structure Rect where
  X : ℚ
  Y : ℚ
  Width : ℚ
  Height : ℚ
  StrokeColor : Color
  StrokeWidth : ℚ
  FillColor : Option Color
deriving DecidableEq

/-- `Circle` (basic shape). -/
structure Circle where
  CX : ℚ
  CY : ℚ
  R : ℚ
  StrokeColor : Color
  StrokeWidth : ℚ
  FillColor : Option Color
deriving DecidableEq

/-- `HeaderFooter`: fixed band height plus its elements. -/
structure HeaderFooter where
  Height : ℚ
  Texts : List TextBox
  Images : List ImageBox
  Lines : List Line
  Rects : List Rect
  Circles : List Circle
deriving DecidableEq

/-- `Page`. -/
structure Page where
  Width : ℚ
  Height : ℚ
  Margin : Margin
  Texts : List TextBox
  Images : List ImageBox
  Tables : List TableBox
  Lines : List Line
  Rects : List Rect
  Circles : List Circle
  Header : HeaderFooter
  Footer : HeaderFooter
deriving DecidableEq

/-- `FontResource`. -/
structure FontResource where
  Name : String
  Src : String
  Style : String
  Base : String
  Family : String
  IsBuiltin : Bool
  Fallback : String
deriving DecidableEq

/-- `ImageResource` (width/height stored in millimetres). -/
structure ImageResource where
  Name : String
  Src : String
  Width : ℚ
  Height : ℚ
  DPI : ℤ
deriving DecidableEq

/-- `ResourceSet`. -/
structure ResourceSet where
  Fonts : List (String × FontResource)
  Colors : List (String × Color)
  Images : List (String × ImageResource)
  Styles : List (String × StyleR)
deriving DecidableEq

/-- `DocumentMeta`. -/
structure DocumentMeta where
  Title : String
  Author : String
  Subject : String
  Creator : String
  Keywords : List String
deriving DecidableEq

/-- `Result`: the engine's only output. -/
structure Result where
  Pages : List Page
  Resources : ResourceSet
  Meta : DocumentMeta
deriving DecidableEq

/-- `DebugOptions`. -/
structure DebugOptions where
  RawUnits : Bool
deriving DecidableEq

/-- The `Typesetter` interface: its single `LayoutLines` operation. -/
abbrev Typesetter :=
  String → ℚ → FontResource → ℚ → ℚ → String → Except String (List TextLine)

/-- `BuildOptions`; a nil Go interface is `none`. -/
structure BuildOptions where
  Typesetter? : Option Typesetter
  Debug : DebugOptions

/-- One token of the interpolation scan: either a raw text chunk or the
inner text of a placeholder. -/
inductive ITok where
  | raw (s : String)
  | ph (inner : String)

/-- Flush pending raw characters (accumulated in reverse) as a raw token. -/
def emitAcc (acc : List Char) (toks : List ITok) : List ITok :=
  if acc.isEmpty then toks else .raw (String.mk acc.reverse) :: toks

/-- Scanner for the regex `\$\{([^}]+)\}` used by `Interpolate`: finds the
leftmost-greedy non-overlapping matches, collecting everything between
matches as raw chunks, exactly as `regexp.ReplaceAllStringFunc` does. -/
def tokenizeAux (acc cs : List Char) : List ITok :=
  match cs with
  | [] => emitAcc acc []
  | '$' :: '\x7b' :: rest =>
    let inner := rest.takeWhile (fun c => c ≠ '\x7d')
    if inner.isEmpty ∨ inner.length = rest.length then
      tokenizeAux ('$' :: acc) ('\x7b' :: rest)
    else
      emitAcc acc (.ph (String.mk inner) :: tokenizeAux [] (rest.drop (inner.length + 1)))
  | c :: rest => tokenizeAux (c :: acc) rest
termination_by cs.length
decreasing_by
  · simp
  · simp_wf
    have := List.length_drop (inner.length + 1) rest
    omega
  · simp

/-- Tokenize a text into raw chunks and placeholders. -/
def tokenizeInterp (s : String) : List ITok := tokenizeAux [] s.data

/-- The callback of `Interpolate` on one placeholder: trim the inner text,
keep the whole placeholder verbatim when the path is empty or does not
resolve, otherwise print the resolved value. -/
def renderPh (d : JsonVal) (inner : String) : String :=
  let path := trimSpaceCh inner
  if path = "" then "$\x7b" ++ inner ++ "\x7d"
  else
    match resolvePath d path with
    | some v => sprintVal v
    | none => "$\x7b" ++ inner ++ "\x7d"

/-- Characters a token contributes to the interpolated output. -/
def renderTokCh (d : JsonVal) : ITok → List Char
  | .raw s => s.data
  | .ph inner => (renderPh d inner).data

/-- Characters a token covered in the input text. -/
def verbatimTokCh : ITok → List Char
  | .raw s => s.data
  | .ph inner => '$' :: '\x7b' :: (inner.data ++ ['\x7d'])

/-- `Interpolate` (binding): replace each `$\x7b...\x7d` placeholder via
`renderPh`; a nil data object returns the text unchanged. -/
def Interpolate (text : String) (data : Option JsonVal) : String :=
  match data with
  | none => text
  | some d => String.mk (((tokenizeInterp text).map (renderTokCh d)).flatten)

/-! ## Attribute and argument helpers (builder.go) -/

/-- Attribute maps (`map[string]string`): association lists where the first
match wins, so insertion conses to the front. -/
abbrev Attrs := List (String × String)

/-- Go map read `m[k]`: the zero value `""` when the key is absent. -/
def attrGet (m : Attrs) (k : String) : String :=
  (List.lookup k m).getD ""

/-- The key/value pairing loop of `parseArgs` (`for cursor < len(args)-1`);
an unpaired trailing token is dropped. -/
def parseArgsPairs : List Lexeme → List (String × String)
  | a :: b :: rest => (a.Value, b.Value) :: parseArgsPairs rest
  | _ => []

/-- `parseArgs` (builder.go): optional leading style ident, then key/value
pairs; the pair list is reversed so that a later duplicate key shadows an
earlier one, as in a Go map. -/
def parseArgs (args : List Lexeme) (allowStyle : Bool) : String × Attrs :=
  match args with
  | [] => ("", [])
  | a0 :: rest =>
    if allowStyle ∧ a0.Typ = "Ident" then (a0.Value, (parseArgsPairs rest).reverse)
    else ("", (parseArgsPairs (a0 :: rest)).reverse)

/-- `mergeStyleAttributes` (builder.go): the referenced style's properties,
overridden by the inline attributes. -/
def mergeStyleAttributes (style : String) (inline : Attrs)
    (styles : List (String × StyleR)) : Attrs :=
  inline ++
    (if style ≠ "" then
      match List.lookup style styles with
      | some s => s.Props
      | none => []
    else [])

/-- `extractText` (builder.go): concatenate the literal text fragments of a
block (a nil block yields the empty string). -/
def extractText (block? : Option Block) : String :=
  match block? with
  | none => ""
  | some b =>
    b.statements.foldl
      (fun acc st =>
        match st with
        | .stext s => acc ++ s
        | _ => acc) ""

/-- `normalizeWrap` (builder.go). -/
def normalizeWrap (v : String) : String :=
  let w := toLowerCh (trimSpaceCh v)
  if w = "" ∨ w = "auto" ∨ w = "anywhere" ∨ w = "overflow-wrap:anywhere" ∨
      w = "overflow-anywhere" then "anywhere"
  else if w = "break-word" ∨ w = "word-break:break-word" then "break-word"
  else if w = "nowrap" ∨ w = "no-wrap" then "nowrap"
  else if w = "normal" then "normal"
  else "anywhere"

/-- `alignOffset` (builder.go): horizontal offset of a child of the given
width inside its container. -/
def alignOffset (container width : ℚ) (align : String) : ℚ :=
  if container ≤ width then 0
  else
    let a := toLowerCh align
    if a = "center" ∨ a = "middle" then (container - width) / 2
    else if a = "right" ∨ a = "end" then container - width
    else 0

/-- `valueToString` (builder.go); array and object values fall to the
default `""` branch. In the AST model an assignment always carries a
value, so the Go nil-pointer check is not represented. -/
def valueToString (val : Value) : String :=
  match val with
  | .vstr s => s
  | .vnum s => s
  | .vcolor s => s
  | .vexpr parts => parts.foldl (fun acc p => acc ++ p.Value) ""
  | .varr _ => ""
  | .vobj _ => ""

/-- `valueToStringSlice` (builder.go). -/
def valueToStringSlice (val : Value) : List String :=
  match val with
  | .varr vs =>
    vs.foldl
      (fun out item =>
        let s := valueToString item
        if s = "" then out else out ++ [s]) []
  | v =>
    let s := valueToString v
    if s = "" then [] else [s]

/-! ## Resource collection (builder.go) -/

/-- The assignment-processing loop of `parseFontResource`. -/
def fontAssign (font : FontResource) (st : Stmt) : FontResource :=
  match st with
  | .sassign key v =>
    if key = "src" then
      match v with
      | .vstr s =>
        let f1 := { font with Src := s }
        if hasPrefixCh s "builtin:" then
          let base := trimPfx s "builtin:"
          { f1 with IsBuiltin := true,
                    Base := if base = "" then "Times-Roman" else base }
        else f1
      | _ => font
    else if key = "style" then
      match v with
      | .vstr s => { font with Style := s }
      | _ => font
    else if key = "fallback" then
      match v with
      | .vstr s => { font with Fallback := s }
      | _ => font
    else font
  | _ => font

/-- `parseFontResource` (builder.go). -/
def parseFontResource (cmd : Cmd) : FontResource :=
  match cmd.args with
  | [] => { Name := "", Src := "", Style := "", Base := "", Family := "",
            IsBuiltin := false, Fallback := "" }
  | a0 :: _ =>
    let font : FontResource :=
      { Name := a0.Value, Family := a0.Value, Base := a0.Value,
        IsBuiltin := hasPrefixCh a0.Value "builtin:",
        Src := "", Style := "", Fallback := "" }
    match cmd.block? with
    | none => font
    | some b => b.statements.foldl fontAssign font

/-- The assignment-processing loop of `parseImageResource`. -/
def imageAssign (image : ImageResource) (st : Stmt) : ImageResource :=
  match st with
  | .sassign key v =>
    if key = "src" then
      match v with
      | .vstr s => { image with Src := s }
      | _ => image
    else if key = "width" then
      match v with
      | .vnum s => { image with Width := parseLength s }
      | _ => image
    else if key = "height" then
      match v with
      | .vnum s => { image with Height := parseLength s }
      | _ => image
    else if key = "dpi" then
      match v with
      | .vnum s =>
        match parseAtoi? s with
        | some n => { image with DPI := n }
        | none => image
      | _ => image
    else image
  | _ => image

/-- `parseImageResource` (builder.go). -/
def parseImageResource (cmd : Cmd) : ImageResource :=
  match cmd.args with
  | [] => { Name := "", Src := "", Width := 0, Height := 0, DPI := 0 }
  | a0 :: _ =>
    let image : ImageResource :=
      { Name := a0.Value, Src := "", Width := 0, Height := 0, DPI := 0 }
    match cmd.block? with
    | none => image
    | some b => b.statements.foldl imageAssign image

/-- `parseStyleResource` (builder.go): optional `extends` clause in the
arguments (matched case-insensitively), then the property assignments.
Properties are consed in front so a later duplicate key shadows an earlier
one, as in a Go map. -/
def parseStyleResource (cmd : Cmd) : StyleR :=
  match cmd.args with
  | [] => { Name := "", Extends := "", Props := [] }
  | a0 :: rest =>
    let ext :=
      match rest with
      | a1 :: a2 :: _ => if toLowerCh a1.Value = "extends" then a2.Value else ""
      | _ => ""
    let style : StyleR := { Name := a0.Value, Extends := ext, Props := [] }
    match cmd.block? with
    | none => style
    | some b =>
      { style with
        Props :=
          b.statements.foldl
            (fun props st =>
              match st with
              | .sassign key v =>
                let val := valueToString v
                if val = "" then props else (key, val) :: props
              | _ => props) [] }

/-- `parseColorResource` (builder.go): name from the first argument, value
from the last. -/
def parseColorResource (cmd : Cmd) : String × String :=
  match cmd.args with
  | [] => ("", "")
  | a0 :: rest =>
    let value :=
      match rest with
      | [] => ""
      | r :: rs => ((r :: rs).getLast (by simp)).Value
    (a0.Value, value)

/-- Accumulator for `collectResources`' declaration scan. -/
structure ResAccum where
  Fonts : List (String × FontResource)
  Colors : List (String × Color)
  Images : List (String × ImageResource)
  rawStyles : List (String × StyleR)

/-- One resource declaration statement of a `resources` block. -/
def collectResourceStmt (acc : ResAccum) (st : Stmt) : ResAccum :=
  match st with
  | .scmd cmd =>
    if cmd.name = "font" then
      let font := parseFontResource cmd
      if font.Name ≠ "" then { acc with Fonts := (font.Name, font) :: acc.Fonts }
      else acc
    else if cmd.name = "color" then
      let pr := parseColorResource cmd
      if pr.1 = "" ∨ pr.2 = "" then acc
      else
        match parseColor pr.2 with
        | .ok c => { acc with Colors := (pr.1, c) :: acc.Colors }
        | .error _ => acc
    else if cmd.name = "image" then
      let image := parseImageResource cmd
      if image.Name ≠ "" then { acc with Images := (image.Name, image) :: acc.Images }
      else acc
    else if cmd.name = "style" then
      let style := parseStyleResource cmd
      if style.Name ≠ "" then { acc with rawStyles := (style.Name, style) :: acc.rawStyles }
      else acc
    else acc
  | _ => acc

/-- The section scan of `collectResources`. -/
def collectResourceSections (doc : Document) : ResAccum :=
  doc.sections.foldl
    (fun acc sec =>
      match sec.resources? with
      | none => acc
      | some rs =>
        match rs.block? with
        | none => acc
        | some b => b.statements.foldl collectResourceStmt acc)
    { Fonts := [], Colors := [], Images := [], rawStyles := [] }

/-- `collectResources` (builder.go): scan declarations, synthesize the
default `Body` font when none was declared, then resolve styles. -/
def collectResources (doc : Document) : Except String ResourceSet :=
  let acc := collectResourceSections doc
  let defaultBody : FontResource :=
    { Name := "Body",
      Src := "assets/fonts/Noto_Sans_SC/static/NotoSansSC-Regular.ttf",
      Family := "Body", Base := "", Style := "", IsBuiltin := false,
      Fallback := "embed:Inter/static/Inter-Regular.ttf" }
  let fonts :=
    if acc.Fonts.isEmpty then [("Body", defaultBody)]
    else acc.Fonts
  match resolveStyles acc.rawStyles with
  | .error e => .error e
  | .ok resolved =>
    .ok { Fonts := fonts, Colors := acc.Colors, Images := acc.Images,
          Styles := resolved }

/-- `collectMeta` (builder.go). -/
def collectMeta (doc : Document) : DocumentMeta :=
  doc.sections.foldl
    (fun meta sec =>
      match sec.meta? with
      | none => meta
      | some ms =>
        match ms.block? with
        | none => meta
        | some b =>
          b.statements.foldl
            (fun meta st =>
              match st with
              | .sassign key v =>
                let k := toLowerCh key
                if k = "title" then { meta with Title := valueToString v }
                else if k = "author" then { meta with Author := valueToString v }
                else if k = "subject" then { meta with Subject := valueToString v }
                else if k = "creator" then { meta with Creator := valueToString v }
                else if k = "keywords" then { meta with Keywords := valueToStringSlice v }
                else meta
              | _ => meta) meta)
    { Title := "", Author := "", Subject := "", Creator := "Papyrus", Keywords := [] }

/-- The `pagePresets` table (builder.go): A4 and A5 in millimetres. -/
def pagePresets (size : String) : Option (ℚ × ℚ) :=
  if size = "A4" then some (210, 297)
  else if size = "A5" then some (148, 210)
  else none

/-- `resolvePageSize` (builder.go): preset lookup plus `landscape` swaps. -/
def resolvePageSize (spec : PageSpec) : Except String (ℚ × ℚ) :=
  match pagePresets (toUpperCh spec.Size) with
  | none => .error ("unsupported page size: " ++ spec.Size)
  | some base =>
    .ok (spec.Params.foldl
      (fun wh token => if token.Value = "landscape" then (wh.2, wh.1) else wh)
      (base.1, base.2))

/-- `firstPage` (builder.go). -/
def firstPage (doc : Document) : Option PageSection :=
  doc.sections.findSome? (fun s => s.page?)

/-- `resolveColor` (builder.go): named color, then inline hex, then the
default dark gray. -/
def resolveColor (value : String) (res : ResourceSet) : Color :=
  if value = "" then { R := 30, G := 30, B := 30 }
  else
    match List.lookup value res.Colors with
    | some c => c
    | none =>
      if hasPrefixCh value "#" then
        match parseColor value with
        | .ok c => c
        | .error _ => { R := 30, G := 30, B := 30 }
      else { R := 30, G := 30, B := 30 }

/-- `resolveFontResource` (builder.go): the named font, else `Body`, else
any declared font (Go ranges over the map; the model takes the list head),
else an error. -/
def resolveFontResource (name : String) (res : ResourceSet) :
    Except String FontResource :=
  match List.lookup name res.Fonts with
  | some font => .ok font
  | none =>
    match List.lookup "Body" res.Fonts with
    | some font => .ok font
    | none =>
      match res.Fonts with
      | (_, font) :: _ => .ok font
      | [] => .error ("font " ++ name ++ " is not defined and no default exists")

/-! ## Text composition (builder.go `composeTextBox`, `layoutLines`) -/

/-- `blockSpacing` (builder.go): fixed inter-block spacing in mm. -/
def blockSpacing : ℚ := 3

/-- `defaultTableRowGap` (builder.go). -/
def defaultTableRowGap : ℚ := 0

/-- `cellPadding` (builder.go): 1.2 mm. -/
def cellPadding : ℚ := 12 / 10

/-- `layoutLines` (builder.go): the nil-typesetter fallback splits on
newlines; otherwise the typesetter's lines are used, an empty result
becomes one empty line, and the first line's gap is forced to zero. -/
def layoutLines (content : String) (width : ℚ) (font : FontResource)
    (fontSize lineHeight : ℚ) (ts? : Option Typesetter) (wrap : String) :
    Except String (List TextLine) :=
  match ts? with
  | none =>
    let lines := splitOnCh '\n' content
    let textHeight := if fontSize ≤ 0 then 12 else fontSize
    let leading := max (lineHeight - textHeight) 0
    let out := lines.map (fun l =>
      { Content := l, Width := width, Height := textHeight, GapBefore := leading })
    match out with
    | [] =>
      .ok [{ Content := "", Width := width, Height := textHeight, GapBefore := 0 }]
    | first :: rest => .ok ({ first with GapBefore := 0 } :: rest)
  | some ts =>
    match ts content width font fontSize lineHeight wrap with
    | .error e => .error e
    | .ok lines0 =>
      let lines :=
        if lines0.isEmpty then
          let height := if fontSize ≤ 0 then lineHeight else fontSize
          [{ Content := "", Width := width, Height := height, GapBefore := 0 }]
        else lines0
      match lines with
      | [] => .ok []
      | first :: rest => .ok ({ first with GapBefore := 0 } :: rest)

/-- The per-line normalization loop of `composeTextBox`: default a
non-positive height to the font size, force the first gap to zero, and
default other non-positive gaps to the leading. -/
def normLines (fontSize defaultLeading : ℚ) : List TextLine → Bool → List TextLine
  | [], _ => []
  | l :: rest, isFirst =>
    let h := if l.Height ≤ 0 then fontSize else l.Height
    let g :=
      if isFirst then 0
      else if l.GapBefore ≤ 0 then defaultLeading
      else l.GapBefore
    { l with Height := h, GapBefore := g } ::
      normLines fontSize defaultLeading rest false

/-- The running total of `composeTextBox`'s loop:
`Σ (gapBefore + height)` over the (normalized) lines. -/
def sumGH (ls : List TextLine) : ℚ :=
  ls.foldl (fun acc l => acc + (l.GapBefore + l.Height)) 0

/-- The `debug.RawUnits` shadow record of `composeTextBox`. -/
def debugRawUnits (attrs : Attrs) : TextBoxDebug :=
  let szSpec := ParseRawLengthStr (attrGet attrs "size")
  let sizeRaw : RawLengthJSON :=
    if szSpec.Unit = .unone ∨ szSpec.Value ≤ 0 then { Value := 12, Unit := "pt" }
    else { Value := szSpec.Value, Unit := UnitToString szSpec.Unit }
  let zeroLH : RawLineHeightJSON := { Kind := "", Factor := 0, Value := 0, Unit := "" }
  let v := trimSpaceCh (attrGet attrs "line-height")
  let lhRaw : RawLineHeightJSON :=
    if v ≠ "" then
      if hasSuffixCh v "x" then
        match parseFloatQ? (dropRightCh v 1) with
        | some f =>
          if f > 0 then { Kind := "factor", Factor := f, Value := 0, Unit := "" }
          else zeroLH
        | none => zeroLH
      else
        let lhLen := ParseRawLengthStr v
        if lhLen.Unit ≠ .unone ∧ lhLen.Value > 0 then
          { Kind := "absolute", Value := lhLen.Value,
            Unit := UnitToString lhLen.Unit, Factor := 0 }
        else zeroLH
    else { Kind := "factor", Factor := 14 / 10, Value := 0, Unit := "" }
  { rawUnits := some { FontSize := some sizeRaw, LineHeight := some lhRaw } }

/-- `composeTextBox` (builder.go): resolve the effective font, size, line
height and color, interpolate the content, lay the lines out through the
typesetter, normalize them and total the box height. -/
def composeTextBox (style : String) (attrs0 : Attrs) (content0 : String)
    (x y width : ℚ) (res : ResourceSet) (data : Option JsonVal)
    (ts? : Option Typesetter) (debug : DebugOptions) (wrap : String) :
    Except String (TextBox × ℚ) :=
  let attrs := mergeStyleAttributes style attrs0 res.Styles
  let fontName0 := attrGet attrs "font"
  let fontName1 := if fontName0 = "" then style else fontName0
  let fontName := if fontName1 = "" then "Body" else fontName1
  let content :=
    match data with
    | none => content0
    | some _ => Interpolate content0 data
  let fontSize0 := parseLength (attrGet attrs "size")
  -- default 12pt in mm (Go writes the literal `12 * 0.352777`)
  let fontSize := if fontSize0 ≤ 0 then 12 * PtToMm else fontSize0
  let lhAttr := trimSpaceCh (attrGet attrs "line-height")
  let lineHeight :=
    if lhAttr ≠ "" then
      if hasSuffixCh lhAttr "x" then
        match parseFloatQ? (dropRightCh lhAttr 1) with
        | some f => if f > 0 then fontSize * f else fontSize * (14 / 10)
        | none => fontSize * (14 / 10)
      else
        let lh := parseLength lhAttr
        if lh > 0 then lh else fontSize * (14 / 10)
    else fontSize * (14 / 10)
  let color := resolveColor (attrGet attrs "color") res
  match resolveFontResource fontName res with
  | .error e => .error e
  | .ok fontRes =>
    match layoutLines content width fontRes fontSize lineHeight ts? wrap with
    | .error e => .error e
    | .ok lines0 =>
      let defaultLeading := max (lineHeight - fontSize) 0
      let lines := normLines fontSize defaultLeading lines0 true
      let totalHeight := if lines0.isEmpty then 0 else sumGH lines
      let alignRaw := toLowerCh (trimSpaceCh (attrGet attrs "align"))
      let alignV :=
        if alignRaw = "start" then "left"
        else if alignRaw = "end" then "right"
        else alignRaw
      -- Go constructs the box and then conditionally assigns `Align` and
      -- `Debug`; the model initializes those two fields conditionally.
      let tb : TextBox :=
        { Content := content, X := x, Y := y, Width := width,
          LineHeight := lineHeight, Font := fontName, FontSize := fontSize,
          Color := color, Lines := lines, Height := totalHeight,
          Align :=
            if alignRaw ≠ "" ∧ (alignV = "left" ∨ alignV = "center" ∨ alignV = "right")
            then alignV else "",
          Wrap := wrap,
          Debug := if debug.RawUnits then some (debugRawUnits attrs) else none }
      .ok (tb, totalHeight)

/-! ## Width inference (builder.go `estimateTextWidth`, `inferTextWidth`,
`inferFlowWidth`) -/

/-- `math.MaxFloat64` as an exact rational. -/
def maxFloat64 : ℚ := 2 ^ 1024 - 2 ^ 971

/-- `estimateTextWidth` (builder.go): rough width from the longest line's
rune count. -/
def estimateTextWidth (content : String) (fontSize : ℚ) : ℚ :=
  let fs := if fontSize ≤ 0 then 12 else fontSize
  let lines := splitOnCh '\n' content
  let maxChars := lines.foldl (fun m l => max m l.data.length) 0
  let maxChars := if maxChars = 0 then content.data.length else maxChars
  fs * (55 / 100) * ((maxChars : ℚ) + 1)

/-- `inferTextWidth` (builder.go): measured (or estimated) natural width of
a `text` command. -/
def inferTextWidth (cmd : Cmd) (res : ResourceSet) (maxWidth : ℚ)
    (ts? : Option Typesetter) : ℚ :=
  match cmd.block? with
  | none => 0
  | some b =>
    let (styleName, attrs0) := parseArgs cmd.args true
    let attrs := mergeStyleAttributes styleName attrs0 res.Styles
    if attrGet attrs "width" ≠ "" then
      parseDimension (attrGet attrs "width") maxWidth
    else
      let content := extractText (some b)
      if content = "" then 0
      else
        match ts? with
        | none => estimateTextWidth content (parseFontSize (attrGet attrs "size"))
        | some ts =>
          let fontName0 := attrGet attrs "font"
          let fontName1 := if fontName0 = "" then styleName else fontName0
          let fontName := if fontName1 = "" then "Body" else fontName1
          match resolveFontResource fontName res with
          | .error _ =>
            estimateTextWidth content (parseFontSize (attrGet attrs "size"))
          | .ok fontRes =>
            let fontSize0 := parseLength (attrGet attrs "size")
            let fontSizeMm := if fontSize0 ≤ 0 then 12 * PtToMm else fontSize0
            let v := trimSpaceCh (attrGet attrs "line-height")
            let lineHeightMm :=
              if v ≠ "" then
                if hasSuffixCh v "x" then
                  match parseFloatQ? (dropRightCh v 1) with
                  | some f =>
                    if f > 0 then fontSizeMm * f else fontSizeMm * (14 / 10)
                  | none => fontSizeMm * (14 / 10)
                else
                  let lh := parseLength v
                  if lh > 0 then lh else fontSizeMm * (14 / 10)
              else fontSizeMm * (14 / 10)
            match layoutLines content maxFloat64 fontRes fontSizeMm lineHeightMm
                (some ts) "nowrap" with
            | .error _ =>
              estimateTextWidth content (parseFontSize (attrGet attrs "size"))
            | .ok lines =>
              let maxW := lines.foldl (fun m l => max m l.Width) 0
              if maxW ≤ 0 then
                estimateTextWidth content (parseFontSize (attrGet attrs "size"))
              else maxW

mutual
/-- `inferFlowWidth` (builder.go): maximum natural width of a flow block's
statements (a nil block yields 0). -/
def inferFlowWidth (block? : Option Block) (res : ResourceSet) (maxWidth : ℚ)
    (ts? : Option Typesetter) : ℚ :=
  match block? with
  | none => 0
  | some (.mk stmts) => inferFlowStmts stmts res maxWidth ts? 0

/-- The statement loop of `inferFlowWidth`, accumulating the running
maximum. -/
def inferFlowStmts (stmts : List Stmt) (res : ResourceSet) (maxWidth : ℚ)
    (ts? : Option Typesetter) (width : ℚ) : ℚ :=
  match stmts with
  | [] => width
  | .scmd (.mk nm args blk) :: rest =>
    let cmd : Cmd := .mk nm args blk
    let width' :=
      if nm = "text" then
        let w := inferTextWidth cmd res maxWidth ts?
        if w > width then w else width
      else if nm = "flow" then
        let w := inferFlowWidth blk res maxWidth ts?
        if w > width then w else width
      else if nm = "image" then
        let (_, attrs) := parseArgs args true
        if attrGet attrs "width" ≠ "" then
          let w := parseDimension (attrGet attrs "width") maxWidth
          if w > width then w else width
        else width
      else if nm = "table" then
        let (_, attrs) := parseArgs args false
        if attrGet attrs "width" ≠ "" then
          let w := parseDimension (attrGet attrs "width") maxWidth
          if w > width then w else width
        else width
      else width
    inferFlowStmts rest res maxWidth ts? width'
  | _ :: rest => inferFlowStmts rest res maxWidth ts? width
end

/-! ## Shape parsing (builder.go `parseLineShape`, `parseRectShape`,
`parseCircleShape`); the Go `(value, ok)` pair is an `Option`. -/

/-- `parseLineShape` (builder.go). -/
def parseLineShape (attrs : Attrs) (res : ResourceSet) : Option Line :=
  let x1 := parseLength (attrGet attrs "x1")
  let y1 := parseLength (attrGet attrs "y1")
  let x2 := parseLength (attrGet attrs "x2")
  let y2 := parseLength (attrGet attrs "y2")
  if x1 ≠ 0 ∨ y1 ≠ 0 ∨ x2 ≠ 0 ∨ y2 ≠ 0 then
    let color :=
      if attrGet attrs "color" ≠ "" then resolveColor (attrGet attrs "color") res
      else ⟨0, 0, 0⟩
    some { X1 := x1, Y1 := y1, X2 := x2, Y2 := y2, Color := color,
           Width := parseLength (attrGet attrs "width") }
  else
    let x := parseLength (attrGet attrs "x")
    let y := parseLength (attrGet attrs "y")
    let length := parseLength (attrGet attrs "length")
    if (x ≠ 0 ∨ y ≠ 0) ∧ length > 0 then
      let d := toLowerCh (trimSpaceCh (attrGet attrs "dir"))
      if d = "" ∨ d = "h" ∨ d = "hor" ∨ d = "horizontal" then
        let color :=
          if attrGet attrs "color" ≠ "" then resolveColor (attrGet attrs "color") res
          else ⟨0, 0, 0⟩
        some { X1 := x, Y1 := y, X2 := x + length, Y2 := y, Color := color,
               Width := parseLength (attrGet attrs "width") }
      else if d = "v" ∨ d = "ver" ∨ d = "vertical" then
        let color :=
          if attrGet attrs "color" ≠ "" then resolveColor (attrGet attrs "color") res
          else ⟨0, 0, 0⟩
        some { X1 := x, Y1 := y, X2 := x, Y2 := y + length, Color := color,
               Width := parseLength (attrGet attrs "width") }
      else none
    else none

/-- `parseRectShape` (builder.go). -/
def parseRectShape (attrs : Attrs) (res : ResourceSet) : Option Rect :=
  let x := parseLength (attrGet attrs "x")
  let y := parseLength (attrGet attrs "y")
  let w := parseLength (attrGet attrs "width")
  let h := parseLength (attrGet attrs "height")
  if w ≤ 0 ∨ h ≤ 0 then none
  else
    let strokeColor :=
      if attrGet attrs "stroke" ≠ "" then resolveColor (attrGet attrs "stroke") res
      else ⟨0, 0, 0⟩
    let strokeWidth :=
      if attrGet attrs "stroke-width" ≠ "" then
        parseLength (attrGet attrs "stroke-width")
      else 0
    let fill :=
      if attrGet attrs "fill" ≠ "" then some (resolveColor (attrGet attrs "fill") res)
      else none
    some { X := x, Y := y, Width := w, Height := h, StrokeColor := strokeColor,
           StrokeWidth := strokeWidth, FillColor := fill }

/-- `parseCircleShape` (builder.go). -/
def parseCircleShape (attrs : Attrs) (res : ResourceSet) : Option Circle :=
  let cx := parseLength (attrGet attrs "cx")
  let cy := parseLength (attrGet attrs "cy")
  let r := parseLength (attrGet attrs "r")
  if r ≤ 0 then none
  else
    let strokeColor :=
      if attrGet attrs "stroke" ≠ "" then resolveColor (attrGet attrs "stroke") res
      else ⟨0, 0, 0⟩
    let strokeWidth :=
      if attrGet attrs "stroke-width" ≠ "" then
        parseLength (attrGet attrs "stroke-width")
      else 0
    let fill :=
      if attrGet attrs "fill" ≠ "" then some (resolveColor (attrGet attrs "fill") res)
      else none
    some { CX := cx, CY := cy, R := r, StrokeColor := strokeColor,
           StrokeWidth := strokeWidth, FillColor := fill }

/-! ## Page collection (builder.go `pageAccumulator`, `pageCollector`) -/

/-- `pageAccumulator`: the per-page element lists. -/
structure PageAcc where
  texts : List TextBox
  images : List ImageBox
  tables : List TableBox
  lines : List Line
  rects : List Rect
  circles : List Circle
deriving DecidableEq

/-- The zero `pageAccumulator`. -/
def emptyAcc : PageAcc := ⟨[], [], [], [], [], []⟩

/-- The zero `HeaderFooter`. -/
def emptyHF : HeaderFooter := ⟨0, [], [], [], [], []⟩

/-- `pageCollector`: page geometry, the accumulated pages and the index of
the page being filled, plus the shared header/footer layouts. -/
structure Collector where
  width : ℚ
  height : ℚ
  margin : Margin
  accs : List PageAcc
  current : ℕ
  header : HeaderFooter
  footer : HeaderFooter
deriving DecidableEq

/-- `pageCollector.newPage`: append a fresh accumulator and point `current`
at it. -/
def Collector.newPage (c : Collector) : Collector :=
  { c with accs := c.accs ++ [emptyAcc], current := c.accs.length }

/-- `newPageCollector` (builder.go): a collector starts with one page. -/
def newPageCollector (width height : ℚ) (margin : Margin) : Collector :=
  Collector.newPage
    { width := width, height := height, margin := margin, accs := [],
      current := 0, header := emptyHF, footer := emptyHF }

/-- Mutation through `pageCollector.curr()`: update the current
accumulator (creating a page first when the list is empty, as `curr`
does). -/
def Collector.withCurr (c : Collector) (f : PageAcc → PageAcc) : Collector :=
  let c := if c.accs.isEmpty then c.newPage else c
  { c with accs := c.accs.set c.current (f (c.accs.getD c.current emptyAcc)) }

/-- `pageCollector.contentTop`: `max(margin.Top, header.Height)`. -/
def Collector.contentTop (c : Collector) : ℚ :=
  if c.header.Height > c.margin.Top then c.header.Height else c.margin.Top

/-- `pageCollector.contentBottom`: page height minus
`max(margin.Bottom, footer.Height)`. -/
def Collector.contentBottom (c : Collector) : ℚ :=
  let b := if c.footer.Height > c.margin.Bottom then c.footer.Height
           else c.margin.Bottom
  c.height - b

/-- `pageCollector.maxContentY` delegates to `contentBottom`. -/
def Collector.maxContentY (c : Collector) : ℚ := c.contentBottom

/-- `pageCollector.allPages`: stamp every accumulator into a `Page`. -/
def Collector.allPages (c : Collector) : List Page :=
  c.accs.map (fun acc =>
    { Width := c.width, Height := c.height, Margin := c.margin,
      Texts := acc.texts, Images := acc.images, Tables := acc.tables,
      Lines := acc.lines, Rects := acc.rects, Circles := acc.circles,
      Header := c.header, Footer := c.footer })

/-- `pageCollector.pages`. -/
def Collector.pages (c : Collector) : List Page := c.allPages

/-! ## Flow contexts (builder.go `flowContext`)

A Go `flowContext` is a mutable record with a parent pointer; the model
threads the current frame plus the explicit list of its ancestors
(innermost parent first, the root last).  `data`, `typesetter`, `debug` and
`margin` are identical in every context of a build, so they live in a
separate environment record; the collector, shared by all contexts and
never nil below `buildPages`, is threaded as its own value. -/

/-- The per-context mutable fields of `flowContext`. -/
structure Frame where
  baseX : ℚ
  baseY : ℚ
  width : ℚ
  cursorY : ℚ
  allowPageBreak : Bool
  textAlign : String
  textWrap : String
deriving DecidableEq

/-- The fields of `flowContext` shared unchanged by every context of one
`buildPages` run. -/
structure Env where
  data : Option JsonVal
  ts : Typesetter
  debug : DebugOptions
  margin : Margin

/-- `flowContext.pageBreak`: recurse to the root, which opens a new page
and restarts at the content top; on the way back every child re-bases at
its parent's new cursor. -/
def pageBreakRec (margin : Margin) (col : Collector) (f : Frame) :
    List Frame → Collector × Frame × List Frame
  | [] =>
    let col' := col.newPage
    let top := col'.contentTop
    (col', { f with baseX := margin.Left, baseY := top, cursorY := top }, [])
  | g :: anc =>
    let r := pageBreakRec margin col g anc
    (r.1, { f with baseY := r.2.1.cursorY, cursorY := r.2.1.cursorY },
     r.2.1 :: r.2.2)

/-- `flowContext.ensureSpace`: break the page when the pending height would
cross the content bottom (no-op without `allowPageBreak`). -/
def ensureSpace (margin : Margin) (height : ℚ) (col : Collector) (f : Frame)
    (anc : List Frame) : Collector × Frame × List Frame :=
  if ¬f.allowPageBreak then (col, f, anc)
  else if f.cursorY + height ≤ col.maxContentY then (col, f, anc)
  else pageBreakRec margin col f anc

/-! ## Leaf command handlers (builder.go `handleText`, `handleImage`,
tables) -/

/-- `handleText` (builder.go). -/
def handleText (env : Env) (res : ResourceSet) (cmd : Cmd) (col : Collector)
    (f : Frame) (anc : List Frame) :
    Except String (Collector × Frame × List Frame) :=
  match cmd.block? with
  | none => .error "text 语句缺少文本块"
  | some b =>
    let (styleName, attrs0) := parseArgs cmd.args true
    let attrs1 := mergeStyleAttributes styleName attrs0 res.Styles
    let attrs :=
      if trimSpaceCh (attrGet attrs1 "align") = "" ∧
          trimSpaceCh f.textAlign ≠ "" then
        ("align", f.textAlign) :: attrs1
      else attrs1
    let content := extractText (some b)
    if content = "" then .error "text 语句缺少文本内容"
    else
      let effWrap :=
        if trimSpaceCh (attrGet attrs "wrap") ≠ "" then
          normalizeWrap (attrGet attrs "wrap")
        else f.textWrap
      match composeTextBox styleName attrs content f.baseX f.cursorY f.width
          res env.data (some env.ts) env.debug effWrap with
      | .error e => .error e
      | .ok (tb, height) =>
        let r := ensureSpace env.margin height col f anc
        let col' := r.1
        let f' := r.2.1
        let tb' := { tb with X := f'.baseX, Y := f'.cursorY }
        let col'' := col'.withCurr (fun a => { a with texts := a.texts ++ [tb'] })
        .ok (col'', { f' with cursorY := f'.cursorY + height + blockSpacing },
             r.2.2)

/-- The image box `handleImage` assembles before the space check (Go
mutates `imgBox` up to the `Path` error test; `Y` is re-set after the
potential page break). -/
def imageBoxOf (res : ResourceSet) (cmd : Cmd) (f : Frame) : ImageBox :=
  let (styleName, attrs0) := parseArgs cmd.args true
  let attrs := mergeStyleAttributes styleName attrs0 res.Styles
  let n1 := if attrGet attrs "image" ≠ "" then attrGet attrs "image" else styleName
  let n2 := if attrGet attrs "src" ≠ "" then attrGet attrs "src" else n1
  let imageName :=
    if n2 = "" then
      match cmd.args with
      | a :: _ => a.Value
      | [] => ""
    else n2
  let opacity : ℚ :=
    if attrGet attrs "opacity" ≠ "" then
      match parseFloatQ? (attrGet attrs "opacity") with
      | some v => v
      | none => 1
    else 1
  let (path0, w0, h0) :=
    match List.lookup imageName res.Images with
    | some resImg =>
      (if resImg.Src = "" then imageName else resImg.Src,
       if resImg.Width > 0 then resImg.Width else 0,
       if resImg.Height > 0 then resImg.Height else 0)
    | none => (imageName, 0, 0)
  let w1 :=
    if attrGet attrs "width" ≠ "" ∧ parseDimension (attrGet attrs "width") f.width > 0
    then parseDimension (attrGet attrs "width") f.width else w0
  let h1 :=
    if attrGet attrs "height" ≠ "" ∧ parseDimension (attrGet attrs "height") f.width > 0
    then parseDimension (attrGet attrs "height") f.width else h0
  let w2 := if w1 = 0 then (if f.width > 0 then f.width else 40) else w1
  let h2 := if h1 = 0 then w2 * (6 / 10) else h1
  { Path := path0, X := f.baseX, Y := f.cursorY, Width := w2, Height := h2,
    Fit := attrGet attrs "fit", Opacity := opacity }

/-- `handleImage` (builder.go). -/
def handleImage (env : Env) (res : ResourceSet) (cmd : Cmd) (col : Collector)
    (f : Frame) (anc : List Frame) :
    Except String (Collector × Frame × List Frame) :=
  let img0 := imageBoxOf res cmd f
  if img0.Path = "" then .error "image 语句缺少资源或 src"
  else
    let r := ensureSpace env.margin img0.Height col f anc
    let f' := r.2.1
    let img : ImageBox := { img0 with Y := f'.cursorY }
    let col'' := r.1.withCurr (fun a => { a with images := a.images ++ [img] })
    .ok (col'', { f' with cursorY := img.Y + img.Height + blockSpacing }, r.2.2)


/-! ## Tables (builder.go `handleTable`, `buildTableRow`) -/

/-- The cell loop of `buildTableRow`: walk the `cell` commands, composing
each cell's text box and tracking the column index and row height. -/
def buildRowCells (res : ResourceSet) (columnHint : ℕ) (tableWidth baseX baseY : ℚ)
    (data : Option JsonVal) (ts? : Option Typesetter) (debug : DebugOptions) :
    List Stmt → ℕ → ℚ → List TableCell →
    Except String (ℕ × ℚ × List TableCell)
  | [], colIdx, maxHeight, cells => .ok (colIdx, maxHeight, cells)
  | .scmd cmd :: rest, colIdx, maxHeight, cells =>
    if cmd.name = "cell" then
      let (styleName, attrs0) := parseArgs cmd.args true
      let attrs := mergeStyleAttributes styleName attrs0 res.Styles
      let content := extractText cmd.block?
      if content = "" then
        buildRowCells res columnHint tableWidth baseX baseY data ts? debug
          rest colIdx maxHeight cells
      else
        let columns := if columnHint = 0 then 1 else columnHint
        let colWidth := tableWidth / (columns : ℚ)
        let x := baseX + (colIdx : ℚ) * colWidth
        let cellWidth0 := colWidth - 2 * cellPadding
        let cellWidth := if cellWidth0 ≤ 0 then colWidth else cellWidth0
        let wrap0 := normalizeWrap (attrGet attrs "wrap")
        let wrap := if wrap0 = "" then "anywhere" else wrap0
        match composeTextBox styleName attrs content (x + cellPadding)
            (baseY + cellPadding) cellWidth res data ts? debug wrap with
        | .error e => .error e
        | .ok (tb, height) =>
          buildRowCells res columnHint tableWidth baseX baseY data ts? debug
            rest (colIdx + 1) (if height > maxHeight then height else maxHeight)
            (cells ++ [{ Text := tb }])
    else
      buildRowCells res columnHint tableWidth baseX baseY data ts? debug
        rest colIdx maxHeight cells
  | _ :: rest, colIdx, maxHeight, cells =>
    buildRowCells res columnHint tableWidth baseX baseY data ts? debug
      rest colIdx maxHeight cells

/-- `buildTableRow` (builder.go): returns the row, its height and the
number of cells laid out. -/
def buildTableRow (cmd : Cmd) (res : ResourceSet) (columnHint : ℕ)
    (tableWidth baseX baseY : ℚ) (header : Bool) (data : Option JsonVal)
    (ts? : Option Typesetter) (debug : DebugOptions) :
    Except String (TableRow × ℚ × ℕ) :=
  match cmd.block? with
  | none => .error "row/header 缺少 cell 定义"
  | some b =>
    match buildRowCells res columnHint tableWidth baseX baseY data ts? debug
        b.statements 0 0 [] with
    | .error e => .error e
    | .ok (colIdx, maxHeight, cells) =>
      if colIdx = 0 then .error "row/header 中至少需要一个 cell"
      else
        let height := maxHeight + 2 * cellPadding
        .ok ({ Y := 0, Height := height, IsHeader := header, Cells := cells },
             height, colIdx)

/-- The running state of `handleTable`'s `build` closure loop. -/
structure TState where
  rows : List TableRow
  currentY : ℚ
  colCount : ℕ
deriving DecidableEq

/-- The row loop of `handleTable`'s `build` closure: `header` rows fix the
column count when it is still 0; `row` rows discard their returned count. -/
def tableLoop (res : ResourceSet) (width x : ℚ) (rowGap : ℚ)
    (data : Option JsonVal) (ts? : Option Typesetter) (debug : DebugOptions) :
    List Stmt → TState → Except String TState
  | [], st => .ok st
  | .scmd cmd :: rest, st =>
    if cmd.name = "header" then
      match buildTableRow cmd res st.colCount width x st.currentY true data
          ts? debug with
      | .error e => .error e
      | .ok (row, rowHeight, rowColumns) =>
        let colCount := if st.colCount = 0 then rowColumns else st.colCount
        let currentY := st.currentY + rowHeight + rowGap
        let row' := { row with Y := currentY - rowHeight - rowGap }
        tableLoop res width x rowGap data ts? debug rest
          ⟨st.rows ++ [row'], currentY, colCount⟩
    else if cmd.name = "row" then
      match buildTableRow cmd res st.colCount width x st.currentY false data
          ts? debug with
      | .error e => .error e
      | .ok (row, rowHeight, _) =>
        let currentY := st.currentY + rowHeight + rowGap
        let row' := { row with Y := currentY - rowHeight - rowGap }
        tableLoop res width x rowGap data ts? debug rest
          ⟨st.rows ++ [row'], currentY, st.colCount⟩
    else tableLoop res width x rowGap data ts? debug rest st
  | _ :: rest, st => tableLoop res width x rowGap data ts? debug rest st

/-- `handleTable`'s `build` closure: run the row loop from `baseY`, then
require a nonzero column count and derive the uniform column widths. -/
def buildTableAt (res : ResourceSet) (stmts : List Stmt) (columns : ℕ)
    (width rowGap baseX : ℚ) (data : Option JsonVal) (ts? : Option Typesetter)
    (debug : DebugOptions) (baseY : ℚ) : Except String (TableBox × ℚ) :=
  match tableLoop res width baseX rowGap data ts? debug stmts
      ⟨[], baseY, columns⟩ with
  | .error e => .error e
  | .ok st =>
    if st.colCount = 0 then .error "table 需要至少一个单元格"
    else
      let colWidth := width / (st.colCount : ℚ)
      let currentY := if st.rows.length > 0 then st.currentY - rowGap
                      else st.currentY
      .ok ({ X := baseX, Y := baseY, Width := width, RowGap := rowGap,
             ColumnWidths := List.replicate st.colCount colWidth,
             Rows := st.rows, BorderColor := ⟨200, 200, 200⟩ },
           currentY - baseY)

/-- The `width` attribute resolution of `handleTable`. -/
def tableWidthAttr (attrs : Attrs) (ctxWidth : ℚ) : ℚ :=
  if attrGet attrs "width" ≠ "" ∧ parseDimension (attrGet attrs "width") ctxWidth > 0
  then parseDimension (attrGet attrs "width") ctxWidth else ctxWidth

/-- The `row-gap`/`rowGap` attribute resolution of `handleTable`. -/
def tableRowGapAttr (attrs : Attrs) : ℚ :=
  if attrGet attrs "row-gap" ≠ "" then
    if parseLength (attrGet attrs "row-gap") ≥ 0 then
      parseLength (attrGet attrs "row-gap")
    else defaultTableRowGap
  else if attrGet attrs "rowGap" ≠ "" then
    if parseLength (attrGet attrs "rowGap") ≥ 0 then
      parseLength (attrGet attrs "rowGap")
    else defaultTableRowGap
  else defaultTableRowGap

/-- The `columns` attribute resolution of `handleTable` (0 when absent or
not a positive integer). -/
def tableColumnsAttr (attrs : Attrs) : ℕ :=
  if attrGet attrs "columns" ≠ "" then
    match parseAtoi? (attrGet attrs "columns") with
    | some c => if c > 0 then c.toNat else 0
    | none => 0
  else 0

/-- `handleTable` (builder.go): build the table at the cursor; when page
breaks are allowed and the whole height would cross the content bottom,
break first and rebuild from the new cursor, then append the table to the
current page accumulator. -/
def handleTable (env : Env) (res : ResourceSet) (cmd : Cmd) (col : Collector)
    (f : Frame) (anc : List Frame) :
    Except String (Collector × Frame × List Frame) :=
  match cmd.block? with
  | none => .error "table 语句缺少内容"
  | some b =>
    let (styleName, attrs0) := parseArgs cmd.args false
    let attrs := mergeStyleAttributes styleName attrs0 res.Styles
    let width := tableWidthAttr attrs f.width
    let rowGap := tableRowGapAttr attrs
    let columns := tableColumnsAttr attrs
    match buildTableAt res b.statements columns width rowGap f.baseX env.data
        (some env.ts) env.debug f.cursorY with
    | .error e => .error e
    | .ok (table, height) =>
      if f.allowPageBreak ∧ f.cursorY + height > col.maxContentY then
        let r := pageBreakRec env.margin col f anc
        let colB := r.1
        let fB := r.2.1
        match buildTableAt res b.statements columns width rowGap fB.baseX
            env.data (some env.ts) env.debug fB.cursorY with
        | .error e => .error e
        | .ok (table2, height2) =>
          let col2 := colB.withCurr (fun a => { a with tables := a.tables ++ [table2] })
          .ok (col2, { fB with cursorY := fB.cursorY + height2 + blockSpacing },
               r.2.2)
      else
        let col2 := col.withCurr (fun a => { a with tables := a.tables ++ [table] })
        .ok (col2, { f with cursorY := f.cursorY + height + blockSpacing }, anc)


/-! ## The statement engine (builder.go `processBlock`, `handleFlow`,
`handleAbsolute`)

`processBlock` walks a block's statements; `flow` and `absolute` recurse
into child contexts.  The unreachable arms returning
"内部错误: 上级上下文缺失" guard the list split of a parent chain whose
length the recursion in fact preserves. -/

/-- The child context `handleFlow` creates: width from the attribute (or,
for center/right/end alignment, inferred), horizontal offset from the
alignment, and inherited align/wrap. -/
def flowChild (env : Env) (res : ResourceSet) (args : List Lexeme)
    (stmts : List Stmt) (f : Frame) : Frame :=
  let (styleName, attrs0) := parseArgs args false
  let attrs := mergeStyleAttributes styleName attrs0 res.Styles
  let a := toLowerCh (attrGet attrs "align")
  let width :=
    if attrGet attrs "width" ≠ "" then
      if parseDimension (attrGet attrs "width") f.width > 0 ∧
          parseDimension (attrGet attrs "width") f.width ≤ f.width then
        parseDimension (attrGet attrs "width") f.width
      else f.width
    else if a = "center" ∨ a = "right" ∨ a = "end" then
      let inferred := inferFlowWidth (some (.mk stmts)) res f.width (some env.ts)
      if inferred > 0 then min inferred f.width else f.width
    else f.width
  let offset := alignOffset f.width width (attrGet attrs "align")
  let fa0 := toLowerCh (attrGet attrs "align")
  let fa1 := if fa0 = "start" then "left" else fa0
  let fa2 := if fa1 = "end" then "right" else fa1
  let flowAlign :=
    if fa2 ≠ "left" ∧ fa2 ≠ "center" ∧ fa2 ≠ "right" then "" else fa2
  let flowWrap :=
    if trimSpaceCh (attrGet attrs "wrap") ≠ "" then
      normalizeWrap (attrGet attrs "wrap")
    else f.textWrap
  { baseX := f.baseX + offset, baseY := f.cursorY, width := width,
    cursorY := f.cursorY, allowPageBreak := f.allowPageBreak,
    textAlign := flowAlign, textWrap := flowWrap }

/-- The child context `handleAbsolute` creates: offset by the `x`/`y`
attributes from the parent's base, page breaks disabled. -/
def absChild (res : ResourceSet) (args : List Lexeme) (f : Frame) : Frame :=
  let (styleName, attrs0) := parseArgs args false
  let attrs := mergeStyleAttributes styleName attrs0 res.Styles
  let width :=
    if attrGet attrs "width" ≠ "" ∧
        parseDimension (attrGet attrs "width") f.width > 0 then
      parseDimension (attrGet attrs "width") f.width
    else f.width
  let offsetX := parseDimension (attrGet attrs "x") f.width
  let offsetY := parseDimension (attrGet attrs "y") f.width
  { baseX := f.baseX + offsetX, baseY := f.baseY + offsetY, width := width,
    cursorY := f.baseY + offsetY, allowPageBreak := false,
    textAlign := "", textWrap := "" }

mutual
/-- The statement loop of `processBlock`. -/
def processStmts (env : Env) (res : ResourceSet) :
    List Stmt → Collector → Frame → List Frame →
    Except String (Collector × Frame × List Frame)
  | [], col, f, anc => .ok (col, f, anc)
  | .scmd cmd :: rest, col, f, anc =>
    match processCmd env res cmd col f anc with
    | .error e => .error e
    | .ok (col', f', anc') => processStmts env res rest col' f' anc'
  | _ :: rest, col, f, anc => processStmts env res rest col f anc
termination_by stmts _ _ _ => (sizeOf stmts, 0)

/-- The per-command dispatch of `processBlock` (the default arm handles
page-level shapes and ignores unknown commands). -/
def processCmd (env : Env) (res : ResourceSet) (cmd : Cmd) (col : Collector)
    (f : Frame) (anc : List Frame) :
    Except String (Collector × Frame × List Frame) :=
  if cmd.name = "flow" then handleFlow env res cmd col f anc
  else if cmd.name = "absolute" then handleAbsolute env res cmd col f anc
  else if cmd.name = "text" then handleText env res cmd col f anc
  else if cmd.name = "image" then handleImage env res cmd col f anc
  else if cmd.name = "table" then handleTable env res cmd col f anc
  else
    let nm := toLowerCh cmd.name
    if nm = "line" then
      let (_, attrs) := parseArgs cmd.args false
      match parseLineShape attrs res with
      | some ln =>
        .ok (col.withCurr (fun a => { a with lines := a.lines ++ [ln] }), f, anc)
      | none => .ok (col, f, anc)
    else if nm = "rect" then
      let (_, attrs) := parseArgs cmd.args false
      match parseRectShape attrs res with
      | some rc =>
        .ok (col.withCurr (fun a => { a with rects := a.rects ++ [rc] }), f, anc)
      | none => .ok (col, f, anc)
    else if nm = "circle" then
      let (_, attrs) := parseArgs cmd.args false
      match parseCircleShape attrs res with
      | some c =>
        .ok (col.withCurr (fun a => { a with circles := a.circles ++ [c] }), f, anc)
      | none => .ok (col, f, anc)
    else .ok (col, f, anc)
termination_by (sizeOf cmd, 1)

/-- `handleFlow` (builder.go): run the child flow context, then advance the
parent cursor past the child's content. -/
def handleFlow (env : Env) (res : ResourceSet) (cmd : Cmd) (col : Collector)
    (f : Frame) (anc : List Frame) :
    Except String (Collector × Frame × List Frame) :=
  match cmd with
  | .mk _ args none => .error "flow 语句缺少子内容"
  | .mk _ args (some (.mk stmts)) =>
    let child := flowChild env res args stmts f
    match processStmts env res stmts col child (f :: anc) with
    | .error e => .error e
    | .ok (col', child', anc') =>
      match anc' with
      | [] => .error "内部错误: 上级上下文缺失"
      | f' :: anc2 =>
        if child'.cursorY > f'.cursorY then
          .ok (col', { f' with cursorY := child'.cursorY + blockSpacing }, anc2)
        else .ok (col', f', anc2)
termination_by (sizeOf cmd, 0)

/-- `handleAbsolute` (builder.go): run the child with page breaks disabled;
the parent frame is untouched by the handler itself. -/
def handleAbsolute (env : Env) (res : ResourceSet) (cmd : Cmd) (col : Collector)
    (f : Frame) (anc : List Frame) :
    Except String (Collector × Frame × List Frame) :=
  match cmd with
  | .mk _ args none => .error "absolute 语句缺少子内容"
  | .mk _ args (some (.mk stmts)) =>
    let child := absChild res args f
    match processStmts env res stmts col child (f :: anc) with
    | .error e => .error e
    | .ok (col', _, anc') =>
      match anc' with
      | [] => .error "内部错误: 上级上下文缺失"
      | f' :: anc2 => .ok (col', f', anc2)
termination_by (sizeOf cmd, 0)
end


/-! ## Header and footer layout (builder.go `buildHeaderFooter`) -/

/-- The element accumulator of `buildHeaderFooter`'s statement loop. -/
structure HFAcc where
  texts : List TextBox
  images : List ImageBox
  lines : List Line
  rects : List Rect
  circles : List Circle
  cursorY : ℚ
deriving DecidableEq

/-- The statement loop of `buildHeaderFooter`: stack `text`/`image` items
top-down (shapes are collected without moving the cursor). -/
def hfLoop (margin : Margin) (contentWidth : ℚ) (res : ResourceSet)
    (data : Option JsonVal) (ts? : Option Typesetter) (debug : DebugOptions)
    (kind : String) : List Stmt → HFAcc → Except String HFAcc
  | [], a => .ok a
  | .scmd cmd :: rest, a =>
    if cmd.name = "text" then
      let (styleName, tattrs) := parseArgs cmd.args true
      let all := mergeStyleAttributes styleName tattrs res.Styles
      let content := extractText cmd.block?
      let wrap0 := normalizeWrap (attrGet all "wrap")
      let wrap := if wrap0 = "" then "anywhere" else wrap0
      match composeTextBox styleName all content margin.Left 0 contentWidth res
          data ts? debug wrap with
      | .error e => .error e
      | .ok (tb, h) =>
        let tb1 :=
          if kind = "header" then
            let al0 := toLowerCh (attrGet tattrs "align")
            let al1 :=
              if al0 = "start" then "left"
              else if al0 = "end" then "right"
              else al0
            let align :=
              if al1 ≠ "left" ∧ al1 ≠ "right" ∧ al1 ≠ "center" then "center"
              else al1
            { tb with X := margin.Left, Width := contentWidth, Align := align }
          else tb
        let tb2 := { tb1 with Y := a.cursorY + tb1.Y }
        hfLoop margin contentWidth res data ts? debug kind rest
          { a with texts := a.texts ++ [tb2],
                   cursorY := a.cursorY + h + blockSpacing }
    else if cmd.name = "image" then
      let (styleName, iattrs0) := parseArgs cmd.args true
      let iattrs := mergeStyleAttributes styleName iattrs0 res.Styles
      let n1 := if attrGet iattrs "image" ≠ "" then attrGet iattrs "image"
                else styleName
      let n2 := if attrGet iattrs "src" ≠ "" then attrGet iattrs "src" else n1
      let imageName :=
        if n2 = "" then
          match cmd.args with
          | arg :: _ => arg.Value
          | [] => ""
        else n2
      let opacity : ℚ :=
        if attrGet iattrs "opacity" ≠ "" then
          match parseFloatQ? (attrGet iattrs "opacity") with
          | some v => v
          | none => 1
        else 1
      let (path0, w0, h0) :=
        match List.lookup imageName res.Images with
        | some resImg =>
          (if resImg.Src = "" then imageName else resImg.Src,
           if resImg.Width > 0 then resImg.Width else 0,
           if resImg.Height > 0 then resImg.Height else 0)
        | none => (imageName, 0, 0)
      let w1 :=
        if attrGet iattrs "width" ≠ "" ∧
            parseDimension (attrGet iattrs "width") contentWidth > 0
        then parseDimension (attrGet iattrs "width") contentWidth else w0
      let h1 :=
        if attrGet iattrs "height" ≠ "" ∧
            parseDimension (attrGet iattrs "height") contentWidth > 0
        then parseDimension (attrGet iattrs "height") contentWidth else h0
      let w2 := if w1 = 0 then contentWidth else w1
      let h2 := if h1 = 0 then w2 * (6 / 10) else h1
      let x :=
        if kind = "header" then
          let al0 := toLowerCh (attrGet iattrs "align")
          let al1 :=
            if al0 = "start" then "left"
            else if al0 = "end" then "right"
            else al0
          if al1 = "left" then margin.Left
          else if al1 = "right" then margin.Left + contentWidth - w2
          else margin.Left + (contentWidth - w2) / 2
        else margin.Left
      let img : ImageBox :=
        { Path := path0, X := x, Y := a.cursorY, Width := w2, Height := h2,
          Fit := attrGet iattrs "fit", Opacity := opacity }
      hfLoop margin contentWidth res data ts? debug kind rest
        { a with images := a.images ++ [img],
                 cursorY := a.cursorY + img.Height + blockSpacing }
    else
      let nm := toLowerCh cmd.name
      if nm = "line" ∨ nm = "rect" ∨ nm = "circle" then
        let (_, sa) := parseArgs cmd.args false
        let a' :=
          if nm = "line" then
            match parseLineShape sa res with
            | some ln => { a with lines := a.lines ++ [ln] }
            | none => a
          else if nm = "rect" then
            match parseRectShape sa res with
            | some rc => { a with rects := a.rects ++ [rc] }
            | none => a
          else
            match parseCircleShape sa res with
            | some c => { a with circles := a.circles ++ [c] }
            | none => a
        hfLoop margin contentWidth res data ts? debug kind rest a'
      else hfLoop margin contentWidth res data ts? debug kind rest a
  | _ :: rest, a => hfLoop margin contentWidth res data ts? debug kind rest a

/-- `buildHeaderFooter` (builder.go): lay out a header or footer band and
re-base its elements to page coordinates. -/
def buildHeaderFooter (cmd? : Option Cmd) (pageW pageH : ℚ) (margin : Margin)
    (res : ResourceSet) (data : Option JsonVal) (ts? : Option Typesetter)
    (debug : DebugOptions) (kind : String) : Except String HeaderFooter :=
  match cmd? with
  | none => .ok emptyHF
  | some cmd =>
    match cmd.block? with
    | none => .ok emptyHF
    | some b =>
      let (_, attrs) := parseArgs cmd.args false
      let contentWidth := pageW - margin.Left - margin.Right
      match hfLoop margin contentWidth res data ts? debug kind b.statements
          ⟨[], [], [], [], [], 0⟩ with
      | .error e => .error e
      | .ok a =>
        let cursorY := if a.cursorY > 0 then a.cursorY - blockSpacing
                       else a.cursorY
        let contentHeight := cursorY
        let areaHeight :=
          if attrGet attrs "height" ≠ "" ∧
              parseDimension (attrGet attrs "height") contentWidth > 0
          then parseDimension (attrGet attrs "height") contentWidth
          else contentHeight
        let baseY :=
          if kind = "header" then
            if areaHeight - contentHeight < 0 then 0
            else areaHeight - contentHeight
          else if kind = "footer" then pageH - areaHeight
          else 0
        .ok { Height := areaHeight,
              Texts := a.texts.map (fun t => { t with Y := t.Y + baseY }),
              Images := a.images.map (fun i => { i with Y := i.Y + baseY }),
              Lines := a.lines, Rects := a.rects, Circles := a.circles }

/-! ## Page build and entry point (builder.go `buildPages`, `Build`) -/

/-- The header/footer definition scan of `buildPages`: the last command of
the given name wins. -/
def lastNamed (nm : String) (stmts : List Stmt) : Option Cmd :=
  stmts.foldl
    (fun acc st =>
      match st with
      | .scmd c => if c.name = nm then some c else acc
      | _ => acc) none

/-- `buildPages` (builder.go): resolve the page geometry, lay out header
and footer, then run the root flow over the page block's statements. -/
def buildPages (sec : PageSection) (res : ResourceSet) (data : Option JsonVal)
    (ts : Typesetter) (debug : DebugOptions) : Except String (List Page) :=
  match resolvePageSize sec.Spec with
  | .error e => .error e
  | .ok wh =>
    let width := wh.1
    let height := wh.2
    let margin := resolveMargin sec.Spec.Params
    let col0 := newPageCollector width height margin
    match sec.block? with
    | none => .error "page 段落缺少内容"
    | some b =>
      let headerDef := lastNamed "header" b.statements
      let footerDef := lastNamed "footer" b.statements
      let colH : Except String Collector :=
        match headerDef with
        | none => .ok col0
        | some hc =>
          match buildHeaderFooter (some hc) width height margin res data
              (some ts) debug "header" with
          | .error e => .error e
          | .ok hf => .ok { col0 with header := hf }
      match colH with
      | .error e => .error e
      | .ok col1 =>
        let colF : Except String Collector :=
          match footerDef with
          | none => .ok col1
          | some fc =>
            match buildHeaderFooter (some fc) width height margin res data
                (some ts) debug "footer" with
            | .error e => .error e
            | .ok hf => .ok { col1 with footer := hf }
        match colF with
        | .error e => .error e
        | .ok col2 =>
          let root : Frame :=
            { baseX := margin.Left, baseY := col2.contentTop,
              width := width - margin.Left - margin.Right,
              cursorY := col2.contentTop, allowPageBreak := true,
              textAlign := "", textWrap := "anywhere" }
          let env : Env := { data := data, ts := ts, debug := debug,
                             margin := margin }
          match processStmts env res b.statements col2 root [] with
          | .error e => .error e
          | .ok (col', _, _) => .ok col'.pages

/-- `Build` (builder.go): the engine entry point; a Go nil document or nil
typesetter interface is `none`. -/
def Build (doc? : Option Document) (data : Option JsonVal)
    (opts : BuildOptions) : Except String Result :=
  match doc? with
  | none => .error "文档为空"
  | some doc =>
    match opts.Typesetter? with
    | none => .error "layout: 缺少排版后端 Typesetter"
    | some ts =>
      match collectResources doc with
      | .error e => .error e
      | .ok res =>
        let meta := collectMeta doc
        match firstPage doc with
        | none => .error "文档中缺少 page 段落"
        | some sec =>
          match buildPages sec res data ts opts.Debug with
          | .error e => .error e
          | .ok pages => .ok { Pages := pages, Resources := res, Meta := meta }

/-- Number of `cell` commands with nonempty extracted text in a statement
list (the cells `buildTableRow` lays out). -/
def countCellsStmts : List Stmt → ℕ
  | [] => 0
  | .scmd cmd :: rest =>
    (if cmd.name = "cell" ∧ extractText cmd.block? ≠ "" then 1 else 0) +
      countCellsStmts rest
  | _ :: rest => countCellsStmts rest

/-- Number of cells a `row`/`header` command lays out. -/
def countCells (cmd : Cmd) : ℕ :=
  match cmd.block? with
  | none => 0
  | some b => countCellsStmts b.statements

/-- The column count `handleTable`'s row loop ends with: only a `header`
row met while the count is still 0 fixes it (to its laid-out cell count);
`row` rows never do. -/
def specColCount : List Stmt → ℕ → ℕ
  | [], c => c
  | .scmd cmd :: rest, c =>
    if cmd.name = "header" ∧ c = 0 then specColCount rest (countCells cmd)
    else specColCount rest c
  | _ :: rest, c => specColCount rest c

/-! ## Theorems -/

/-- Splitting a list at the end of its `takeWhile` prefix when a failing
element exists. -/
theorem takeWhile_split (p : Char → Bool) (l : List Char)
    (h : (l.takeWhile p).length < l.length) :
    ∃ c, p c = false ∧
      l = l.takeWhile p ++ c :: l.drop ((l.takeWhile p).length + 1) := by
  induction l with
  | nil => simp at h
  | cons a as ih =>
    by_cases hp : p a = true
    · simp only [List.takeWhile_cons, hp] at h ⊢
      simp only [if_true] at h ⊢
      have h' : (as.takeWhile p).length < as.length := by
        simpa using h
      obtain ⟨c, hc, heq⟩ := ih h'
      refine ⟨c, hc, ?_⟩
      simp only [List.cons_append, List.length_cons, List.drop_succ_cons]
      exact congrArg (a :: ·) heq
    · have hp' : p a = false := by simpa using hp
      refine ⟨a, hp', ?_⟩
      simp [List.takeWhile_cons, hp']

/-- Flushing the accumulator prepends its reversal to the covered text. -/
theorem emitAcc_verbatim (acc : List Char) (toks : List ITok) :
    ((emitAcc acc toks).map verbatimTokCh).flatten =
      acc.reverse ++ (toks.map verbatimTokCh).flatten := by
  by_cases h : acc.isEmpty
  · have : acc = [] := by simpa using h
    subst this
    simp [emitAcc]
  · simp [emitAcc, h, verbatimTokCh]

/-- The scanner's tokens cover the input text exactly. -/
theorem tokenizeAux_verbatim :
    ∀ (acc cs : List Char),
      ((tokenizeAux acc cs).map verbatimTokCh).flatten = acc.reverse ++ cs := by
  intro acc₀ cs₀
  induction acc₀, cs₀ using tokenizeAux.induct with
  | case1 acc =>
    rw [tokenizeAux]
    simp [emitAcc_verbatim]
  | case2 acc rest inner hcond ih =>
    rw [tokenizeAux]
    simp only [if_pos hcond]
    rw [ih]
    simp
  | case3 acc rest inner hcond ih =>
    have hinner : inner = List.takeWhile (fun c => decide (c ≠ '\x7d')) rest := rfl
    rw [tokenizeAux]
    simp only [if_neg hcond]
    rw [emitAcc_verbatim]
    simp only [List.map_cons, List.flatten_cons, verbatimTokCh]
    rw [ih]
    push_neg at hcond
    obtain ⟨hne, hlt⟩ := hcond
    have hlen : (List.takeWhile (fun c => decide (c ≠ '\x7d')) rest).length < rest.length := by
      have hle := (List.takeWhile_sublist (l := rest) (fun c => decide (c ≠ '\x7d'))).length_le
      rw [hinner] at hlt
      omega
    obtain ⟨c, hc, heq⟩ := takeWhile_split (fun c => decide (c ≠ '\x7d')) rest hlen
    have hcc : c = '\x7d' := by simpa using hc
    subst hcc
    rw [hinner]
    conv_rhs => rw [heq]
    simp
  | case4 acc c rest hnm ih =>
    rw [tokenizeAux]
    rw [ih]
    simp
    exact hnm

/-- C6: `Interpolate` never fails — a nil data object returns the input
unchanged; otherwise the output is exactly the input's decomposition into
raw chunks and placeholders, where every raw chunk and every placeholder
whose trimmed path is empty or does not resolve is emitted verbatim, and
every placeholder whose path resolves is replaced by the value's default
string form. -/
theorem Interpolate_spec :
    (∀ text : String, Interpolate text none = text) ∧
    (∀ text : String,
      String.mk (((tokenizeInterp text).map verbatimTokCh).flatten) = text) ∧
    (∀ (text : String) (d : JsonVal),
      Interpolate text (some d) =
        String.mk (((tokenizeInterp text).map (renderTokCh d)).flatten)) ∧
    (∀ (d : JsonVal) (inner : String),
      resolvePath d (trimSpaceCh inner) = none →
      renderTokCh d (.ph inner) = verbatimTokCh (.ph inner)) ∧
    (∀ (d : JsonVal) (inner : String),
      trimSpaceCh inner = "" →
      renderTokCh d (.ph inner) = verbatimTokCh (.ph inner)) ∧
    (∀ (d : JsonVal) (inner : String) (v : JsonVal),
      trimSpaceCh inner ≠ "" →
      resolvePath d (trimSpaceCh inner) = some v →
      renderTokCh d (.ph inner) = (sprintVal v).data) := by
  refine ⟨fun text => rfl, ?_, fun text d => rfl, ?_, ?_, ?_⟩
  · intro text
    rw [tokenizeInterp, tokenizeAux_verbatim]
    rfl
  · intro d inner h
    rw [renderTokCh, renderPh, verbatimTokCh]
    by_cases hp : trimSpaceCh inner = ""
    · rw [if_pos hp]
      simp [String.data_append]
    · rw [if_neg hp, h]
      simp [String.data_append]
  · intro d inner h
    rw [renderTokCh, renderPh, verbatimTokCh, if_pos h]
    simp [String.data_append]
  · intro d inner v hne hv
    rw [renderTokCh, renderPh, if_neg hne, hv]

/-- Witness for C6: concrete data resolving `user.name` and leaving an
unresolvable `user.email` placeholder verbatim, plus the nil no-op. -/
theorem Interpolate_spec_witness :
    Interpolate "Hello, $\x7buser.name\x7d!" none = "Hello, $\x7buser.name\x7d!" ∧
    renderTokCh (JsonVal.jobj [("user", .jobj [("name", .jstr "Papyrus")])])
        (.ph "user.name") = (sprintVal (.jstr "Papyrus")).data ∧
    renderTokCh (JsonVal.jobj [("user", .jobj [("name", .jstr "Papyrus")])])
        (.ph "user.email") = verbatimTokCh (.ph "user.email") :=
  ⟨Interpolate_spec.1 "Hello, $\x7buser.name\x7d!",
   Interpolate_spec.2.2.2.2.2 (JsonVal.jobj [("user", .jobj [("name", .jstr "Papyrus")])])
     "user.name" (.jstr "Papyrus") (by decide) (by rfl),
   Interpolate_spec.2.2.2.1 (JsonVal.jobj [("user", .jobj [("name", .jstr "Papyrus")])])
     "user.email" (by rfl)⟩

/-- `dfs` only adds entries to the memo map: existing bindings survive. -/
theorem dfs_mono (styles resolved : List (String × StyleR)) :
    ∀ (visiting : List String) (name : String) (st : StyleR)
      (res' : List (String × StyleR)),
      dfs styles resolved visiting name = .ok (st, res') →
      ∀ k v, List.lookup k resolved = some v → List.lookup k res' = some v := by
  intro visiting₀ name₀
  induction visiting₀, name₀ using dfs.induct styles resolved with
  | case1 visiting name st0 hmemo =>
    intro st res' hok k v hk
    rw [dfs, hmemo] at hok
    cases hok
    exact hk
  | case2 visiting name hnone hs =>
    intro st res' hok k v hk
    rw [dfs, hnone, hs] at hok
    cases hok
  | case3 visiting name hnone st0 hs hv =>
    intro st res' hok k v hk
    rw [dfs, hnone, hs] at hok
    simp only [hv, dite_true] at hok
    cases hok
  | case4 visiting name hnone st0 hs hv hx =>
    intro st res' hok k v hk
    rw [dfs, hnone, hs] at hok
    simp only [hv, dite_false, hx, if_true] at hok
    cases hok
    rw [List.lookup_cons]
    have hne : ¬ (k == name) = true := by
      intro hb
      have hkn : k = name := by simpa using hb
      subst hkn
      rw [hk] at hnone
      cases hnone
    simp only [hne]
    exact hk
  | case5 visiting name hnone st0 hs hv hx e hrec ih =>
    intro st res' hok k v hk
    rw [dfs, hnone, hs] at hok
    simp only [hv, dite_false, hx, if_false, hrec] at hok
    cases hok
  | case6 visiting name hnone st0 hs hv hx parent resolved1 hrec ih =>
    intro st res' hok k v hk
    rw [dfs, hnone, hs] at hok
    simp only [hv, dite_false, hx, if_false, hrec] at hok
    cases hok
    rw [List.lookup_cons]
    have hne : ¬ (k == name) = true := by
      intro hb
      have hkn : k = name := by simpa using hb
      subst hkn
      rw [hk] at hnone
      cases hnone
    simp only [hne]
    exact ih parent resolved1 hrec k v hk

/-- After a successful `dfs` call the requested style is in the memo map. -/
theorem dfs_self (styles resolved : List (String × StyleR)) :
    ∀ (visiting : List String) (name : String) (st : StyleR)
      (res' : List (String × StyleR)),
      dfs styles resolved visiting name = .ok (st, res') →
      List.lookup name res' = some st := by
  intro visiting₀ name₀
  induction visiting₀, name₀ using dfs.induct styles resolved with
  | case1 visiting name st0 hmemo =>
    intro st res' hok
    rw [dfs, hmemo] at hok
    cases hok
    exact hmemo
  | case2 visiting name hnone hs =>
    intro st res' hok
    rw [dfs, hnone, hs] at hok
    cases hok
  | case3 visiting name hnone st0 hs hv =>
    intro st res' hok
    rw [dfs, hnone, hs] at hok
    simp only [hv, dite_true] at hok
    cases hok
  | case4 visiting name hnone st0 hs hv hx =>
    intro st res' hok
    rw [dfs, hnone, hs] at hok
    simp only [hv, dite_false, hx, if_true] at hok
    cases hok
    exact List.lookup_cons_self
  | case5 visiting name hnone st0 hs hv hx e hrec ih =>
    intro st res' hok
    rw [dfs, hnone, hs] at hok
    simp only [hv, dite_false, hx, if_false, hrec] at hok
    cases hok
  | case6 visiting name hnone st0 hs hv hx parent resolved1 hrec ih =>
    intro st res' hok
    rw [dfs, hnone, hs] at hok
    simp only [hv, dite_false, hx, if_false, hrec] at hok
    cases hok
    exact List.lookup_cons_self

/-- `dfs` never adds a binding for a name in the visiting set that is not
already resolved (such a name can only reach the cycle error). -/
theorem dfs_fresh (styles resolved : List (String × StyleR)) (m : String)
    (hm : List.lookup m resolved = none) :
    ∀ (visiting : List String) (name : String) (st : StyleR)
      (res' : List (String × StyleR)),
      dfs styles resolved visiting name = .ok (st, res') →
      m ∈ visiting → List.lookup m res' = none := by
  intro visiting₀ name₀
  induction visiting₀, name₀ using dfs.induct styles resolved with
  | case1 visiting name st0 hmemo =>
    intro st res' hok hmv
    rw [dfs, hmemo] at hok
    cases hok
    exact hm
  | case2 visiting name hnone hs =>
    intro st res' hok hmv
    rw [dfs, hnone, hs] at hok
    cases hok
  | case3 visiting name hnone st0 hs hv =>
    intro st res' hok hmv
    rw [dfs, hnone, hs] at hok
    simp only [hv, dite_true] at hok
    cases hok
  | case4 visiting name hnone st0 hs hv hx =>
    intro st res' hok hmv
    rw [dfs, hnone, hs] at hok
    simp only [hv, dite_false, hx, if_true] at hok
    cases hok
    rw [List.lookup_cons]
    have hne : ¬ (m == name) = true := by
      intro hb
      have hmn : m = name := by simpa using hb
      subst hmn
      exact hv (by simpa using hmv)
    simp only [hne]
    exact hm
  | case5 visiting name hnone st0 hs hv hx e hrec ih =>
    intro st res' hok hmv
    rw [dfs, hnone, hs] at hok
    simp only [hv, dite_false, hx, if_false, hrec] at hok
    cases hok
  | case6 visiting name hnone st0 hs hv hx parent resolved1 hrec ih =>
    intro st res' hok hmv
    rw [dfs, hnone, hs] at hok
    simp only [hv, dite_false, hx, if_false, hrec] at hok
    cases hok
    rw [List.lookup_cons]
    have hne : ¬ (m == name) = true := by
      intro hb
      have hmn : m = name := by simpa using hb
      subst hmn
      exact hv (by simpa using hmv)
    simp only [hne]
    exact ih parent resolved1 hrec (List.mem_cons_of_mem _ hmv)

/-- A `dfs` call on a name that is in the visiting set but not memoized
cannot succeed. -/
theorem dfs_visiting_error (styles resolved : List (String × StyleR))
    (visiting : List String) (name : String)
    (hm : List.lookup name resolved = none) (hv : name ∈ visiting) :
    ∀ st res', dfs styles resolved visiting name ≠ .ok (st, res') := by
  intro st res' hok
  rw [dfs, hm] at hok
  match hs : List.lookup name styles with
  | none => rw [hs] at hok; cases hok
  | some st0 =>
    rw [hs] at hok
    have hc : visiting.contains name = true := by simpa using hv
    simp only [hc, dite_true] at hok
    cases hok

/-- `dfs` preserves the merge invariant of the memo map. -/
theorem dfs_preserves_inv (styles resolved : List (String × StyleR))
    (hinv : styleInvariant styles resolved) :
    ∀ (visiting : List String) (name : String) (st : StyleR)
      (res' : List (String × StyleR)),
      dfs styles resolved visiting name = .ok (st, res') →
      styleInvariant styles res' := by
  intro visiting₀ name₀
  induction visiting₀, name₀ using dfs.induct styles resolved with
  | case1 visiting name st0 hmemo =>
    intro st res' hok
    rw [dfs, hmemo] at hok
    cases hok
    exact hinv
  | case2 visiting name hnone hs =>
    intro st res' hok
    rw [dfs, hnone, hs] at hok
    cases hok
  | case3 visiting name hnone st0 hs hv =>
    intro st res' hok
    rw [dfs, hnone, hs] at hok
    simp only [hv, dite_true] at hok
    cases hok
  | case4 visiting name hnone st0 hs hv hx =>
    intro st res' hok
    rw [dfs, hnone, hs] at hok
    simp only [hv, dite_false, hx, if_true] at hok
    cases hok
    intro n st' hn
    rw [List.lookup_cons] at hn
    by_cases hne : (n == name) = true
    · have hnn : n = name := by simpa using hne
      subst hnn
      simp only [hne] at hn
      cases hn
      exact ⟨st0, hs, Or.inl ⟨hx, rfl⟩⟩
    · simp only [hne] at hn
      obtain ⟨st1, hst1, hcase⟩ := hinv n st' hn
      refine ⟨st1, hst1, ?_⟩
      rcases hcase with ⟨hex, rfl⟩ | ⟨hex, pst, hpst, rfl⟩
      · exact Or.inl ⟨hex, rfl⟩
      · refine Or.inr ⟨hex, pst, ?_, rfl⟩
        rw [List.lookup_cons]
        have hne2 : ¬ (st1.Extends == name) = true := by
          intro hb
          have : st1.Extends = name := by simpa using hb
          rw [this, hnone] at hpst
          cases hpst
        simp only [hne2]
        exact hpst
  | case5 visiting name hnone st0 hs hv hx e hrec ih =>
    intro st res' hok
    rw [dfs, hnone, hs] at hok
    simp only [hv, dite_false, hx, if_false, hrec] at hok
    cases hok
  | case6 visiting name hnone st0 hs hv hx parent resolved1 hrec ih =>
    intro st res' hok
    rw [dfs, hnone, hs] at hok
    simp only [hv, dite_false, hx, if_false, hrec] at hok
    cases hok
    have hinv1 : styleInvariant styles resolved1 := ih parent resolved1 hrec
    have hparent : List.lookup st0.Extends resolved1 = some parent :=
      dfs_self styles resolved (name :: visiting) st0.Extends parent resolved1 hrec
    have hfresh : List.lookup name resolved1 = none :=
      dfs_fresh styles resolved name hnone (name :: visiting) st0.Extends
        parent resolved1 hrec (List.mem_cons_self name visiting)
    intro n st' hn
    rw [List.lookup_cons] at hn
    by_cases hne : (n == name) = true
    · have hnn : n = name := by simpa using hne
      subst hnn
      simp only [hne] at hn
      cases hn
      refine ⟨st0, hs, Or.inr ⟨hx, parent, ?_, rfl⟩⟩
      rw [List.lookup_cons]
      have hne2 : ¬ (st0.Extends == n) = true := by
        intro hb
        have hexn : st0.Extends = n := by simpa using hb
        rw [hexn] at hparent
        rw [hparent] at hfresh
        cases hfresh
      simp only [hne2]
      exact hparent
    · simp only [hne] at hn
      obtain ⟨st1, hst1, hcase⟩ := hinv1 n st' hn
      refine ⟨st1, hst1, ?_⟩
      rcases hcase with ⟨hex, rfl⟩ | ⟨hex, pst, hpst, rfl⟩
      · exact Or.inl ⟨hex, rfl⟩
      · refine Or.inr ⟨hex, pst, ?_, rfl⟩
        rw [List.lookup_cons]
        have hne2 : ¬ (st1.Extends == name) = true := by
          intro hb
          have hexn : st1.Extends = name := by simpa using hb
          rw [hexn] at hpst
          rw [hpst] at hfresh
          cases hfresh
        simp only [hne2]
        exact hpst

/-- Chain composition for `extIter`. -/
theorem extIter_add (styles : List (String × StyleR)) :
    ∀ (a b : ℕ) (n : String),
      extIter styles (a + b) n = (extIter styles a n).bind (extIter styles b) := by
  intro a
  induction a with
  | zero => intro b n; simp [extIter]
  | succ a ih =>
    intro b n
    have : a + 1 + b = (a + b) + 1 := by omega
    rw [this]
    simp only [extIter]
    cases extStep styles n with
    | none => simp
    | some p => simp [ih b p]

/-- A name on a cycle has a defined style with a nonempty `extends` whose
target is also on the cycle. -/
theorem onCycle_step (styles : List (String × StyleR)) (n : String)
    (h : onCycle styles n) :
    ∃ st, List.lookup n styles = some st ∧ st.Extends ≠ "" ∧
      onCycle styles st.Extends := by
  obtain ⟨k, hk⟩ := h
  have hk' : (extStep styles n).bind (extIter styles k) = some n := hk
  cases hstep : extStep styles n with
  | none => rw [hstep] at hk'; cases hk'
  | some p =>
    rw [hstep] at hk'
    replace hk' : extIter styles k p = some n := hk'
    cases hlk : List.lookup n styles with
    | none =>
      have h0 := hstep
      simp only [extStep, hlk] at h0
      cases h0
    | some st =>
      have hstep' : (if st.Extends = "" then none else some st.Extends) = some p := by
        have h0 := hstep
        simp only [extStep, hlk] at h0
        exact h0
      by_cases hex : st.Extends = ""
      · rw [if_pos hex] at hstep'
        cases hstep'
      · rw [if_neg hex] at hstep'
        have hpx : p = st.Extends := by cases hstep'; rfl
        subst hpx
        refine ⟨st, rfl, hex, k, ?_⟩
        have h2 : extIter styles (k + 1) st.Extends =
            (extIter styles k st.Extends).bind (extIter styles 1) :=
          extIter_add styles k 1 st.Extends
        rw [h2, hk']
        show (extStep styles n).bind (extIter styles 0) = some st.Extends
        rw [hstep]
        rfl

/-- A `dfs` call on an on-cycle name always errors when the memo map holds
no on-cycle entry. -/
theorem dfs_cycle_error (styles resolved : List (String × StyleR))
    (hnc : noCycleResolved styles resolved) :
    ∀ (visiting : List String) (name : String),
      onCycle styles name → ∃ e, dfs styles resolved visiting name = .error e := by
  intro visiting₀ name₀
  induction visiting₀, name₀ using dfs.induct styles resolved with
  | case1 visiting name st0 hmemo =>
    intro hcyc
    exact absurd hcyc (hnc name st0 hmemo)
  | case2 visiting name hnone hs =>
    intro hcyc
    cases hres : dfs styles resolved visiting name with
    | error e => exact ⟨e, rfl⟩
    | ok pr =>
      rw [dfs, hnone, hs] at hres
      cases hres
  | case3 visiting name hnone st0 hs hv =>
    intro hcyc
    cases hres : dfs styles resolved visiting name with
    | error e => exact ⟨e, rfl⟩
    | ok pr =>
      rw [dfs, hnone, hs] at hres
      simp only [hv, dite_true] at hres
      cases hres
  | case4 visiting name hnone st0 hs hv hx =>
    intro hcyc
    obtain ⟨st1, hst1, hex, -⟩ := onCycle_step styles name hcyc
    rw [hs] at hst1
    cases hst1
    exact absurd hx hex
  | case5 visiting name hnone st0 hs hv hx e hrec ih =>
    intro hcyc
    cases hres : dfs styles resolved visiting name with
    | error e2 => exact ⟨e2, rfl⟩
    | ok pr =>
      rw [dfs, hnone, hs] at hres
      simp only [hv, dite_false, hx, if_false, hrec] at hres
      cases hres
  | case6 visiting name hnone st0 hs hv hx parent resolved1 hrec ih =>
    intro hcyc
    obtain ⟨st1, hst1, hex, hcyc'⟩ := onCycle_step styles name hcyc
    rw [hs] at hst1
    cases hst1
    obtain ⟨e, he⟩ := ih hcyc'
    rw [he] at hrec
    cases hrec

/-- `dfs` preserves the no-cycle invariant of the memo map. -/
theorem dfs_preserves_noCycle (styles resolved : List (String × StyleR))
    (hnc : noCycleResolved styles resolved) :
    ∀ (visiting : List String) (name : String) (st : StyleR)
      (res' : List (String × StyleR)),
      dfs styles resolved visiting name = .ok (st, res') →
      noCycleResolved styles res' := by
  intro visiting₀ name₀
  induction visiting₀, name₀ using dfs.induct styles resolved with
  | case1 visiting name st0 hmemo =>
    intro st res' hok
    rw [dfs, hmemo] at hok
    cases hok
    exact hnc
  | case2 visiting name hnone hs =>
    intro st res' hok
    rw [dfs, hnone, hs] at hok
    cases hok
  | case3 visiting name hnone st0 hs hv =>
    intro st res' hok
    rw [dfs, hnone, hs] at hok
    simp only [hv, dite_true] at hok
    cases hok
  | case4 visiting name hnone st0 hs hv hx =>
    intro st res' hok
    rw [dfs, hnone, hs] at hok
    simp only [hv, dite_false, hx, if_true] at hok
    cases hok
    intro m v hm hcyc
    rw [List.lookup_cons] at hm
    by_cases hne : (m == name) = true
    · have hmn : m = name := by simpa using hne
      subst hmn
      obtain ⟨st1, hst1, hex, -⟩ := onCycle_step styles m hcyc
      rw [hs] at hst1
      cases hst1
      exact absurd hx hex
    · simp only [hne] at hm
      exact hnc m v hm hcyc
  | case5 visiting name hnone st0 hs hv hx e hrec ih =>
    intro st res' hok
    rw [dfs, hnone, hs] at hok
    simp only [hv, dite_false, hx, if_false, hrec] at hok
    cases hok
  | case6 visiting name hnone st0 hs hv hx parent resolved1 hrec ih =>
    intro st res' hok
    rw [dfs, hnone, hs] at hok
    simp only [hv, dite_false, hx, if_false, hrec] at hok
    cases hok
    have hnc1 : noCycleResolved styles resolved1 := ih parent resolved1 hrec
    intro m v hm hcyc
    rw [List.lookup_cons] at hm
    by_cases hne : (m == name) = true
    · have hmn : m = name := by simpa using hne
      subst hmn
      -- an on-cycle name cannot have been resolved: dfs on it errors
      obtain ⟨e, he⟩ := dfs_cycle_error styles resolved hnc visiting m hcyc
      rw [dfs, hnone, hs] at he
      simp only [hv, dite_false, hx, if_false, hrec] at he
      cases he
    · simp only [hne] at hm
      exact hnc1 m v hm hcyc

/-- The resolution loop preserves the merge invariant and memoization. -/
theorem loop_preserves_inv (styles : List (String × StyleR)) :
    ∀ (names : List String) (resolved R : List (String × StyleR)),
      styleInvariant styles resolved →
      resolveStylesLoop styles names resolved = .ok R →
      styleInvariant styles R := by
  intro names
  induction names with
  | nil =>
    intro resolved R hinv hok
    rw [resolveStylesLoop] at hok
    cases hok
    exact hinv
  | cons n rest ih =>
    intro resolved R hinv hok
    rw [resolveStylesLoop] at hok
    cases hd : dfs styles resolved [] n with
    | error e => rw [hd] at hok; cases hok
    | ok pr =>
      rw [hd] at hok
      exact ih pr.2 R (dfs_preserves_inv styles resolved hinv [] n pr.1 pr.2 (by rw [hd])) hok

/-- The resolution loop only adds memo entries. -/
theorem loop_mono (styles : List (String × StyleR)) :
    ∀ (names : List String) (resolved R : List (String × StyleR)),
      resolveStylesLoop styles names resolved = .ok R →
      ∀ k v, List.lookup k resolved = some v → List.lookup k R = some v := by
  intro names
  induction names with
  | nil =>
    intro resolved R hok k v hk
    rw [resolveStylesLoop] at hok
    cases hok
    exact hk
  | cons n rest ih =>
    intro resolved R hok k v hk
    rw [resolveStylesLoop] at hok
    cases hd : dfs styles resolved [] n with
    | error e => rw [hd] at hok; cases hok
    | ok pr =>
      rw [hd] at hok
      exact ih pr.2 R hok k v
        (dfs_mono styles resolved [] n pr.1 pr.2 (by rw [hd]) k v hk)

/-- Every name the loop processes ends up in the final memo map. -/
theorem loop_resolves (styles : List (String × StyleR)) :
    ∀ (names : List String) (resolved R : List (String × StyleR)),
      resolveStylesLoop styles names resolved = .ok R →
      ∀ n ∈ names, ∃ st', List.lookup n R = some st' := by
  intro names
  induction names with
  | nil =>
    intro resolved R hok n hn
    cases hn
  | cons m rest ih =>
    intro resolved R hok n hn
    rw [resolveStylesLoop] at hok
    cases hd : dfs styles resolved [] m with
    | error e => rw [hd] at hok; cases hok
    | ok pr =>
      rw [hd] at hok
      rcases List.mem_cons.mp hn with rfl | hn2
      · have hself : List.lookup n pr.2 = some pr.1 :=
          dfs_self styles resolved [] n pr.1 pr.2 (by rw [hd])
        exact ⟨pr.1, loop_mono styles rest pr.2 R hok n pr.1 hself⟩
      · exact ih pr.2 R hok n hn2

/-- If any processed name lies on a cycle, the loop errors. -/
theorem loop_cycle_error (styles : List (String × StyleR)) :
    ∀ (names : List String) (resolved : List (String × StyleR)),
      noCycleResolved styles resolved →
      ∀ c ∈ names, onCycle styles c →
      ∃ e, resolveStylesLoop styles names resolved = .error e := by
  intro names
  induction names with
  | nil =>
    intro resolved hnc c hc
    cases hc
  | cons m rest ih =>
    intro resolved hnc c hc hcyc
    rcases List.mem_cons.mp hc with rfl | hc2
    · obtain ⟨e, he⟩ := dfs_cycle_error styles resolved hnc [] c hcyc
      refine ⟨e, ?_⟩
      rw [resolveStylesLoop, he]
    · cases hd : dfs styles resolved [] m with
      | error e =>
        refine ⟨e, ?_⟩
        rw [resolveStylesLoop, hd]
      | ok pr =>
        obtain ⟨e, he⟩ := ih pr.2
          (dfs_preserves_noCycle styles resolved hnc [] m pr.1 pr.2 (by rw [hd]))
          c hc2 hcyc
        refine ⟨e, ?_⟩
        rw [resolveStylesLoop, hd]
        exact he

/-- Merge direction of C5, at the level of `resolveStyles`. -/
theorem resolveStyles_merge :
    ∀ (styles R : List (String × StyleR)) (name : String) (st : StyleR),
      resolveStyles styles = .ok R →
      List.lookup name styles = some st →
      st.Extends ≠ "" →
      ∃ st' pst, List.lookup name R = some st' ∧
        List.lookup st.Extends R = some pst ∧
        ∀ k, List.lookup k st'.Props =
          (List.lookup k st.Props).or (List.lookup k pst.Props) := by
  intro styles R name st hok hlk hex
  rw [resolveStyles] at hok
  have hinv : styleInvariant styles R :=
    loop_preserves_inv styles (styles.map Prod.fst) [] R (fun n st' h => by cases h) hok
  have hmem : name ∈ styles.map Prod.fst := by
    obtain ⟨l₁, l₂, hl, -⟩ := List.lookup_eq_some_iff.mp hlk
    subst hl
    simp
  obtain ⟨st', hst'⟩ := loop_resolves styles (styles.map Prod.fst) [] R hok name hmem
  obtain ⟨st0, hst0, hcase⟩ := hinv name st' hst'
  rw [hlk] at hst0
  cases hst0
  rcases hcase with ⟨hex0, -⟩ | ⟨-, pst, hpst, rfl⟩
  · exact absurd hex0 hex
  · refine ⟨_, pst, hst', hpst, ?_⟩
    intro k
    simp [List.lookup_append]

/-- Cycle direction of C5: any style on an extends cycle makes
`resolveStyles` fail. -/
theorem resolveStyles_cycle :
    ∀ (styles : List (String × StyleR)) (c : String),
      onCycle styles c → ∃ e, resolveStyles styles = .error e := by
  intro styles c hcyc
  obtain ⟨st, hlk, -, -⟩ := onCycle_step styles c hcyc
  have hmem : c ∈ styles.map Prod.fst := by
    obtain ⟨l₁, l₂, hl, -⟩ := List.lookup_eq_some_iff.mp hlk
    subst hl
    simp
  have hnc : noCycleResolved styles [] := fun m v h => by cases h
  obtain ⟨e, he⟩ := loop_cycle_error styles (styles.map Prod.fst) [] hnc c hmem hcyc
  refine ⟨e, ?_⟩
  rw [resolveStyles]
  exact he

/-- C5: style resolution is a depth-first merge — for every style with an
`extends` parent, the resolved property map is the parent's fully-resolved
properties overridden by the child's own properties on key conflicts; and
resolution fails with an error for any style whose extends chain revisits a
style still being resolved (a direct or transitive self-extension). -/
theorem resolveStyles_spec :
    (∀ (styles R : List (String × StyleR)) (name : String) (st : StyleR),
      resolveStyles styles = .ok R →
      List.lookup name styles = some st →
      st.Extends ≠ "" →
      ∃ st' pst, List.lookup name R = some st' ∧
        List.lookup st.Extends R = some pst ∧
        ∀ k, List.lookup k st'.Props =
          (List.lookup k st.Props).or (List.lookup k pst.Props)) ∧
    (∀ (styles : List (String × StyleR)) (c : String),
      onCycle styles c → ∃ e, resolveStyles styles = .error e) :=
  ⟨resolveStyles_merge, resolveStyles_cycle⟩

/-- Witness for C5: `B extends A` (`A` carrying a size property, `B` a color property)
resolves with both properties visible on `B` (the child overriding on key
conflicts), and a directly self-extending style `C` is rejected as a
cycle. -/
theorem resolveStyles_spec_witness :
    (∃ st' pst,
      List.lookup "B"
          [("B", (⟨"B", "A", [("color", "#000"), ("size", "10pt")]⟩ : StyleR)),
           ("A", ⟨"A", "", [("size", "10pt")]⟩)] = some st' ∧
      List.lookup "A"
          [("B", (⟨"B", "A", [("color", "#000"), ("size", "10pt")]⟩ : StyleR)),
           ("A", ⟨"A", "", [("size", "10pt")]⟩)] = some pst ∧
      ∀ k, List.lookup k st'.Props =
        (List.lookup k [("color", "#000")]).or (List.lookup k pst.Props)) ∧
    (∃ e, resolveStyles [("C", ⟨"C", "C", []⟩)] = .error e) := by
  constructor
  · refine resolveStyles_spec.1
      [("B", ⟨"B", "A", [("color", "#000")]⟩), ("A", ⟨"A", "", [("size", "10pt")]⟩)]
      [("B", ⟨"B", "A", [("color", "#000"), ("size", "10pt")]⟩),
       ("A", ⟨"A", "", [("size", "10pt")]⟩)]
      "B" ⟨"B", "A", [("color", "#000")]⟩ ?_ ?_ ?_
    · simp [resolveStyles, resolveStylesLoop, dfs, List.lookup]
    · rfl
    · decide
  · exact resolveStyles_spec.2 [("C", ⟨"C", "C", []⟩)] "C" ⟨0, by decide⟩

/-- C9: the pt/mm conversion constants satisfy `PtToMm * MmToPt = 1`, and for
every value `v` (including 0), converting `v` pt to mm and back to pt via
`Length.To`, and converting `v` mm to pt and back to mm, returns `v` within
`1e-9` absolute error (in the exact-rational model the round-trip is exact). -/
theorem pt_mm_roundtrip :
    PtToMm * MmToPt = 1 ∧
    (∀ v : ℚ,
      |Length.To { Value := Length.To { Value := v, Unit := .pt } .mm, Unit := .mm } .pt - v|
        ≤ 1 / 1000000000) ∧
    (∀ v : ℚ,
      |Length.To { Value := Length.To { Value := v, Unit := .mm } .pt, Unit := .pt } .mm - v|
        ≤ 1 / 1000000000) := by
  have h1 : PtToMm * MmToPt = 1 := by norm_num [PtToMm, MmToPt]
  refine ⟨h1, ?_, ?_⟩
  · intro v
    have : Length.To { Value := Length.To { Value := v, Unit := .pt } .mm, Unit := .mm } .pt
        = v * PtToMm * MmToPt := by
      simp [Length.To]
    rw [this, mul_assoc, h1, mul_one, sub_self, abs_zero]
    norm_num
  · intro v
    have h2 : MmToPt * PtToMm = 1 := by norm_num [PtToMm, MmToPt]
    have : Length.To { Value := Length.To { Value := v, Unit := .mm } .pt, Unit := .pt } .mm
        = v * MmToPt * PtToMm := by
      simp [Length.To]
    rw [this, mul_assoc, h2, mul_one, sub_self, abs_zero]
    norm_num

/-- C7: margin shorthand semantics of `resolveMargin`: 1 collected value sets
all four sides; 2 values set (top,bottom) and (left,right); 3 values set
top/right/bottom and force left to 0; with 4 or more numeric tokens after the
`margin` keyword only the first four are collected and assigned in
(top, right, bottom, left) order, the extras being ignored. -/
theorem resolveMargin_shorthand :
    (∀ (v : ℚ) (m : Margin),
      applyMarginVals [v] m = { Top := v, Right := v, Bottom := v, Left := v }) ∧
    (∀ (v1 v2 : ℚ) (m : Margin),
      applyMarginVals [v1, v2] m = { Top := v1, Right := v2, Bottom := v1, Left := v2 }) ∧
    (∀ (v1 v2 v3 : ℚ) (m : Margin),
      applyMarginVals [v1, v2, v3] m = { Top := v1, Right := v2, Bottom := v3, Left := 0 }) ∧
    (∀ (v1 v2 v3 v4 : ℚ) (m : Margin),
      applyMarginVals [v1, v2, v3, v4] m = { Top := v1, Right := v2, Bottom := v3, Left := v4 }) ∧
    (∀ (t1 t2 t3 t4 : Lexeme) (rest : List Lexeme),
      (parseFloatQ? (trimUnit t1.Value)).isSome = true →
      (parseFloatQ? (trimUnit t2.Value)).isSome = true →
      (parseFloatQ? (trimUnit t3.Value)).isSome = true →
      (parseFloatQ? (trimUnit t4.Value)).isSome = true →
      marginValsAux (t1 :: t2 :: t3 :: t4 :: rest) 4 [] =
        [parseLength t1.Value, parseLength t2.Value,
         parseLength t3.Value, parseLength t4.Value]) := by
  refine ⟨fun v m => rfl, fun v1 v2 m => rfl, fun v1 v2 v3 m => rfl,
    fun v1 v2 v3 v4 m => rfl, ?_⟩
  intro t1 t2 t3 t4 rest h1 h2 h3 h4
  obtain ⟨q1, hq1⟩ := Option.isSome_iff_exists.mp h1
  obtain ⟨q2, hq2⟩ := Option.isSome_iff_exists.mp h2
  obtain ⟨q3, hq3⟩ := Option.isSome_iff_exists.mp h3
  obtain ⟨q4, hq4⟩ := Option.isSome_iff_exists.mp h4
  simp [marginValsAux, hq1, hq2, hq3, hq4]

/-- Witness for C7: concrete tokens exercising the 4-or-more case. -/
theorem resolveMargin_shorthand_witness :
    marginValsAux [⟨"Number", "1mm"⟩, ⟨"Number", "2mm"⟩, ⟨"Number", "3mm"⟩,
        ⟨"Number", "4mm"⟩, ⟨"Number", "999mm"⟩, ⟨"Number", "888mm"⟩] 4 [] =
      [parseLength "1mm", parseLength "2mm", parseLength "3mm", parseLength "4mm"] :=
  resolveMargin_shorthand.2.2.2.2 ⟨"Number", "1mm"⟩ ⟨"Number", "2mm"⟩
    ⟨"Number", "3mm"⟩ ⟨"Number", "4mm"⟩ [⟨"Number", "999mm"⟩, ⟨"Number", "888mm"⟩]
    (by decide) (by decide) (by decide) (by decide)

/-- `sumGH` as a mapped sum. -/
theorem sumGH_eq (ls : List TextLine) :
    sumGH ls = (ls.map (fun l => l.Height + l.GapBefore)).sum := by
  have gen : ∀ (ls : List TextLine) (a : ℚ),
      ls.foldl (fun acc l => acc + (l.GapBefore + l.Height)) a =
        a + (ls.map (fun l => l.Height + l.GapBefore)).sum := by
    intro ls
    induction ls with
    | nil => intro a; simp
    | cons l rest ih =>
      intro a
      simp only [List.foldl_cons, List.map_cons, List.sum_cons]
      rw [ih]
      ring
  have := gen ls 0
  rw [sumGH, this, zero_add]

/-- A successful `layoutLines` always yields a nonempty line list whose
first gap is zero. -/
theorem layoutLines_shape (content : String) (width : ℚ) (font : FontResource)
    (fontSize lineHeight : ℚ) (ts? : Option Typesetter) (wrap : String)
    (ls : List TextLine)
    (hok : layoutLines content width font fontSize lineHeight ts? wrap = .ok ls) :
    ∃ l0 rest, ls = l0 :: rest ∧ l0.GapBefore = 0 := by
  rw [layoutLines.eq_def] at hok
  cases ts? with
  | none =>
    simp only at hok
    split at hok
    · cases hok
      exact ⟨_, _, rfl, rfl⟩
    · cases hok
      exact ⟨_, _, rfl, rfl⟩
  | some ts =>
    simp only at hok
    split at hok
    · cases hok
    · rename_i lines0 hts
      split at hok
      · rename_i heq
        cases hok
        exfalso
        by_cases hemp : lines0.isEmpty = true
        · rw [if_pos hemp] at heq
          cases heq
        · rw [if_neg hemp] at heq
          rw [heq] at hemp
          simp at hemp
      · rename_i first rest2 heq
        cases hok
        exact ⟨_, _, rfl, rfl⟩

/-- `normLines` preserves list length (and hence emptiness). -/
theorem normLines_length (fontSize defaultLeading : ℚ) :
    ∀ (ls : List TextLine) (b : Bool),
      (normLines fontSize defaultLeading ls b).length = ls.length := by
  intro ls
  induction ls with
  | nil => intro b; rfl
  | cons l rest ih =>
    intro b
    simp [normLines, ih]

/-- C2: for every text box produced by `composeTextBox`, the box height
equals the sum over its lines of height plus gap-before, the returned
height equals the box height, and the first line exists with a zero
gap-before. -/
theorem composeTextBox_height_invariant
    (style : String) (attrs0 : Attrs) (content0 : String)
    (x y width : ℚ) (res : ResourceSet) (data : Option JsonVal)
    (ts? : Option Typesetter) (debug : DebugOptions) (wrap : String)
    (tb : TextBox) (h : ℚ)
    (hok : composeTextBox style attrs0 content0 x y width res data ts? debug wrap
      = .ok (tb, h)) :
    tb.Height = ((tb.Lines.map (fun l => l.Height + l.GapBefore)).sum) ∧
    h = tb.Height ∧
    ∃ l0 rest, tb.Lines = l0 :: rest ∧ l0.GapBefore = 0 := by
  rw [composeTextBox.eq_def] at hok
  simp only at hok
  split at hok
  · cases hok
  · rename_i fontRes hfont
    split at hok
    · cases hok
    · rename_i lines0 hlines
      obtain ⟨l0, rest, hshape, hgap⟩ :=
        layoutLines_shape _ _ _ _ _ _ _ _ hlines
      subst hshape
      cases hok
      refine ⟨?_, ?_, ?_⟩
      · show (if (l0 :: rest).isEmpty = true then (0 : ℚ) else _) = _
        rw [if_neg (by simp)]
        exact sumGH_eq _
      · rfl
      · refine ⟨_, _, rfl, ?_⟩
        simp [normLines]

/-- Witness for C2: a concrete composition through a stub typesetter that
returns one line with an unset height. -/
theorem composeTextBox_height_invariant_witness :
    composeTextBox "" [] "hi" 0 0 100
        (⟨[("Body", ⟨"Body", "", "", "", "Body", false, ""⟩)], [], [], []⟩ : ResourceSet)
        none
        (some (fun _ _ _ _ _ _ => .ok [⟨"hi", 9, 0, 5⟩]))
        (⟨false⟩ : DebugOptions) "anywhere" =
      .ok ((⟨"hi", 0, 0, 100, 12 * PtToMm * (14 / 10), "Body", 12 * PtToMm,
            ⟨30, 30, 30⟩, [⟨"hi", 9, 12 * PtToMm, 0⟩], 12 * PtToMm, "",
            "anywhere", none⟩ : TextBox), 12 * PtToMm) ∧
    ((⟨"hi", 0, 0, 100, 12 * PtToMm * (14 / 10), "Body", 12 * PtToMm,
       ⟨30, 30, 30⟩, [⟨"hi", 9, 12 * PtToMm, 0⟩], 12 * PtToMm, "",
       "anywhere", none⟩ : TextBox).Height =
      (((⟨"hi", 0, 0, 100, 12 * PtToMm * (14 / 10), "Body", 12 * PtToMm,
         ⟨30, 30, 30⟩, [⟨"hi", 9, 12 * PtToMm, 0⟩], 12 * PtToMm, "",
         "anywhere", none⟩ : TextBox).Lines.map (fun l => l.Height + l.GapBefore)).sum)) := by
  have heval : composeTextBox "" [] "hi" 0 0 100
      (⟨[("Body", ⟨"Body", "", "", "", "Body", false, ""⟩)], [], [], []⟩ : ResourceSet)
      none
      (some (fun _ _ _ _ _ _ => .ok [⟨"hi", 9, 0, 5⟩]))
      (⟨false⟩ : DebugOptions) "anywhere" =
      .ok ((⟨"hi", 0, 0, 100, 12 * PtToMm * (14 / 10), "Body", 12 * PtToMm,
            ⟨30, 30, 30⟩, [⟨"hi", 9, 12 * PtToMm, 0⟩], 12 * PtToMm, "",
            "anywhere", none⟩ : TextBox), 12 * PtToMm) := by
    simp +decide [composeTextBox, mergeStyleAttributes, attrGet, parseLength,
      resolveColor, resolveFontResource, layoutLines, normLines, sumGH,
      trimSpaceCh, toLowerCh, hasSuffixCh, listEqCh, trimUnit, parseFloatQ?,
      parseUnsignedDec?, isDigitB, digitsToNat, dropRightCh, List.lookup, PtToMm]
  refine ⟨heval, ?_⟩
  have hmain := composeTextBox_height_invariant "" [] "hi" 0 0 100
      (⟨[("Body", ⟨"Body", "", "", "", "Body", false, ""⟩)], [], [], []⟩ : ResourceSet)
      none
      (some (fun _ _ _ _ _ _ => .ok [⟨"hi", 9, 0, 5⟩]))
      (⟨false⟩ : DebugOptions) "anywhere" _ _ heval
  exact hmain.1

/-- C8 counterexample: the declaration `color x zzz` has a value that is not
valid hex, yet `collectResources` succeeds and the name `x` IS present in
the Colors map (stored as black, because `mustHex` ignores parse errors),
contradicting "that color name is simply absent". -/
theorem collectResources_invalid_color_counterexample :
    (∀ n, parseHexNat? ['z', 'z'] ≠ some n) ∧
    collectResources
        ⟨[⟨none,
           some ⟨some (.mk [.scmd (.mk "color"
             [⟨"Identifier", "x"⟩, ⟨"Color", "zzz"⟩] none)])⟩,
           none⟩]⟩ =
      .ok ⟨[("Body",
             ⟨"Body", "assets/fonts/Noto_Sans_SC/static/NotoSansSC-Regular.ttf",
              "", "", "Body", false, "embed:Inter/static/Inter-Regular.ttf"⟩)],
           [("x", ⟨0, 0, 0⟩)], [], []⟩ := by
  constructor
  · intro n h
    simp [parseHexNat?, hexDigitVal?] at h
  · simp +decide [collectResources, collectResourceSections, collectResourceStmt,
      parseColorResource, parseColor, trimPfx, hasPrefixCh, dropCh, listEqCh,
      repeatTwo, mustHex, parseHexInt?, parseHexNat?, hexDigitVal?,
      resolveStyles, resolveStylesLoop, Cmd.name, Cmd.args, Cmd.block?,
      Block.statements]

/-- C8 (amended): `parseColor` errors exactly when the value, after trimming
one leading `#`, does not have length 3, 6 or 8; a color declaration whose
value fails `parseColor` is skipped (the accumulator is unchanged, so the
name stays absent); and `collectResources` can only error through style
resolution, never through a color declaration. -/
theorem collectResources_invalid_color_amended :
    (∀ v : String, (∃ e, parseColor v = .error e) ↔
      ¬((trimPfx v "#").data.length = 3 ∨ (trimPfx v "#").data.length = 6 ∨
        (trimPfx v "#").data.length = 8)) ∧
    (∀ (acc : ResAccum) (cmd : Cmd) (e : String),
      cmd.name = "color" →
      parseColor (parseColorResource cmd).2 = .error e →
      collectResourceStmt acc (.scmd cmd) = acc) ∧
    (∀ (doc : Document) (e : String),
      collectResources doc = .error e →
      resolveStyles (collectResourceSections doc).rawStyles = .error e) := by
  refine ⟨?_, ?_, ?_⟩
  · intro v
    rw [parseColor]
    constructor
    · rintro ⟨e, he⟩ hlen
      rcases hlen with h3 | h6 | h8
      · match hd : (trimPfx v "#").data, h3 with
        | [c0, c1, c2], _ => rw [hd] at he; cases he
      · match hd : (trimPfx v "#").data, h6 with
        | [c0, c1, c2, c3, c4, c5], _ => rw [hd] at he; cases he
      · match hd : (trimPfx v "#").data, h8 with
        | [c0, c1, c2, c3, c4, c5, c6, c7], _ => rw [hd] at he; cases he
    · intro hlen
      refine ⟨"cannot parse color value " ++ v, ?_⟩
      push_neg at hlen
      obtain ⟨h3, h6, h8⟩ := hlen
      match hd : (trimPfx v "#").data with
      | [] => rfl
      | [a] => rfl
      | [a, b] => rfl
      | [a, b, c] => rw [hd] at h3; simp at h3
      | [a, b, c, d] => rfl
      | [a, b, c, d, e] => rfl
      | [a, b, c, d, e, f] => rw [hd] at h6; simp at h6
      | [a, b, c, d, e, f, g] => rfl
      | [a, b, c, d, e, f, g, h] => rw [hd] at h8; simp at h8
      | a :: b :: c :: d :: e :: f :: g :: h :: i :: rest => rfl
  · intro acc cmd e hname herr
    rw [collectResourceStmt, hname]
    rw [if_neg (by decide), if_pos rfl]
    by_cases hz : (parseColorResource cmd).1 = "" ∨ (parseColorResource cmd).2 = ""
    · rw [if_pos hz]
    · rw [if_neg hz, herr]
  · intro doc e herr
    rw [collectResources] at herr
    match hres : resolveStyles (collectResourceSections doc).rawStyles with
    | .error e' =>
      rw [hres] at herr
      cases herr
      rfl
    | .ok r =>
      rw [hres] at herr
      cases herr

/-- Witness for the amended C8: the length-4 value `zzzz` fails `parseColor`
and the declaration `color x zzzz` leaves the accumulator untouched. -/
theorem collectResources_invalid_color_amended_witness :
    ((⟨"color", [⟨"Identifier", "x"⟩, ⟨"Color", "zzzz"⟩], none⟩ : Cmd).name
      = "color") ∧
    parseColor (parseColorResource
        (⟨"color", [⟨"Identifier", "x"⟩, ⟨"Color", "zzzz"⟩], none⟩ : Cmd)).2
      = .error "cannot parse color value zzzz" ∧
    collectResourceStmt ⟨[], [], [], []⟩
        (.scmd (⟨"color", [⟨"Identifier", "x"⟩, ⟨"Color", "zzzz"⟩], none⟩ : Cmd))
      = ⟨[], [], [], []⟩ := by
  have hname : (⟨"color", [⟨"Identifier", "x"⟩, ⟨"Color", "zzzz"⟩], none⟩ : Cmd).name
      = "color" := rfl
  have herr : parseColor (parseColorResource
      (⟨"color", [⟨"Identifier", "x"⟩, ⟨"Color", "zzzz"⟩], none⟩ : Cmd)).2
      = .error "cannot parse color value zzzz" := by
    simp +decide [parseColorResource, parseColor, trimPfx, hasPrefixCh,
      isPfxOf, dropCh, Cmd.args]
  exact ⟨hname, herr,
    collectResources_invalid_color_amended.2.1 ⟨[], [], [], []⟩ _ _ hname herr⟩

/-- On success, `buildRowCells` counts exactly the nonempty `cell`
commands, starting from its running index. -/
theorem buildRowCells_count (res : ResourceSet) (hint : ℕ) (w x y : ℚ)
    (data : Option JsonVal) (ts? : Option Typesetter) (dbg : DebugOptions) :
    ∀ (stmts : List Stmt) (i : ℕ) (mh : ℚ) (cells : List TableCell)
      (out : ℕ × ℚ × List TableCell),
      buildRowCells res hint w x y data ts? dbg stmts i mh cells = .ok out →
      out.1 = i + countCellsStmts stmts := by
  intro stmts
  induction stmts with
  | nil =>
    intro i mh cells out h
    rw [buildRowCells] at h
    cases h
    simp [countCellsStmts]
  | cons st rest ih =>
    intro i mh cells out h
    match st with
    | .scmd cmd =>
      rw [buildRowCells] at h
      by_cases hc : cmd.name = "cell"
      · rw [if_pos hc] at h
        rcases hpa : parseArgs cmd.args true with ⟨sn, at0⟩
        simp only [hpa] at h
        by_cases hcontent : extractText cmd.block? = ""
        · rw [if_pos hcontent] at h
          have := ih i mh cells out h
          rw [countCellsStmts, this]
          simp [hc, hcontent]
        · rw [if_neg hcontent] at h
          split at h
          · cases h
          · have := ih _ _ _ out h
            rw [countCellsStmts, this]
            simp only [hc, hcontent, ne_eq, not_false_iff, and_self, if_true]
            omega
      · rw [if_neg hc] at h
        have := ih i mh cells out h
        rw [countCellsStmts, this]
        simp [hc]
    | .sassign k v =>
      exact ih i mh cells out h
    | .stext s =>
      exact ih i mh cells out h

/-- On success, `buildTableRow` returns exactly the nonempty-cell count of
its command, and that count is positive. -/
theorem buildTableRow_count (cmd : Cmd) (res : ResourceSet) (hint : ℕ)
    (w x y : ℚ) (hdr : Bool) (data : Option JsonVal) (ts? : Option Typesetter)
    (dbg : DebugOptions) (row : TableRow) (ht : ℚ) (cols : ℕ)
    (h : buildTableRow cmd res hint w x y hdr data ts? dbg = .ok (row, ht, cols)) :
    cols = countCells cmd ∧ 0 < cols := by
  rw [buildTableRow] at h
  match hb : cmd.block? with
  | none => rw [hb] at h; cases h
  | some b =>
    simp only [hb] at h
    match hcells : buildRowCells res hint w x y data ts? dbg b.statements 0 0 [] with
    | .error e => simp only [hcells] at h; cases h
    | .ok out =>
      simp only [hcells] at h
      have hcount := buildRowCells_count res hint w x y data ts? dbg
        b.statements 0 0 [] out hcells
      obtain ⟨colIdx, maxH, cells⟩ := out
      simp only at h hcount
      by_cases hz : colIdx = 0
      · rw [if_pos hz] at h; cases h
      · rw [if_neg hz] at h
        cases h
        simp only [countCells, hb]
        omega

/-- On success, the row loop of `handleTable` ends with the column count
`specColCount` describes: only headers met at count 0 fix it. -/
theorem tableLoop_colCount (res : ResourceSet) (w x g : ℚ)
    (data : Option JsonVal) (ts? : Option Typesetter) (dbg : DebugOptions) :
    ∀ (stmts : List Stmt) (st st' : TState),
      tableLoop res w x g data ts? dbg stmts st = .ok st' →
      st'.colCount = specColCount stmts st.colCount := by
  intro stmts
  induction stmts with
  | nil =>
    intro st st' h
    rw [tableLoop] at h
    cases h
    rfl
  | cons s rest ih =>
    intro st st' h
    match s with
    | .scmd cmd =>
      rw [tableLoop] at h
      by_cases hh : cmd.name = "header"
      · rw [if_pos hh] at h
        match hrow : buildTableRow cmd res st.colCount w x st.currentY true
            data ts? dbg with
        | .error e => rw [hrow] at h; cases h
        | .ok pr =>
          obtain ⟨row, rowHeight, rowColumns⟩ := pr
          rw [hrow] at h
          simp only at h
          have hc := buildTableRow_count cmd res st.colCount w x st.currentY
            true data ts? dbg row rowHeight rowColumns hrow
          have := ih _ st' h
          rw [this]
          by_cases hz : st.colCount = 0
          · simp [specColCount, hh, hz, hc.1]
          · simp [specColCount, hh, hz]
      · rw [if_neg hh] at h
        by_cases hr : cmd.name = "row"
        · rw [if_pos hr] at h
          match hrow : buildTableRow cmd res st.colCount w x st.currentY false
              data ts? dbg with
          | .error e => rw [hrow] at h; cases h
          | .ok pr =>
            obtain ⟨row, rowHeight, rowColumns⟩ := pr
            rw [hrow] at h
            simp only at h
            have := ih _ st' h
            rw [this]
            simp [specColCount, hh]
        · rw [if_neg hr] at h
          have := ih _ st' h
          rw [this]
          simp [specColCount, hh]
    | .sassign k v =>
      exact ih _ st' h
    | .stext s' =>
      exact ih _ st' h

/-- C1 (amended): a `row`/`header` lays out exactly its nonempty cells and
never zero of them; the row loop's final column count follows
`specColCount`, under which only a `header` met while the count is 0 fixes
it and data rows never do; and a successful table build has a positive
count `n = specColCount stmts columns` with every column the identical
width `width / n`.  (The original claim's "else from the first data row"
is false: a table of data rows without an explicit `columns` attribute
keeps count 0 and fails.) -/
theorem table_columns_amended :
    (∀ (cmd : Cmd) (res : ResourceSet) (hint : ℕ) (w x y : ℚ) (hdr : Bool)
       (data : Option JsonVal) (ts? : Option Typesetter) (dbg : DebugOptions)
       (row : TableRow) (ht : ℚ) (cols : ℕ),
      buildTableRow cmd res hint w x y hdr data ts? dbg = .ok (row, ht, cols) →
      cols = countCells cmd ∧ 0 < cols) ∧
    (∀ (res : ResourceSet) (w x g : ℚ) (data : Option JsonVal)
       (ts? : Option Typesetter) (dbg : DebugOptions) (stmts : List Stmt)
       (st st' : TState),
      tableLoop res w x g data ts? dbg stmts st = .ok st' →
      st'.colCount = specColCount stmts st.colCount) ∧
    (∀ (res : ResourceSet) (stmts : List Stmt) (cols0 : ℕ) (w g bx : ℚ)
       (data : Option JsonVal) (ts? : Option Typesetter) (dbg : DebugOptions)
       (y0 : ℚ) (tb : TableBox) (ht : ℚ),
      buildTableAt res stmts cols0 w g bx data ts? dbg y0 = .ok (tb, ht) →
      0 < specColCount stmts cols0 ∧
      tb.ColumnWidths = List.replicate (specColCount stmts cols0)
        (w / (specColCount stmts cols0 : ℚ))) := by
  refine ⟨buildTableRow_count, tableLoop_colCount, ?_⟩
  intro res stmts cols0 w g bx data ts? dbg y0 tb ht h
  rw [buildTableAt] at h
  match hloop : tableLoop res w bx g data ts? dbg stmts ⟨[], y0, cols0⟩ with
  | .error e => simp only [hloop] at h; cases h
  | .ok st =>
    simp only [hloop] at h
    have hcc := tableLoop_colCount res w bx g data ts? dbg stmts _ st hloop
    by_cases hz : st.colCount = 0
    · rw [if_pos hz] at h; cases h
    · rw [if_neg hz] at h
      cases h
      simp only at hcc
      rw [← hcc]
      exact ⟨Nat.pos_of_ne_zero hz, rfl⟩


/-- C1 counterexample: a table command with no explicit `columns`
attribute whose first (and only) row is a data `row` with one nonempty
cell: the column count is NOT taken from that first data row — the count
stays 0 and `handleTable` fails, although laying out one column of the
full width is possible. -/
theorem handleTable_rows_only_counterexample :
    handleTable
      (⟨none, fun _ _ _ _ _ _ => .ok [⟨"a", 5, 0, 0⟩], ⟨false⟩,
        ⟨10, 10, 10, 10⟩⟩ : Env)
      (⟨[("Body", ⟨"Body", "", "", "", "Body", false, ""⟩)], [], [], []⟩ : ResourceSet)
      (.mk "table" [] (some (.mk [.scmd (.mk "row" []
        (some (.mk [.scmd (.mk "cell" [] (some (.mk [.stext "a"])))])))])))
      (newPageCollector 210 297 ⟨10, 10, 10, 10⟩)
      (⟨10, 10, 190, 10, true, "", "anywhere"⟩ : Frame) []
      = .error "table 需要至少一个单元格" := by
  simp +decide [handleTable, buildTableAt, tableLoop, buildTableRow,
    buildRowCells, tableWidthAttr, tableRowGapAttr, tableColumnsAttr,
    parseArgs, parseArgsPairs, mergeStyleAttributes, attrGet, extractText,
    normalizeWrap, composeTextBox, layoutLines, normLines, sumGH,
    resolveColor, resolveFontResource, parseLength, trimUnit, trimSpaceCh,
    toLowerCh, hasSuffixCh, listEqCh, parseFloatQ?, parseUnsignedDec?,
    isDigitB, digitsToNat, dropRightCh, List.lookup, PtToMm, cellPadding,
    newPageCollector, Collector.maxContentY, Collector.contentBottom,
    Cmd.name, Cmd.args, Cmd.block?, Block.statements, blockSpacing,
    defaultTableRowGap]

/-- Witness for the amended C1: a table whose first row is a header with
one nonempty cell builds successfully with column count 1 and a single
full-width column. -/
theorem table_columns_amended_witness :
    buildTableAt
      (⟨[("Body", ⟨"Body", "", "", "", "Body", false, ""⟩)], [], [], []⟩ : ResourceSet)
      [.scmd (.mk "header" []
        (some (.mk [.scmd (.mk "cell" [] (some (.mk [.stext "a"])))])))]
      0 100 0 0 none
      (some (fun _ _ _ _ _ _ => .ok [⟨"a", 5, 0, 0⟩]))
      (⟨false⟩ : DebugOptions) 0
      = .ok (⟨0, 0, 100, 0, [100],
              [⟨0, 12 * PtToMm + 2 * (12 / 10), true,
                [⟨⟨"a", 12 / 10, 12 / 10, 100 - 2 * (12 / 10),
                   12 * PtToMm * (14 / 10), "Body", 12 * PtToMm, ⟨30, 30, 30⟩,
                   [⟨"a", 5, 12 * PtToMm, 0⟩], 12 * PtToMm, "", "anywhere",
                   none⟩⟩]⟩],
              ⟨200, 200, 200⟩⟩, 12 * PtToMm + 2 * (12 / 10)) ∧
    0 < specColCount
      [.scmd (.mk "header" []
        (some (.mk [.scmd (.mk "cell" [] (some (.mk [.stext "a"])))])))] 0 ∧
    (⟨0, 0, 100, 0, [100],
      [⟨0, 12 * PtToMm + 2 * (12 / 10), true,
        [⟨⟨"a", 12 / 10, 12 / 10, 100 - 2 * (12 / 10),
           12 * PtToMm * (14 / 10), "Body", 12 * PtToMm, ⟨30, 30, 30⟩,
           [⟨"a", 5, 12 * PtToMm, 0⟩], 12 * PtToMm, "", "anywhere",
           none⟩⟩]⟩],
      ⟨200, 200, 200⟩⟩ : TableBox).ColumnWidths =
      List.replicate
        (specColCount
          [.scmd (.mk "header" []
            (some (.mk [.scmd (.mk "cell" [] (some (.mk [.stext "a"])))])))] 0)
        (100 / (specColCount
          [.scmd (.mk "header" []
            (some (.mk [.scmd (.mk "cell" [] (some (.mk [.stext "a"])))])))] 0 : ℚ)) := by
  have heval : buildTableAt
      (⟨[("Body", ⟨"Body", "", "", "", "Body", false, ""⟩)], [], [], []⟩ : ResourceSet)
      [.scmd (.mk "header" []
        (some (.mk [.scmd (.mk "cell" [] (some (.mk [.stext "a"])))])))]
      0 100 0 0 none
      (some (fun _ _ _ _ _ _ => .ok [⟨"a", 5, 0, 0⟩]))
      (⟨false⟩ : DebugOptions) 0
      = .ok (⟨0, 0, 100, 0, [100],
              [⟨0, 12 * PtToMm + 2 * (12 / 10), true,
                [⟨⟨"a", 12 / 10, 12 / 10, 100 - 2 * (12 / 10),
                   12 * PtToMm * (14 / 10), "Body", 12 * PtToMm, ⟨30, 30, 30⟩,
                   [⟨"a", 5, 12 * PtToMm, 0⟩], 12 * PtToMm, "", "anywhere",
                   none⟩⟩]⟩],
              ⟨200, 200, 200⟩⟩, 12 * PtToMm + 2 * (12 / 10)) := by
    simp +decide [buildTableAt, tableLoop, buildTableRow, buildRowCells,
      parseArgs, parseArgsPairs, mergeStyleAttributes, attrGet, extractText,
      normalizeWrap, composeTextBox, layoutLines, normLines, sumGH,
      resolveColor, resolveFontResource, parseLength, trimUnit, trimSpaceCh,
      toLowerCh, hasSuffixCh, listEqCh, parseFloatQ?, parseUnsignedDec?,
      isDigitB, digitsToNat, dropRightCh, List.lookup, PtToMm, cellPadding,
      Cmd.name, Cmd.args, Cmd.block?, Block.statements, defaultTableRowGap]
    norm_num
  refine ⟨heval, ?_⟩
  have := table_columns_amended.2.2
    (⟨[("Body", ⟨"Body", "", "", "", "Body", false, ""⟩)], [], [], []⟩ : ResourceSet)
    [.scmd (.mk "header" []
      (some (.mk [.scmd (.mk "cell" [] (some (.mk [.stext "a"])))])))]
    0 100 0 0 none
    (some (fun _ _ _ _ _ _ => .ok [⟨"a", 5, 0, 0⟩]))
    (⟨false⟩ : DebugOptions) 0 _ _ heval
  exact this

/-- `pageBreak` always reaches the root: the collector gains exactly one
new page and the current frame restarts at the content top (`newPage`
leaves header and margin alone, so contentTop is unchanged). -/
theorem pageBreakRec_spec (margin : Margin) :
    ∀ (anc : List Frame) (col : Collector) (f : Frame),
      (pageBreakRec margin col f anc).1 = col.newPage ∧
      (pageBreakRec margin col f anc).2.1.cursorY = col.contentTop ∧
      (pageBreakRec margin col f anc).2.2.length = anc.length := by
  intro anc
  induction anc with
  | nil =>
    intro col f
    exact ⟨rfl, rfl, rfl⟩
  | cons g rest ih =>
    intro col f
    have h := ih col g
    refine ⟨h.1, h.2.1, ?_⟩
    simp [pageBreakRec, h.2.2]

/-- `newPage` appends exactly one accumulator and points `current` at it. -/
theorem newPage_spec (col : Collector) :
    col.newPage.accs.length = col.accs.length + 1 ∧
    col.newPage.current = col.accs.length ∧
    col.newPage.accs ≠ [] := by
  refine ⟨by simp [Collector.newPage], rfl, by simp [Collector.newPage]⟩

/-- Appending one table through `withCurr` touches only the current
accumulator, which gains exactly that table at the end of its list. -/
theorem withCurr_append_table (col : Collector) (tb : TableBox)
    (hne : col.accs ≠ []) (hcur : col.current < col.accs.length) :
    (col.withCurr (fun a => { a with tables := a.tables ++ [tb] })).accs.length
      = col.accs.length ∧
    (∀ j, j ≠ col.current →
      (col.withCurr (fun a => { a with tables := a.tables ++ [tb] })).accs.getD j emptyAcc
        = col.accs.getD j emptyAcc) ∧
    ((col.withCurr (fun a => { a with tables := a.tables ++ [tb] })).accs.getD
        col.current emptyAcc).tables
      = (col.accs.getD col.current emptyAcc).tables ++ [tb] := by
  have hemp : col.accs.isEmpty = false := by
    cases hacc : col.accs with
    | nil => exact absurd hacc hne
    | cons a as => rfl
  refine ⟨?_, ?_, ?_⟩
  · simp [Collector.withCurr, hemp]
  · intro j hj
    simp only [Collector.withCurr, hemp, Bool.false_eq_true, if_false]
    simp [List.getD, List.get?_eq_getElem?, List.getElem?_set,
      Ne.symm hj]
  · simp only [Collector.withCurr, hemp, Bool.false_eq_true, if_false]
    simp [List.getD, List.get?_eq_getElem?, List.getElem?_set_self',
      List.getElem?_eq_getElem hcur]

/-- On success, the built table's `Y` is the base the build started at. -/
theorem buildTableAt_Y (res : ResourceSet) (stmts : List Stmt) (cols : ℕ)
    (w g bx : ℚ) (data : Option JsonVal) (ts? : Option Typesetter)
    (dbg : DebugOptions) (y0 : ℚ) (tb : TableBox) (ht : ℚ)
    (h : buildTableAt res stmts cols w g bx data ts? dbg y0 = .ok (tb, ht)) :
    tb.Y = y0 ∧ tb.X = bx := by
  rw [buildTableAt] at h
  match hloop : tableLoop res w bx g data ts? dbg stmts ⟨[], y0, cols⟩ with
  | .error e => simp only [hloop] at h; cases h
  | .ok st =>
    simp only [hloop] at h
    by_cases hz : st.colCount = 0
    · rw [if_pos hz] at h; cases h
    · rw [if_neg hz] at h
      cases h
      exact ⟨rfl, rfl⟩

/-- C3: when page breaks are allowed and the table built at the current
cursor would cross the content bottom, `handleTable` first breaks the
page, rebuilds the whole table from the new page's content top, and
appends it to exactly one page accumulator — the current one — leaving
every other accumulator untouched; the table is never split. -/
theorem handleTable_break_whole
    (env : Env) (res : ResourceSet) (nm : String) (args : List Lexeme)
    (b : Block) (col : Collector) (f : Frame) (anc : List Frame)
    (attrs : Attrs) (w g : ℚ) (cols : ℕ) (tb0 : TableBox) (h0 : ℚ)
    (out : Collector × Frame × List Frame)
    (hattrs : attrs = mergeStyleAttributes (parseArgs args false).1
      (parseArgs args false).2 res.Styles)
    (hw : w = tableWidthAttr attrs f.width)
    (hg : g = tableRowGapAttr attrs)
    (hcols : cols = tableColumnsAttr attrs)
    (hallow : f.allowPageBreak = true)
    (hcur : col.current < col.accs.length)
    (hbuild0 : buildTableAt res b.statements cols w g f.baseX env.data
      (some env.ts) env.debug f.cursorY = .ok (tb0, h0))
    (hover : f.cursorY + h0 > col.maxContentY)
    (hrun : handleTable env res (.mk nm args (some b)) col f anc = .ok out) :
    ∃ (colB : Collector) (fB : Frame) (ancB : List Frame) (tb : TableBox)
      (ht : ℚ),
      pageBreakRec env.margin col f anc = (colB, fB, ancB) ∧
      colB = col.newPage ∧
      fB.cursorY = col.contentTop ∧
      buildTableAt res b.statements cols w g fB.baseX env.data (some env.ts)
        env.debug fB.cursorY = .ok (tb, ht) ∧
      tb.Y = fB.cursorY ∧
      out = (colB.withCurr (fun a => { a with tables := a.tables ++ [tb] }),
             { fB with cursorY := fB.cursorY + ht + blockSpacing }, ancB) ∧
      out.1.accs.length = colB.accs.length ∧
      (∀ j, j ≠ colB.current →
        out.1.accs.getD j emptyAcc = colB.accs.getD j emptyAcc) ∧
      (out.1.accs.getD colB.current emptyAcc).tables =
        (colB.accs.getD colB.current emptyAcc).tables ++ [tb] := by
  rw [handleTable] at hrun
  rcases hpa : parseArgs args false with ⟨sn, a0⟩
  simp only [Cmd.block?, Cmd.args, hpa] at hrun
  rw [hpa] at hattrs
  simp only at hattrs
  rw [← hattrs, ← hw, ← hg, ← hcols] at hrun
  rw [hbuild0] at hrun
  simp only [hallow, true_and] at hrun
  rw [if_pos hover] at hrun
  rcases hpb : pageBreakRec env.margin col f anc with ⟨colB, fB, ancB⟩
  have hspec := pageBreakRec_spec env.margin anc col f
  rw [hpb] at hspec
  simp only at hspec
  simp only [hpb] at hrun
  match hbuild2 : buildTableAt res b.statements cols w g fB.baseX env.data
      (some env.ts) env.debug fB.cursorY with
  | .error e => simp only [hbuild2] at hrun; cases hrun
  | .ok pr =>
    obtain ⟨tb2, ht2⟩ := pr
    simp only [hbuild2] at hrun
    cases hrun
    have hY := buildTableAt_Y res b.statements cols w g fB.baseX env.data
      (some env.ts) env.debug fB.cursorY tb2 ht2 hbuild2
    have hnew := newPage_spec col
    have hwc := withCurr_append_table colB tb2
      (by rw [hspec.1]; exact hnew.2.2)
      (by rw [hspec.1, hnew.1, hnew.2.1]; omega)
    exact ⟨colB, fB, ancB, tb2, ht2, rfl, hspec.1, hspec.2.1, hbuild2, hY.1,
      rfl, hwc.1, hwc.2.1, hwc.2.2⟩


/-- Witness for C3: a one-header table at cursor 35 on a 100x50 page with
margin 10 (content bottom 40) overflows, so the page is broken and the
whole table lands at the new page's content top 10, appended to the second
accumulator only. -/
theorem handleTable_break_whole_witness :
    (35 : ℚ) + (12 * PtToMm + 2 * (12 / 10)) >
      (newPageCollector 100 50 ⟨10, 10, 10, 10⟩).maxContentY ∧
    (∃ (colB : Collector) (fB : Frame) (ancB : List Frame) (tb : TableBox)
      (ht : ℚ),
      pageBreakRec (⟨10, 10, 10, 10⟩ : Margin)
          (newPageCollector 100 50 ⟨10, 10, 10, 10⟩)
          (⟨10, 10, 80, 35, true, "", "anywhere"⟩ : Frame) []
        = (colB, fB, ancB) ∧
      colB = (newPageCollector 100 50 ⟨10, 10, 10, 10⟩).newPage ∧
      fB.cursorY = (newPageCollector 100 50 ⟨10, 10, 10, 10⟩).contentTop ∧
      buildTableAt
          (⟨[("Body", ⟨"Body", "", "", "", "Body", false, ""⟩)], [], [], []⟩ : ResourceSet)
          (Block.mk [.scmd (.mk "header" []
            (some (.mk [.scmd (.mk "cell" [] (some (.mk [.stext "a"])))])))]).statements
          0 80 0 fB.baseX none
          (some (fun _ _ _ _ _ _ => .ok [⟨"a", 5, 0, 0⟩]))
          (⟨false⟩ : DebugOptions) fB.cursorY = .ok (tb, ht) ∧
      tb.Y = fB.cursorY ∧
      (⟨⟨100, 50, ⟨10, 10, 10, 10⟩,
         [emptyAcc, ⟨[], [], [⟨10, 10, 80, 0, [80],
           [⟨10, 12 * PtToMm + 2 * (12 / 10), true,
             [⟨⟨"a", 10 + 12 / 10, 10 + 12 / 10, 80 - 2 * (12 / 10),
                12 * PtToMm * (14 / 10), "Body", 12 * PtToMm, ⟨30, 30, 30⟩,
                [⟨"a", 5, 12 * PtToMm, 0⟩], 12 * PtToMm, "", "anywhere",
                none⟩⟩]⟩],
           ⟨200, 200, 200⟩⟩], [], [], []⟩], 1, emptyHF, emptyHF⟩,
        ⟨10, 10, 80, 10 + (12 * PtToMm + 2 * (12 / 10)) + blockSpacing, true,
         "", "anywhere"⟩, ([] : List Frame)⟩ :
          Collector × Frame × List Frame)
        = (colB.withCurr (fun a => { a with tables := a.tables ++ [tb] }),
           { fB with cursorY := fB.cursorY + ht + blockSpacing }, ancB) ∧
      (⟨⟨100, 50, ⟨10, 10, 10, 10⟩,
         [emptyAcc, ⟨[], [], [⟨10, 10, 80, 0, [80],
           [⟨10, 12 * PtToMm + 2 * (12 / 10), true,
             [⟨⟨"a", 10 + 12 / 10, 10 + 12 / 10, 80 - 2 * (12 / 10),
                12 * PtToMm * (14 / 10), "Body", 12 * PtToMm, ⟨30, 30, 30⟩,
                [⟨"a", 5, 12 * PtToMm, 0⟩], 12 * PtToMm, "", "anywhere",
                none⟩⟩]⟩],
           ⟨200, 200, 200⟩⟩], [], [], []⟩], 1, emptyHF, emptyHF⟩,
        ⟨10, 10, 80, 10 + (12 * PtToMm + 2 * (12 / 10)) + blockSpacing, true,
         "", "anywhere"⟩, ([] : List Frame)⟩ :
          Collector × Frame × List Frame).1.accs.length = colB.accs.length ∧
      (∀ j, j ≠ colB.current →
        (⟨⟨100, 50, ⟨10, 10, 10, 10⟩,
           [emptyAcc, ⟨[], [], [⟨10, 10, 80, 0, [80],
             [⟨10, 12 * PtToMm + 2 * (12 / 10), true,
               [⟨⟨"a", 10 + 12 / 10, 10 + 12 / 10, 80 - 2 * (12 / 10),
                  12 * PtToMm * (14 / 10), "Body", 12 * PtToMm, ⟨30, 30, 30⟩,
                  [⟨"a", 5, 12 * PtToMm, 0⟩], 12 * PtToMm, "", "anywhere",
                  none⟩⟩]⟩],
             ⟨200, 200, 200⟩⟩], [], [], []⟩], 1, emptyHF, emptyHF⟩,
          ⟨10, 10, 80, 10 + (12 * PtToMm + 2 * (12 / 10)) + blockSpacing, true,
           "", "anywhere"⟩, ([] : List Frame)⟩ :
            Collector × Frame × List Frame).1.accs.getD j emptyAcc
          = colB.accs.getD j emptyAcc) ∧
      ((⟨⟨100, 50, ⟨10, 10, 10, 10⟩,
          [emptyAcc, ⟨[], [], [⟨10, 10, 80, 0, [80],
            [⟨10, 12 * PtToMm + 2 * (12 / 10), true,
              [⟨⟨"a", 10 + 12 / 10, 10 + 12 / 10, 80 - 2 * (12 / 10),
                 12 * PtToMm * (14 / 10), "Body", 12 * PtToMm, ⟨30, 30, 30⟩,
                 [⟨"a", 5, 12 * PtToMm, 0⟩], 12 * PtToMm, "", "anywhere",
                 none⟩⟩]⟩],
            ⟨200, 200, 200⟩⟩], [], [], []⟩], 1, emptyHF, emptyHF⟩,
         ⟨10, 10, 80, 10 + (12 * PtToMm + 2 * (12 / 10)) + blockSpacing, true,
          "", "anywhere"⟩, ([] : List Frame)⟩ :
           Collector × Frame × List Frame).1.accs.getD colB.current
          emptyAcc).tables
        = (colB.accs.getD colB.current emptyAcc).tables ++ [tb]) := by
  constructor
  · simp [newPageCollector, Collector.newPage, Collector.maxContentY,
      Collector.contentBottom, emptyHF, PtToMm]
    norm_num
  · refine handleTable_break_whole
      (⟨none, fun _ _ _ _ _ _ => .ok [⟨"a", 5, 0, 0⟩], ⟨false⟩,
        ⟨10, 10, 10, 10⟩⟩ : Env)
      (⟨[("Body", ⟨"Body", "", "", "", "Body", false, ""⟩)], [], [], []⟩ : ResourceSet)
      "table" []
      (Block.mk [.scmd (.mk "header" []
        (some (.mk [.scmd (.mk "cell" [] (some (.mk [.stext "a"])))])))])
      (newPageCollector 100 50 ⟨10, 10, 10, 10⟩)
      (⟨10, 10, 80, 35, true, "", "anywhere"⟩ : Frame) []
      [] 80 0 0
      (⟨10, 35, 80, 0, [80],
        [⟨35, 12 * PtToMm + 2 * (12 / 10), true,
          [⟨⟨"a", 10 + 12 / 10, 35 + 12 / 10, 80 - 2 * (12 / 10),
             12 * PtToMm * (14 / 10), "Body", 12 * PtToMm, ⟨30, 30, 30⟩,
             [⟨"a", 5, 12 * PtToMm, 0⟩], 12 * PtToMm, "", "anywhere",
             none⟩⟩]⟩],
        ⟨200, 200, 200⟩⟩ : TableBox)
      (12 * PtToMm + 2 * (12 / 10))
      (⟨⟨100, 50, ⟨10, 10, 10, 10⟩,
         [emptyAcc, ⟨[], [], [⟨10, 10, 80, 0, [80],
           [⟨10, 12 * PtToMm + 2 * (12 / 10), true,
             [⟨⟨"a", 10 + 12 / 10, 10 + 12 / 10, 80 - 2 * (12 / 10),
                12 * PtToMm * (14 / 10), "Body", 12 * PtToMm, ⟨30, 30, 30⟩,
                [⟨"a", 5, 12 * PtToMm, 0⟩], 12 * PtToMm, "", "anywhere",
                none⟩⟩]⟩],
           ⟨200, 200, 200⟩⟩], [], [], []⟩], 1, emptyHF, emptyHF⟩,
        ⟨10, 10, 80, 10 + (12 * PtToMm + 2 * (12 / 10)) + blockSpacing, true,
         "", "anywhere"⟩, ([] : List Frame)⟩)
      (by simp [parseArgs, mergeStyleAttributes])
      (by simp [tableWidthAttr, attrGet, List.lookup])
      (by simp [tableRowGapAttr, attrGet, List.lookup, defaultTableRowGap])
      (by simp [tableColumnsAttr, attrGet, List.lookup])
      rfl
      (by simp [newPageCollector, Collector.newPage])
      ?_ ?_ ?_
    · simp +decide [buildTableAt, tableLoop, buildTableRow, buildRowCells,
        parseArgs, parseArgsPairs, mergeStyleAttributes, attrGet, extractText,
        normalizeWrap, composeTextBox, layoutLines, normLines, sumGH,
        resolveColor, resolveFontResource, parseLength, trimUnit, trimSpaceCh,
        toLowerCh, hasSuffixCh, listEqCh, parseFloatQ?, parseUnsignedDec?,
        isDigitB, digitsToNat, dropRightCh, List.lookup, PtToMm, cellPadding,
        Cmd.name, Cmd.args, Cmd.block?, Block.statements, defaultTableRowGap]
      norm_num
    · simp [newPageCollector, Collector.newPage, Collector.maxContentY,
        Collector.contentBottom, emptyHF, PtToMm]
      norm_num
    · simp +decide [handleTable, buildTableAt, tableLoop, buildTableRow,
        buildRowCells, tableWidthAttr, tableRowGapAttr, tableColumnsAttr,
        parseArgs, parseArgsPairs, mergeStyleAttributes, attrGet, extractText,
        normalizeWrap, composeTextBox, layoutLines, normLines, sumGH,
        resolveColor, resolveFontResource, parseLength, trimUnit, trimSpaceCh,
        toLowerCh, hasSuffixCh, listEqCh, parseFloatQ?, parseUnsignedDec?,
        isDigitB, digitsToNat, dropRightCh, List.lookup, PtToMm, cellPadding,
        newPageCollector, Collector.newPage, Collector.withCurr,
        Collector.contentTop, Collector.maxContentY, Collector.contentBottom,
        pageBreakRec, emptyAcc, emptyHF, Cmd.name, Cmd.args, Cmd.block?,
        Block.statements, blockSpacing, defaultTableRowGap]
      norm_num

/-- `withCurr` on a nonempty accumulator list keeps the list length, the
current index and nonemptiness. -/
theorem withCurr_stable (col : Collector) (g : PageAcc → PageAcc)
    (hne : col.accs ≠ []) :
    (col.withCurr g).accs.length = col.accs.length ∧
    (col.withCurr g).current = col.current ∧
    (col.withCurr g).accs ≠ [] := by
  have hemp : col.accs.isEmpty = false := by
    cases hacc : col.accs with
    | nil => exact absurd hacc hne
    | cons a as => rfl
  refine ⟨?_, ?_, ?_⟩
  · simp [Collector.withCurr, hemp]
  · simp [Collector.withCurr, hemp]
  · simp only [Collector.withCurr, hemp, Bool.false_eq_true, if_false]
    simp only [ne_eq, List.set_eq_nil_iff]
    exact hne

/-- `ensureSpace` is the identity when page breaks are not allowed. -/
theorem ensureSpace_noBreak (margin : Margin) (height : ℚ) (col : Collector)
    (f : Frame) (anc : List Frame) (hallow : f.allowPageBreak = false) :
    ensureSpace margin height col f anc = (col, f, anc) := by
  simp [ensureSpace, hallow]

set_option maxHeartbeats 1000000 in
/-- `handleText` under a no-break context: the collector keeps its page
count and current index, the ancestors are untouched, and the frame still
forbids page breaks. -/
theorem handleText_noBreak (env : Env) (res : ResourceSet) (cmd : Cmd)
    (col : Collector) (f : Frame) (anc : List Frame)
    (col' : Collector) (f' : Frame) (anc' : List Frame)
    (hne : col.accs ≠ []) (hallow : f.allowPageBreak = false)
    (h : handleText env res cmd col f anc = .ok (col', f', anc')) :
    col'.accs.length = col.accs.length ∧ col'.current = col.current ∧
    col'.accs ≠ [] ∧ anc' = anc ∧ f'.allowPageBreak = false := by
  rw [handleText] at h
  match hb : cmd.block? with
  | none => rw [hb] at h; cases h
  | some b =>
    simp only [hb] at h
    rcases hpa : parseArgs cmd.args true with ⟨sn, a0⟩
    simp only [hpa] at h
    split at h
    · cases h
    · split at h
      · cases h
      · rw [ensureSpace_noBreak env.margin _ col f anc hallow] at h
        cases h
        refine ⟨?_, ?_, ?_, rfl, hallow⟩
        · exact (withCurr_stable _ _ hne).1
        · exact (withCurr_stable _ _ hne).2.1
        · exact (withCurr_stable _ _ hne).2.2

/-- `handleImage` under a no-break context. -/
theorem handleImage_noBreak (env : Env) (res : ResourceSet) (cmd : Cmd)
    (col : Collector) (f : Frame) (anc : List Frame)
    (col' : Collector) (f' : Frame) (anc' : List Frame)
    (hne : col.accs ≠ []) (hallow : f.allowPageBreak = false)
    (h : handleImage env res cmd col f anc = .ok (col', f', anc')) :
    col'.accs.length = col.accs.length ∧ col'.current = col.current ∧
    col'.accs ≠ [] ∧ anc' = anc ∧ f'.allowPageBreak = false := by
  rw [handleImage] at h
  split at h
  · cases h
  · rw [ensureSpace_noBreak env.margin _ col f anc hallow] at h
    cases h
    refine ⟨?_, ?_, ?_, rfl, hallow⟩
    · exact (withCurr_stable _ _ hne).1
    · exact (withCurr_stable _ _ hne).2.1
    · exact (withCurr_stable _ _ hne).2.2

set_option maxHeartbeats 1000000 in
/-- `handleTable` under a no-break context. -/
theorem handleTable_noBreak (env : Env) (res : ResourceSet) (cmd : Cmd)
    (col : Collector) (f : Frame) (anc : List Frame)
    (col' : Collector) (f' : Frame) (anc' : List Frame)
    (hne : col.accs ≠ []) (hallow : f.allowPageBreak = false)
    (h : handleTable env res cmd col f anc = .ok (col', f', anc')) :
    col'.accs.length = col.accs.length ∧ col'.current = col.current ∧
    col'.accs ≠ [] ∧ anc' = anc ∧ f'.allowPageBreak = false := by
  rw [handleTable] at h
  match hb : cmd.block? with
  | none => rw [hb] at h; cases h
  | some b =>
    simp only [hb] at h
    rcases hpa : parseArgs cmd.args false with ⟨sn, a0⟩
    simp only [hpa] at h
    split at h
    · cases h
    · simp only [hallow, false_and, if_false] at h
      cases h
      refine ⟨?_, ?_, ?_, rfl, rfl⟩
      · exact (withCurr_stable _ _ hne).1
      · exact (withCurr_stable _ _ hne).2.1
      · exact (withCurr_stable _ _ hne).2.2

/-- No-break invariant of the whole engine, by mutual induction: in a
context that forbids page breaks (and below it), processing never creates
a page accumulator, never moves the current index, and returns the
ancestor chain untouched; `handleAbsolute` additionally returns the parent
frame itself unchanged, whatever the parent's own flag. -/
theorem engine_noBreak (env : Env) (res : ResourceSet) :
    (∀ (stmts : List Stmt) (col : Collector) (f : Frame) (anc : List Frame),
      col.accs ≠ [] → f.allowPageBreak = false →
      ∀ (col' : Collector) (f' : Frame) (anc' : List Frame),
        processStmts env res stmts col f anc = .ok (col', f', anc') →
        col'.accs.length = col.accs.length ∧ col'.current = col.current ∧
        col'.accs ≠ [] ∧ anc' = anc ∧ f'.allowPageBreak = false) ∧
    (∀ (cmd : Cmd) (col : Collector) (f : Frame) (anc : List Frame),
      col.accs ≠ [] → f.allowPageBreak = false →
      ∀ (col' : Collector) (f' : Frame) (anc' : List Frame),
        processCmd env res cmd col f anc = .ok (col', f', anc') →
        col'.accs.length = col.accs.length ∧ col'.current = col.current ∧
        col'.accs ≠ [] ∧ anc' = anc ∧ f'.allowPageBreak = false) ∧
    (∀ (cmd : Cmd) (col : Collector) (f : Frame) (anc : List Frame),
      col.accs ≠ [] →
      ∀ (col' : Collector) (f' : Frame) (anc' : List Frame),
        handleAbsolute env res cmd col f anc = .ok (col', f', anc') →
        col'.accs.length = col.accs.length ∧ col'.current = col.current ∧
        col'.accs ≠ [] ∧ anc' = anc ∧ f' = f) ∧
    (∀ (cmd : Cmd) (col : Collector) (f : Frame) (anc : List Frame),
      col.accs ≠ [] → f.allowPageBreak = false →
      ∀ (col' : Collector) (f' : Frame) (anc' : List Frame),
        handleFlow env res cmd col f anc = .ok (col', f', anc') →
        col'.accs.length = col.accs.length ∧ col'.current = col.current ∧
        col'.accs ≠ [] ∧ anc' = anc ∧ f'.allowPageBreak = false) := by
  refine processStmts.mutual_induct env res
    (fun stmts col f anc =>
      col.accs ≠ [] → f.allowPageBreak = false →
      ∀ (col' : Collector) (f' : Frame) (anc' : List Frame),
        processStmts env res stmts col f anc = .ok (col', f', anc') →
        col'.accs.length = col.accs.length ∧ col'.current = col.current ∧
        col'.accs ≠ [] ∧ anc' = anc ∧ f'.allowPageBreak = false)
    (fun cmd col f anc =>
      col.accs ≠ [] → f.allowPageBreak = false →
      ∀ (col' : Collector) (f' : Frame) (anc' : List Frame),
        processCmd env res cmd col f anc = .ok (col', f', anc') →
        col'.accs.length = col.accs.length ∧ col'.current = col.current ∧
        col'.accs ≠ [] ∧ anc' = anc ∧ f'.allowPageBreak = false)
    (fun cmd col f anc =>
      col.accs ≠ [] →
      ∀ (col' : Collector) (f' : Frame) (anc' : List Frame),
        handleAbsolute env res cmd col f anc = .ok (col', f', anc') →
        col'.accs.length = col.accs.length ∧ col'.current = col.current ∧
        col'.accs ≠ [] ∧ anc' = anc ∧ f' = f)
    (fun cmd col f anc =>
      col.accs ≠ [] → f.allowPageBreak = false →
      ∀ (col' : Collector) (f' : Frame) (anc' : List Frame),
        handleFlow env res cmd col f anc = .ok (col', f', anc') →
        col'.accs.length = col.accs.length ∧ col'.current = col.current ∧
        col'.accs ≠ [] ∧ anc' = anc ∧ f'.allowPageBreak = false)
    ?_ ?_ ?_ ?_ ?_ ?_ ?_ ?_ ?_ ?_ ?_ ?_ ?_ ?_ ?_ ?_ ?_ ?_ ?_ ?_ ?_ ?_ ?_ ?_ ?_
  -- m1: empty statement list
  · intro col f anc hne hallow col' f' anc' h
    rw [processStmts] at h
    cases h
    exact ⟨rfl, rfl, hne, rfl, hallow⟩
  -- m1: head command errors
  · intro cmd rest col f anc e herr _ hne hallow col' f' anc' h
    rw [processStmts] at h
    simp only [herr] at h
    cases h
  -- m1: head command succeeds
  · intro cmd rest col f anc col1 f1 anc1 hok ih2 ih1 hne hallow col' f' anc' h
    rw [processStmts] at h
    simp only [hok] at h
    have s2 := ih2 hne hallow col1 f1 anc1 hok
    have s1 := ih1 s2.2.2.1 s2.2.2.2.2 col' f' anc' h
    exact ⟨s1.1.trans s2.1, s1.2.1.trans s2.2.1, s1.2.2.1,
      s1.2.2.2.1.trans s2.2.2.2.1, s1.2.2.2.2⟩
  -- m1: non-command statement
  · intro head rest col f anc hns ih hne hallow col' f' anc' h
    rw [processStmts] at h
    exact ih hne hallow col' f' anc' h
    exact hns
  -- m2: flow
  · intro cmd col f anc hname ih4 hne hallow col' f' anc' h
    rw [processCmd, if_pos hname] at h
    exact ih4 hne hallow col' f' anc' h
  -- m2: absolute
  · intro cmd col f anc h1 h2 ih3 hne hallow col' f' anc' h
    rw [processCmd, if_neg h1, if_pos h2] at h
    have s := ih3 hne col' f' anc' h
    refine ⟨s.1, s.2.1, s.2.2.1, s.2.2.2.1, ?_⟩
    rw [s.2.2.2.2]
    exact hallow
  -- m2: text
  · intro cmd col f anc h1 h2 h3 hne hallow col' f' anc' h
    rw [processCmd, if_neg h1, if_neg h2, if_pos h3] at h
    exact handleText_noBreak env res cmd col f anc col' f' anc' hne hallow h
  -- m2: image
  · intro cmd col f anc h1 h2 h3 h4 hne hallow col' f' anc' h
    rw [processCmd, if_neg h1, if_neg h2, if_neg h3, if_pos h4] at h
    exact handleImage_noBreak env res cmd col f anc col' f' anc' hne hallow h
  -- m2: table
  · intro cmd col f anc h1 h2 h3 h4 h5 hne hallow col' f' anc' h
    rw [processCmd, if_neg h1, if_neg h2, if_neg h3, if_neg h4, if_pos h5] at h
    exact handleTable_noBreak env res cmd col f anc col' f' anc' hne hallow h
  -- m2: line shape parsed
  · intro cmd col f anc h1 h2 h3 h4 h5 nm hnm sn a0 hpa ln hline hne hallow
      col' f' anc' h
    rw [processCmd, if_neg h1, if_neg h2, if_neg h3, if_neg h4, if_neg h5] at h
    simp only [hpa, show toLowerCh cmd.name = "line" from hnm, hline,
      if_pos rfl] at h
    cases h
    refine ⟨?_, ?_, ?_, rfl, hallow⟩
    · exact (withCurr_stable _ _ hne).1
    · exact (withCurr_stable _ _ hne).2.1
    · exact (withCurr_stable _ _ hne).2.2
  -- m2: line shape rejected
  · intro cmd col f anc h1 h2 h3 h4 h5 nm hnm sn a0 hpa hline hne hallow
      col' f' anc' h
    rw [processCmd, if_neg h1, if_neg h2, if_neg h3, if_neg h4, if_neg h5] at h
    simp only [hpa, show toLowerCh cmd.name = "line" from hnm, hline,
      if_pos rfl, Prod.mk.injEq] at h
    obtain ⟨rfl, rfl, rfl⟩ := h
    exact ⟨rfl, rfl, hne, rfl, hallow⟩
  -- m2: rect shape parsed
  · intro cmd col f anc h1 h2 h3 h4 h5 nm hnm1 hnm sn a0 hpa rc hrect hne
      hallow col' f' anc' h
    rw [processCmd, if_neg h1, if_neg h2, if_neg h3, if_neg h4, if_neg h5] at h
    simp only [hpa, show toLowerCh cmd.name = "rect" from hnm,
      show ¬toLowerCh cmd.name = "line" from hnm1, hrect, if_pos rfl,
      if_neg] at h
    cases h
    refine ⟨?_, ?_, ?_, rfl, hallow⟩
    · exact (withCurr_stable _ _ hne).1
    · exact (withCurr_stable _ _ hne).2.1
    · exact (withCurr_stable _ _ hne).2.2
  -- m2: rect shape rejected
  · intro cmd col f anc h1 h2 h3 h4 h5 nm hnm1 hnm sn a0 hpa hrect hne hallow
      col' f' anc' h
    rw [processCmd, if_neg h1, if_neg h2, if_neg h3, if_neg h4, if_neg h5] at h
    simp only [hpa, show toLowerCh cmd.name = "rect" from hnm,
      show ¬toLowerCh cmd.name = "line" from hnm1, hrect, if_pos rfl,
      if_neg, Prod.mk.injEq] at h
    obtain ⟨rfl, rfl, rfl⟩ := h
    exact ⟨rfl, rfl, hne, rfl, hallow⟩
  -- m2: circle shape parsed
  · intro cmd col f anc h1 h2 h3 h4 h5 nm hnm1 hnm2 hnm sn a0 hpa c hcirc hne
      hallow col' f' anc' h
    rw [processCmd, if_neg h1, if_neg h2, if_neg h3, if_neg h4, if_neg h5] at h
    simp only [hpa, show toLowerCh cmd.name = "circle" from hnm,
      show ¬toLowerCh cmd.name = "line" from hnm1,
      show ¬toLowerCh cmd.name = "rect" from hnm2, hcirc, if_pos rfl,
      if_neg] at h
    cases h
    refine ⟨?_, ?_, ?_, rfl, hallow⟩
    · exact (withCurr_stable _ _ hne).1
    · exact (withCurr_stable _ _ hne).2.1
    · exact (withCurr_stable _ _ hne).2.2
  -- m2: circle shape rejected
  · intro cmd col f anc h1 h2 h3 h4 h5 nm hnm1 hnm2 hnm sn a0 hpa hcirc hne
      hallow col' f' anc' h
    rw [processCmd, if_neg h1, if_neg h2, if_neg h3, if_neg h4, if_neg h5] at h
    simp only [hpa, show toLowerCh cmd.name = "circle" from hnm,
      show ¬toLowerCh cmd.name = "line" from hnm1,
      show ¬toLowerCh cmd.name = "rect" from hnm2, hcirc, if_pos rfl,
      if_neg, Prod.mk.injEq] at h
    obtain ⟨rfl, rfl, rfl⟩ := h
    exact ⟨rfl, rfl, hne, rfl, hallow⟩
  -- m2: unknown command
  · intro cmd col f anc h1 h2 h3 h4 h5 nm hnm1 hnm2 hnm3 hne hallow
      col' f' anc' h
    rw [processCmd, if_neg h1, if_neg h2, if_neg h3, if_neg h4, if_neg h5] at h
    simp only [show ¬toLowerCh cmd.name = "line" from hnm1,
      show ¬toLowerCh cmd.name = "rect" from hnm2,
      show ¬toLowerCh cmd.name = "circle" from hnm3, if_neg,
      Prod.mk.injEq] at h
    obtain ⟨rfl, rfl, rfl⟩ := h
    exact ⟨rfl, rfl, hne, rfl, hallow⟩
  -- m3: absolute without a block
  · intro col f anc name args hne col' f' anc' h
    rw [handleAbsolute] at h
    cases h
  -- m3: child processing errors
  · intro col f anc name args stmts child e herr _ hne col' f' anc' h
    rw [handleAbsolute] at h
    simp only [herr] at h
    cases h
  -- m3: child processing returns an empty parent chain (impossible)
  · intro col f anc name args stmts child col1 f1 hok ih1 hne col' f' anc' h
    have s := ih1 hne rfl col1 f1 [] hok
    exact absurd s.2.2.2.1.symm (List.cons_ne_nil f anc)
  -- m3: child processing succeeds
  · intro col f anc name args stmts child col1 f1 g anc1 hok ih1 hne
      col' f' anc' h
    rw [handleAbsolute] at h
    simp only [hok, Prod.mk.injEq] at h
    obtain ⟨rfl, rfl, rfl⟩ := h
    have s := ih1 hne rfl col1 f1 (g :: anc1) hok
    injection s.2.2.2.1 with hg hanc
    exact ⟨s.1, s.2.1, s.2.2.1, hanc, hg⟩
  -- m4: flow without a block
  · intro col f anc name args hne hallow col' f' anc' h
    rw [handleFlow] at h
    cases h
  -- m4: child processing errors
  · intro col f anc name args stmts child e herr _ hne hallow col' f' anc' h
    rw [handleFlow] at h
    simp only [herr] at h
    cases h
  -- m4: child processing returns an empty parent chain (impossible)
  · intro col f anc name args stmts child col1 f1 hok ih1 hne hallow
      col' f' anc' h
    have s := ih1 hne hallow col1 f1 [] hok
    exact absurd s.2.2.2.1.symm (List.cons_ne_nil f anc)
  -- m4: child succeeded, parent cursor advanced
  · intro col f anc name args stmts child col1 f1 g anc1 hgt hok ih1 hne
      hallow col' f' anc' h
    rw [handleFlow] at h
    simp only [hok, if_pos hgt, Prod.mk.injEq] at h
    obtain ⟨rfl, rfl, rfl⟩ := h
    have s := ih1 hne hallow col1 f1 (g :: anc1) hok
    injection s.2.2.2.1 with hg hanc
    refine ⟨s.1, s.2.1, s.2.2.1, hanc, ?_⟩
    show g.allowPageBreak = false
    rw [hg]
    exact hallow
  -- m4: child succeeded, parent cursor kept
  · intro col f anc name args stmts child col1 f1 g anc1 hgt hok ih1 hne
      hallow col' f' anc' h
    rw [handleFlow] at h
    simp only [hok, if_neg hgt, Prod.mk.injEq] at h
    obtain ⟨rfl, rfl, rfl⟩ := h
    have s := ih1 hne hallow col1 f1 (g :: anc1) hok
    injection s.2.2.2.1 with hg hanc
    refine ⟨s.1, s.2.1, s.2.2.1, hanc, ?_⟩
    show g.allowPageBreak = false
    rw [hg]
    exact hallow


/-- C4: processing an absolute container never triggers a page break and
never changes the parent: on success the collector has the same number of
page accumulators and the same current index, the ancestor chain is
returned untouched, and the parent frame — its cursorY in particular — is
unchanged. -/
theorem handleAbsolute_frame (env : Env) (res : ResourceSet) (cmd : Cmd)
    (col : Collector) (f : Frame) (anc : List Frame)
    (col' : Collector) (f' : Frame) (anc' : List Frame)
    (hne : col.accs ≠ [])
    (h : handleAbsolute env res cmd col f anc = .ok (col', f', anc')) :
    col'.accs.length = col.accs.length ∧ col'.current = col.current ∧
    anc' = anc ∧ f' = f ∧ f'.cursorY = f.cursorY := by
  have s := (engine_noBreak env res).2.2.1 cmd col f anc hne col' f' anc' h
  exact ⟨s.1, s.2.1, s.2.2.2.1, s.2.2.2.2, by rw [s.2.2.2.2]⟩

/-- Witness for C4: an absolute container holding one text keeps the
single page accumulator, the current index and the parent frame. -/
theorem handleAbsolute_frame_witness :
    (newPageCollector 210 297 ⟨20, 20, 20, 20⟩).accs ≠ [] ∧
    handleAbsolute
      (⟨none, fun _ _ _ _ _ _ => .ok [⟨"hi", 9, 0, 5⟩], ⟨false⟩,
        ⟨20, 20, 20, 20⟩⟩ : Env)
      (⟨[("Body", ⟨"Body", "", "", "", "Body", false, ""⟩)], [], [], []⟩ : ResourceSet)
      (.mk "absolute" []
        (some (.mk [.scmd (.mk "text" [] (some (.mk [.stext "hi"])))])))
      (newPageCollector 210 297 ⟨20, 20, 20, 20⟩)
      (⟨20, 20, 170, 20, true, "", "anywhere"⟩ : Frame) []
      = .ok
        (⟨210, 297, ⟨20, 20, 20, 20⟩,
          [⟨[⟨"hi", 20, 20, 170, 12 * PtToMm * (14 / 10), "Body", 12 * PtToMm,
             ⟨30, 30, 30⟩, [⟨"hi", 9, 12 * PtToMm, 0⟩], 12 * PtToMm, "", "",
             none⟩], [], [], [], [], []⟩], 0, emptyHF, emptyHF⟩,
         (⟨20, 20, 170, 20, true, "", "anywhere"⟩ : Frame), []) ∧
    (⟨210, 297, ⟨20, 20, 20, 20⟩,
      [⟨[⟨"hi", 20, 20, 170, 12 * PtToMm * (14 / 10), "Body", 12 * PtToMm,
         ⟨30, 30, 30⟩, [⟨"hi", 9, 12 * PtToMm, 0⟩], 12 * PtToMm, "", "",
         none⟩], [], [], [], [], []⟩], 0, emptyHF, emptyHF⟩ : Collector).accs.length
      = (newPageCollector 210 297 ⟨20, 20, 20, 20⟩).accs.length ∧
    (⟨210, 297, ⟨20, 20, 20, 20⟩,
      [⟨[⟨"hi", 20, 20, 170, 12 * PtToMm * (14 / 10), "Body", 12 * PtToMm,
         ⟨30, 30, 30⟩, [⟨"hi", 9, 12 * PtToMm, 0⟩], 12 * PtToMm, "", "",
         none⟩], [], [], [], [], []⟩], 0, emptyHF, emptyHF⟩ : Collector).current
      = (newPageCollector 210 297 ⟨20, 20, 20, 20⟩).current ∧
    (⟨20, 20, 170, 20, true, "", "anywhere"⟩ : Frame).cursorY
      = (⟨20, 20, 170, 20, true, "", "anywhere"⟩ : Frame).cursorY := by
  have hne : (newPageCollector 210 297 (⟨20, 20, 20, 20⟩ : Margin)).accs ≠ [] := by
    simp [newPageCollector, Collector.newPage]
  have heval : handleAbsolute
      (⟨none, fun _ _ _ _ _ _ => .ok [⟨"hi", 9, 0, 5⟩], ⟨false⟩,
        ⟨20, 20, 20, 20⟩⟩ : Env)
      (⟨[("Body", ⟨"Body", "", "", "", "Body", false, ""⟩)], [], [], []⟩ : ResourceSet)
      (.mk "absolute" []
        (some (.mk [.scmd (.mk "text" [] (some (.mk [.stext "hi"])))])))
      (newPageCollector 210 297 ⟨20, 20, 20, 20⟩)
      (⟨20, 20, 170, 20, true, "", "anywhere"⟩ : Frame) []
      = .ok
        (⟨210, 297, ⟨20, 20, 20, 20⟩,
          [⟨[⟨"hi", 20, 20, 170, 12 * PtToMm * (14 / 10), "Body", 12 * PtToMm,
             ⟨30, 30, 30⟩, [⟨"hi", 9, 12 * PtToMm, 0⟩], 12 * PtToMm, "", "",
             none⟩], [], [], [], [], []⟩], 0, emptyHF, emptyHF⟩,
         (⟨20, 20, 170, 20, true, "", "anywhere"⟩ : Frame), []) := by
    simp +decide [handleAbsolute, absChild, processStmts, processCmd,
      handleText, ensureSpace, parseArgs, parseArgsPairs,
      mergeStyleAttributes, attrGet, extractText, normalizeWrap,
      composeTextBox, layoutLines, normLines, sumGH, resolveColor,
      resolveFontResource, parseLength, trimUnit, trimSpaceCh, toLowerCh,
      hasSuffixCh, listEqCh, parseFloatQ?, parseUnsignedDec?, isDigitB,
      digitsToNat, dropRightCh, List.lookup, PtToMm, newPageCollector,
      Collector.newPage, Collector.withCurr, Collector.maxContentY,
      Collector.contentBottom, emptyAcc, emptyHF, Cmd.name, Cmd.args,
      Cmd.block?, Block.statements, blockSpacing]
  have hmain := handleAbsolute_frame
    (⟨none, fun _ _ _ _ _ _ => .ok [⟨"hi", 9, 0, 5⟩], ⟨false⟩,
      ⟨20, 20, 20, 20⟩⟩ : Env)
    (⟨[("Body", ⟨"Body", "", "", "", "Body", false, ""⟩)], [], [], []⟩ : ResourceSet)
    (.mk "absolute" []
      (some (.mk [.scmd (.mk "text" [] (some (.mk [.stext "hi"])))])))
    (newPageCollector 210 297 ⟨20, 20, 20, 20⟩)
    (⟨20, 20, 170, 20, true, "", "anywhere"⟩ : Frame) [] _ _ _ hne heval
  exact ⟨hne, heval, hmain.1, hmain.2.1, hmain.2.2.2.2⟩

/-- `withCurr` never removes page accumulators. -/
theorem withCurr_mono (col : Collector) (g : PageAcc → PageAcc) :
    col.accs.length ≤ (col.withCurr g).accs.length := by
  by_cases hemp : col.accs.isEmpty
  · have : col.accs = [] := by simpa using hemp
    simp [Collector.withCurr, hemp, Collector.newPage, this]
  · have hemp' : col.accs.isEmpty = false := by simpa using hemp
    simp [Collector.withCurr, hemp']

/-- `ensureSpace` never removes page accumulators. -/
theorem ensureSpace_mono (margin : Margin) (height : ℚ) (col : Collector)
    (f : Frame) (anc : List Frame) :
    col.accs.length ≤ (ensureSpace margin height col f anc).1.accs.length := by
  rw [ensureSpace]
  split
  · exact le_refl _
  · split
    · exact le_refl _
    · have h := pageBreakRec_spec margin anc col f
      rw [h.1]
      simp [Collector.newPage]

/-- `handleText` never removes page accumulators. -/
theorem handleText_mono (env : Env) (res : ResourceSet) (cmd : Cmd)
    (col : Collector) (f : Frame) (anc : List Frame)
    (col' : Collector) (f' : Frame) (anc' : List Frame)
    (h : handleText env res cmd col f anc = .ok (col', f', anc')) :
    col.accs.length ≤ col'.accs.length := by
  rw [handleText] at h
  match hb : cmd.block? with
  | none => rw [hb] at h; cases h
  | some b =>
    simp only [hb] at h
    rcases hpa : parseArgs cmd.args true with ⟨sn, a0⟩
    simp only [hpa] at h
    split at h
    · cases h
    · split at h
      · cases h
      · cases h
        calc col.accs.length
            ≤ (ensureSpace env.margin _ col f anc).1.accs.length :=
              ensureSpace_mono env.margin _ col f anc
          _ ≤ _ := withCurr_mono _ _

/-- `handleImage` never removes page accumulators. -/
theorem handleImage_mono (env : Env) (res : ResourceSet) (cmd : Cmd)
    (col : Collector) (f : Frame) (anc : List Frame)
    (col' : Collector) (f' : Frame) (anc' : List Frame)
    (h : handleImage env res cmd col f anc = .ok (col', f', anc')) :
    col.accs.length ≤ col'.accs.length := by
  rw [handleImage] at h
  split at h
  · cases h
  · cases h
    calc col.accs.length
        ≤ (ensureSpace env.margin _ col f anc).1.accs.length :=
          ensureSpace_mono env.margin _ col f anc
      _ ≤ _ := withCurr_mono _ _

/-- `handleTable` never removes page accumulators. -/
theorem handleTable_mono (env : Env) (res : ResourceSet) (cmd : Cmd)
    (col : Collector) (f : Frame) (anc : List Frame)
    (col' : Collector) (f' : Frame) (anc' : List Frame)
    (h : handleTable env res cmd col f anc = .ok (col', f', anc')) :
    col.accs.length ≤ col'.accs.length := by
  rw [handleTable] at h
  match hb : cmd.block? with
  | none => rw [hb] at h; cases h
  | some b =>
    simp only [hb] at h
    rcases hpa : parseArgs cmd.args false with ⟨sn, a0⟩
    simp only [hpa] at h
    split at h
    · cases h
    · split at h
      · split at h
        · cases h
        · cases h
          have hpb := pageBreakRec_spec env.margin anc col f
          calc col.accs.length
              ≤ (pageBreakRec env.margin col f anc).1.accs.length := by
                rw [hpb.1]; simp [Collector.newPage]
            _ ≤ _ := withCurr_mono _ _
      · cases h
        exact withCurr_mono _ _


/-- Page-count monotonicity of the whole engine, by mutual induction:
processing statements can only add page accumulators, never remove
them. -/
theorem engine_mono (env : Env) (res : ResourceSet) :
    (∀ (stmts : List Stmt) (col : Collector) (f : Frame) (anc : List Frame)
       (col' : Collector) (f' : Frame) (anc' : List Frame),
      processStmts env res stmts col f anc = .ok (col', f', anc') →
      col.accs.length ≤ col'.accs.length) ∧
    (∀ (cmd : Cmd) (col : Collector) (f : Frame) (anc : List Frame)
       (col' : Collector) (f' : Frame) (anc' : List Frame),
      processCmd env res cmd col f anc = .ok (col', f', anc') →
      col.accs.length ≤ col'.accs.length) ∧
    (∀ (cmd : Cmd) (col : Collector) (f : Frame) (anc : List Frame)
       (col' : Collector) (f' : Frame) (anc' : List Frame),
      handleAbsolute env res cmd col f anc = .ok (col', f', anc') →
      col.accs.length ≤ col'.accs.length) ∧
    (∀ (cmd : Cmd) (col : Collector) (f : Frame) (anc : List Frame)
       (col' : Collector) (f' : Frame) (anc' : List Frame),
      handleFlow env res cmd col f anc = .ok (col', f', anc') →
      col.accs.length ≤ col'.accs.length) := by
  have main := processStmts.mutual_induct env res
    (fun stmts col f anc =>
      ∀ (col' : Collector) (f' : Frame) (anc' : List Frame),
        processStmts env res stmts col f anc = .ok (col', f', anc') →
        col.accs.length ≤ col'.accs.length)
    (fun cmd col f anc =>
      ∀ (col' : Collector) (f' : Frame) (anc' : List Frame),
        processCmd env res cmd col f anc = .ok (col', f', anc') →
        col.accs.length ≤ col'.accs.length)
    (fun cmd col f anc =>
      ∀ (col' : Collector) (f' : Frame) (anc' : List Frame),
        handleAbsolute env res cmd col f anc = .ok (col', f', anc') →
        col.accs.length ≤ col'.accs.length)
    (fun cmd col f anc =>
      ∀ (col' : Collector) (f' : Frame) (anc' : List Frame),
        handleFlow env res cmd col f anc = .ok (col', f', anc') →
        col.accs.length ≤ col'.accs.length)
    ?_ ?_ ?_ ?_ ?_ ?_ ?_ ?_ ?_ ?_ ?_ ?_ ?_ ?_ ?_ ?_ ?_ ?_ ?_ ?_ ?_ ?_ ?_ ?_ ?_
  · exact ⟨fun stmts col f anc => main.1 stmts col f anc,
      fun cmd col f anc => main.2.1 cmd col f anc,
      fun cmd col f anc => main.2.2.1 cmd col f anc,
      fun cmd col f anc => main.2.2.2 cmd col f anc⟩
  -- m1: empty statement list
  · intro col f anc col' f' anc' h
    rw [processStmts] at h
    cases h
    exact le_refl _
  -- m1: head command errors
  · intro cmd rest col f anc e herr _ col' f' anc' h
    rw [processStmts] at h
    simp only [herr] at h
    cases h
  -- m1: head command succeeds
  · intro cmd rest col f anc col1 f1 anc1 hok ih2 ih1 col' f' anc' h
    rw [processStmts] at h
    simp only [hok] at h
    exact (ih2 col1 f1 anc1 hok).trans (ih1 col' f' anc' h)
  -- m1: non-command statement
  · intro head rest col f anc hns ih col' f' anc' h
    rw [processStmts] at h
    exact ih col' f' anc' h
    exact hns
  -- m2: flow
  · intro cmd col f anc hname ih4 col' f' anc' h
    rw [processCmd, if_pos hname] at h
    exact ih4 col' f' anc' h
  -- m2: absolute
  · intro cmd col f anc h1 h2 ih3 col' f' anc' h
    rw [processCmd, if_neg h1, if_pos h2] at h
    exact ih3 col' f' anc' h
  -- m2: text
  · intro cmd col f anc h1 h2 h3 col' f' anc' h
    rw [processCmd, if_neg h1, if_neg h2, if_pos h3] at h
    exact handleText_mono env res cmd col f anc col' f' anc' h
  -- m2: image
  · intro cmd col f anc h1 h2 h3 h4 col' f' anc' h
    rw [processCmd, if_neg h1, if_neg h2, if_neg h3, if_pos h4] at h
    exact handleImage_mono env res cmd col f anc col' f' anc' h
  -- m2: table
  · intro cmd col f anc h1 h2 h3 h4 h5 col' f' anc' h
    rw [processCmd, if_neg h1, if_neg h2, if_neg h3, if_neg h4, if_pos h5] at h
    exact handleTable_mono env res cmd col f anc col' f' anc' h
  -- m2: line shape parsed
  · intro cmd col f anc h1 h2 h3 h4 h5 nm hnm sn a0 hpa ln hline col' f' anc' h
    rw [processCmd, if_neg h1, if_neg h2, if_neg h3, if_neg h4, if_neg h5] at h
    simp only [hpa, show toLowerCh cmd.name = "line" from hnm, hline,
      if_pos rfl] at h
    cases h
    exact withCurr_mono _ _
  -- m2: line shape rejected
  · intro cmd col f anc h1 h2 h3 h4 h5 nm hnm sn a0 hpa hline col' f' anc' h
    rw [processCmd, if_neg h1, if_neg h2, if_neg h3, if_neg h4, if_neg h5] at h
    simp only [hpa, show toLowerCh cmd.name = "line" from hnm, hline,
      if_pos rfl, Prod.mk.injEq] at h
    obtain ⟨rfl, rfl, rfl⟩ := h
    exact le_refl _
  -- m2: rect shape parsed
  · intro cmd col f anc h1 h2 h3 h4 h5 nm hnm1 hnm sn a0 hpa rc hrect
      col' f' anc' h
    rw [processCmd, if_neg h1, if_neg h2, if_neg h3, if_neg h4, if_neg h5] at h
    simp only [hpa, show toLowerCh cmd.name = "rect" from hnm,
      show ¬toLowerCh cmd.name = "line" from hnm1, hrect, if_pos rfl,
      if_neg] at h
    cases h
    exact withCurr_mono _ _
  -- m2: rect shape rejected
  · intro cmd col f anc h1 h2 h3 h4 h5 nm hnm1 hnm sn a0 hpa hrect
      col' f' anc' h
    rw [processCmd, if_neg h1, if_neg h2, if_neg h3, if_neg h4, if_neg h5] at h
    simp only [hpa, show toLowerCh cmd.name = "rect" from hnm,
      show ¬toLowerCh cmd.name = "line" from hnm1, hrect, if_pos rfl,
      if_neg, Prod.mk.injEq] at h
    obtain ⟨rfl, rfl, rfl⟩ := h
    exact le_refl _
  -- m2: circle shape parsed
  · intro cmd col f anc h1 h2 h3 h4 h5 nm hnm1 hnm2 hnm sn a0 hpa c hcirc
      col' f' anc' h
    rw [processCmd, if_neg h1, if_neg h2, if_neg h3, if_neg h4, if_neg h5] at h
    simp only [hpa, show toLowerCh cmd.name = "circle" from hnm,
      show ¬toLowerCh cmd.name = "line" from hnm1,
      show ¬toLowerCh cmd.name = "rect" from hnm2, hcirc, if_pos rfl,
      if_neg] at h
    cases h
    exact withCurr_mono _ _
  -- m2: circle shape rejected
  · intro cmd col f anc h1 h2 h3 h4 h5 nm hnm1 hnm2 hnm sn a0 hpa hcirc
      col' f' anc' h
    rw [processCmd, if_neg h1, if_neg h2, if_neg h3, if_neg h4, if_neg h5] at h
    simp only [hpa, show toLowerCh cmd.name = "circle" from hnm,
      show ¬toLowerCh cmd.name = "line" from hnm1,
      show ¬toLowerCh cmd.name = "rect" from hnm2, hcirc, if_pos rfl,
      if_neg, Prod.mk.injEq] at h
    obtain ⟨rfl, rfl, rfl⟩ := h
    exact le_refl _
  -- m2: unknown command
  · intro cmd col f anc h1 h2 h3 h4 h5 nm hnm1 hnm2 hnm3 col' f' anc' h
    rw [processCmd, if_neg h1, if_neg h2, if_neg h3, if_neg h4, if_neg h5] at h
    simp only [show ¬toLowerCh cmd.name = "line" from hnm1,
      show ¬toLowerCh cmd.name = "rect" from hnm2,
      show ¬toLowerCh cmd.name = "circle" from hnm3, if_neg,
      Prod.mk.injEq] at h
    obtain ⟨rfl, rfl, rfl⟩ := h
    exact le_refl _
  -- m3: absolute without a block
  · intro col f anc name args col' f' anc' h
    rw [handleAbsolute] at h
    cases h
  -- m3: child processing errors
  · intro col f anc name args stmts child e herr _ col' f' anc' h
    rw [handleAbsolute] at h
    simp only [herr] at h
    cases h
  -- m3: child returns an empty parent chain
  · intro col f anc name args stmts child col1 f1 hok ih1 col' f' anc' h
    rw [handleAbsolute] at h
    simp only [hok] at h
    cases h
  -- m3: child processing succeeds
  · intro col f anc name args stmts child col1 f1 g anc1 hok ih1 col' f' anc' h
    rw [handleAbsolute] at h
    simp only [hok, Prod.mk.injEq] at h
    obtain ⟨rfl, rfl, rfl⟩ := h
    exact ih1 col1 f1 (g :: anc1) hok
  -- m4: flow without a block
  · intro col f anc name args col' f' anc' h
    rw [handleFlow] at h
    cases h
  -- m4: child processing errors
  · intro col f anc name args stmts child e herr _ col' f' anc' h
    rw [handleFlow] at h
    simp only [herr] at h
    cases h
  -- m4: child returns an empty parent chain
  · intro col f anc name args stmts child col1 f1 hok ih1 col' f' anc' h
    rw [handleFlow] at h
    simp only [hok] at h
    cases h
  -- m4: child succeeded, parent cursor advanced
  · intro col f anc name args stmts child col1 f1 g anc1 hgt hok ih1
      col' f' anc' h
    rw [handleFlow] at h
    simp only [hok, if_pos hgt, Prod.mk.injEq] at h
    obtain ⟨rfl, rfl, rfl⟩ := h
    exact ih1 col1 f1 (g :: anc1) hok
  -- m4: child succeeded, parent cursor kept
  · intro col f anc name args stmts child col1 f1 g anc1 hgt hok ih1
      col' f' anc' h
    rw [handleFlow] at h
    simp only [hok, if_neg hgt, Prod.mk.injEq] at h
    obtain ⟨rfl, rfl, rfl⟩ := h
    exact ih1 col1 f1 (g :: anc1) hok


/-- On success, `buildPages` returns at least one page: the collector is
born with one accumulator, header/footer layout only swaps the
header/footer fields, and statement processing never removes a page. -/
theorem buildPages_pages_len (sec : PageSection) (res : ResourceSet)
    (data : Option JsonVal) (ts : Typesetter) (debug : DebugOptions)
    (pages : List Page)
    (h : buildPages sec res data ts debug = .ok pages) : 1 ≤ pages.length := by
  rw [buildPages] at h
  match hps : resolvePageSize sec.Spec with
  | .error e => simp only [hps] at h; cases h
  | .ok wh =>
    simp only [hps] at h
    match hb : sec.block? with
    | none => simp only [hb] at h; cases h
    | some b =>
      simp only [hb] at h
      split at h
      · cases h
      · rename_i col1 hcol1
        split at h
        · cases h
        · rename_i col2 hcol2
          split at h
          · cases h
          · rename_i out col' f' anc' hproc
            cases h
            have hmono := (engine_mono
              ⟨data, ts, debug, resolveMargin sec.Spec.Params⟩ res).1
              b.statements col2 _ [] col' f' anc' hproc
            have hc2 : col2.accs.length = col1.accs.length := by
              split at hcol2
              · cases hcol2; rfl
              · split at hcol2
                · cases hcol2
                · cases hcol2; rfl
            have hc1 : col1.accs.length =
                (newPageCollector wh.1 wh.2 (resolveMargin sec.Spec.Params)).accs.length := by
              split at hcol1
              · cases hcol1; rfl
              · split at hcol1
                · cases hcol1
                · cases hcol1; rfl
            have hnew : (newPageCollector wh.1 wh.2
                (resolveMargin sec.Spec.Params)).accs.length = 1 := by
              simp [newPageCollector, Collector.newPage]
            simp only [Collector.pages, Collector.allPages, List.length_map]
            omega

/-- C10: `newPageCollector` creates its single page accumulator at
construction, and every successful `Build` returns a result with at least
one page — an empty page block still yields one (empty) page. -/
theorem Build_at_least_one_page :
    (∀ (w h : ℚ) (m : Margin), (newPageCollector w h m).accs.length = 1) ∧
    (∀ (doc? : Option Document) (data : Option JsonVal) (opts : BuildOptions)
       (r : Result),
      Build doc? data opts = .ok r → 1 ≤ r.Pages.length) := by
  constructor
  · intro w h m
    simp [newPageCollector, Collector.newPage]
  · intro doc? data opts r hok
    rw [Build.eq_def] at hok
    match hdoc : doc? with
    | none => cases hok
    | some doc =>
      simp only [hdoc] at hok
      match hts : opts.Typesetter? with
      | none => rw [hts] at hok; cases hok
      | some ts =>
        simp only [hts] at hok
        match hres : collectResources doc with
        | .error e => simp only [hres] at hok; cases hok
        | .ok res =>
          simp only [hres] at hok
          match hfp : firstPage doc with
          | none => simp only [hfp] at hok; cases hok
          | some sec =>
            simp only [hfp] at hok
            match hbp : buildPages sec res data ts opts.Debug with
            | .error e => simp only [hbp] at hok; cases hok
            | .ok pages =>
              simp only [hbp] at hok
              cases hok
              exact buildPages_pages_len sec res data ts opts.Debug pages hbp

/-- Witness for C10: the minimal A4 document with an empty page block
builds exactly one empty page. -/
theorem Build_at_least_one_page_witness :
    Build
      (some ⟨[⟨none, none, some ⟨⟨"A4", []⟩, some (.mk [])⟩⟩]⟩)
      none
      ⟨some (fun _ _ _ _ _ _ => .ok []), ⟨false⟩⟩
      = .ok
        ⟨[⟨210, 297, ⟨20, 20, 20, 20⟩, [], [], [], [], [], [],
           emptyHF, emptyHF⟩],
         ⟨[("Body",
            ⟨"Body", "assets/fonts/Noto_Sans_SC/static/NotoSansSC-Regular.ttf",
             "", "", "Body", false,
             "embed:Inter/static/Inter-Regular.ttf"⟩)], [], [], []⟩,
         ⟨"", "", "", "Papyrus", []⟩⟩ ∧
    1 ≤ (⟨[⟨210, 297, ⟨20, 20, 20, 20⟩, [], [], [], [], [], [],
           emptyHF, emptyHF⟩],
         ⟨[("Body",
            ⟨"Body", "assets/fonts/Noto_Sans_SC/static/NotoSansSC-Regular.ttf",
             "", "", "Body", false,
             "embed:Inter/static/Inter-Regular.ttf"⟩)], [], [], []⟩,
         ⟨"", "", "", "Papyrus", []⟩⟩ : Result).Pages.length := by
  have heval : Build
      (some ⟨[⟨none, none, some ⟨⟨"A4", []⟩, some (.mk [])⟩⟩]⟩)
      none
      ⟨some (fun _ _ _ _ _ _ => .ok []), ⟨false⟩⟩
      = .ok
        ⟨[⟨210, 297, ⟨20, 20, 20, 20⟩, [], [], [], [], [], [],
           emptyHF, emptyHF⟩],
         ⟨[("Body",
            ⟨"Body", "assets/fonts/Noto_Sans_SC/static/NotoSansSC-Regular.ttf",
             "", "", "Body", false,
             "embed:Inter/static/Inter-Regular.ttf"⟩)], [], [], []⟩,
         ⟨"", "", "", "Papyrus", []⟩⟩ := by
    simp +decide [Build, collectResources, collectResourceSections,
      collectMeta, resolveStyles, resolveStylesLoop, firstPage, buildPages,
      resolvePageSize, pagePresets, toUpperCh, upperCh, resolveMargin,
      resolveMarginGo, newPageCollector, Collector.newPage,
      Collector.contentTop, Collector.pages, Collector.allPages, lastNamed,
      processStmts, emptyAcc, emptyHF, Block.statements, Cmd.name,
      Section.page?, Section.meta?, Section.resources?]
  exact ⟨heval, Build_at_least_one_page.2
    (some ⟨[⟨none, none, some ⟨⟨"A4", []⟩, some (.mk [])⟩⟩]⟩)
    none
    ⟨some (fun _ _ _ _ _ _ => .ok []), ⟨false⟩⟩
    _ heval⟩

end Papyrus
